import Mathlib

/-!
# Verification of the nuclei template execution core

Shallow embedding of `pkg/templates/cluster.go`, `pkg/types/errkit/errors.go`,
`pkg/protocols/http/request.go`, `pkg/protocols/common/contextargs/metainput.go` and
`pkg/js/libs/mysql/memo.go`, and a model of the workflow runner that
`pkg/core/workflow_execute_test.go` exercises.

Conventions of the embedding:

* a Go `map[int]V` is an association list `List (Nat × V)`; assignment and `delete`
  act by key. The order in which `range` yields the entries of a map is left open by
  the language, so it is supplied by an oracle (`RangeChoice`) that picks, among the
  entries not yet visited, the index of the next one;
* a run-time panic (index out of range, nil dereference) is the result `none`;
* methods implemented outside the modelled files (`IsClusterable`, `CanCluster`,
  `ExecuteWithResults`, `operators.Execute`, `SHA256Sum`, `md5.Sum`, ...) are parameters;
* JSON text is modelled by the object it denotes, key by key.
-/

namespace Templates

/-! ## Go maps with integer keys -/

/-- Go `m[k] = v` on an association list. -/
def mapSet {V : Type} (m : List (Nat × V)) (k : Nat) (v : V) : List (Nat × V) :=
  m.filter (fun e => e.1 != k) ++ [(k, v)]

/-- Go `delete(m, k)`. -/
def mapDelete {V : Type} (m : List (Nat × V)) (k : Nat) : List (Nat × V) :=
  m.filter (fun e => e.1 != k)

/-- Oracle for the unspecified iteration order of `range` over a map.
`outer keys` is the index (taken modulo the number of entries) of the entry the outer
loop over a bucket yields next when the bucket holds `keys`; `inner seed keys` is the
same for the inner loop run for the seed with key `seed`, `keys` being the entries that
loop has not visited yet. -/
structure RangeChoice where
  outer : List Nat → Nat
  inner : Nat → List Nat → Nat

/-- The order in which one complete `range` loop visits the entries `pending` when no
entry other than the visited one is deleted during the loop. -/
def rangeOrder {V : Type} (pick : List Nat → Nat) : Nat → List (Nat × V) → List (Nat × V)
  | 0, _ => []
  | n + 1, pending =>
    match pending[pick (pending.map Prod.fst) % pending.length]? with
    | none => []
    | some e => e :: rangeOrder pick n (pending.eraseIdx (pick (pending.map Prod.fst) % pending.length))

/-! ## Templates -/

/-- The fields of `Template` that clustering reads. `IsMultiProtocol` is
`Options.IsMultiProtocol`. -/
structure Template (D H S : Type) where
  ID : String
  Path : String
  Flow : String
  IsMultiProtocol : Bool
  RequestsDNS : List D
  RequestsHTTP : List H
  RequestsSSL : List S
deriving DecidableEq

/-- The two clustering methods of a protocol request type. -/
structure ReqMethods (R : Type) where
  IsClusterable : R → Bool
  CanCluster : R → R → Bool

/-- The clustering methods of the three protocol request types. -/
structure Protocols (D H S : Type) where
  dns : ReqMethods D
  http : ReqMethods H
  ssl : ReqMethods S

/-- State of `Cluster` after its first loop: the three buckets and `final`. -/
structure Buckets (T : Type) where
  http : List (Nat × T)
  dns : List (Nat × T)
  ssl : List (Nat × T)
  final : List (List (Nat × T))

/-- Body of the first loop of `Cluster` (lines 51-80) for the entry `key, template`. -/
def classify {D H S : Type} (P : Protocols D H S) (st : Buckets (Template D H S))
    (key : Nat) (template : Template D H S) : Buckets (Template D H S) :=
  if template.Flow != "" || template.IsMultiProtocol then
    { st with final := st.final ++ [[(key, template)]] }
  else
    match template.RequestsDNS with
    | [r] =>
      if P.dns.IsClusterable r then { st with dns := mapSet st.dns key template }
      else { st with final := st.final ++ [[(key, template)]] }
    | _ =>
      match template.RequestsHTTP with
      | [r] =>
        if P.http.IsClusterable r then { st with http := mapSet st.http key template }
        else { st with final := st.final ++ [[(key, template)]] }
      | _ =>
        match template.RequestsSSL with
        | [r] =>
          if P.ssl.IsClusterable r then { st with ssl := mapSet st.ssl key template }
          else { st with final := st.final ++ [[(key, template)]] }
        | _ => { st with final := st.final ++ [[(key, template)]] }

/-- The first loop of `Cluster`: `for key, template := range list`, `key` counting
from `key`. -/
def classifyFrom {D H S : Type} (P : Protocols D H S) :
    Nat → List (Template D H S) → Buckets (Template D H S) → Buckets (Template D H S)
  | _, [], st => st
  | key, template :: rest, st => classifyFrom P (key + 1) rest (classify P st key template)

/-- Body of the inner loop of a bucket (lines 87-92): `req` is the access
`RequestsXXX[0]`, which panics on an empty list. -/
def absorbStep {T R : Type} (req : T → Option R) (can : R → R → Bool) (template : T)
    (st : List (Nat × T) × List (Nat × T)) (other : Nat × T) :
    Option (List (Nat × T) × List (Nat × T)) :=
  match req template, req other.2 with
  | some a, some b =>
    if can a b then some (mapDelete st.1 other.1, st.2 ++ [other]) else some st
  | _, _ => none

/-- One of the three bucket loops of `Cluster` (lines 84-94, 96-106, 108-118), run on
the bucket `m`; the result is what the loop appends to `final`. -/
def clusterBucket {T R : Type} (req : T → Option R) (can : R → R → Bool) (ch : RangeChoice) :
    Nat → List (Nat × T) → Option (List (List (Nat × T)))
  | 0, _ => some []
  | n + 1, m =>
    match m[ch.outer (m.map Prod.fst) % m.length]? with
    | none => some []
    | some seed =>
      let m1 := mapDelete m seed.1
      match (rangeOrder (ch.inner seed.1) m1.length m1).foldlM
          (absorbStep req can seed.2) (m1, [seed]) with
      | none => none
      | some (m2, cluster) =>
        match clusterBucket req can ch n m2 with
        | none => none
        | some groups => some (cluster :: groups)

/-- Go `Cluster` with every template paired with its position in `list`. -/
def ClusterKeyed {D H S : Type} (P : Protocols D H S) (ch : RangeChoice)
    (list : List (Template D H S)) : Option (List (List (Nat × Template D H S))) :=
  let st := classifyFrom P 0 list { http := [], dns := [], ssl := [], final := [] }
  match clusterBucket (fun t => t.RequestsDNS[0]?) P.dns.CanCluster ch st.dns.length st.dns with
  | none => none
  | some d =>
    match clusterBucket (fun t => t.RequestsHTTP[0]?) P.http.CanCluster ch st.http.length st.http with
    | none => none
    | some h =>
      match clusterBucket (fun t => t.RequestsSSL[0]?) P.ssl.CanCluster ch st.ssl.length st.ssl with
      | none => none
      | some s => some (st.final ++ d ++ h ++ s)

/-- Go `Cluster(list)`: the groups of templates. -/
def Cluster {D H S : Type} (P : Protocols D H S) (ch : RangeChoice)
    (list : List (Template D H S)) : Option (List (List (Template D H S))) :=
  (ClusterKeyed P ch list).map (fun groups => groups.map (fun g => g.map Prod.snd))

/-! ## Specification vocabulary for `Cluster` -/

/-- Go `CanCluster` between the first requests of two templates (false when one has none). -/
def canPair {T R : Type} (req : T → Option R) (can : R → R → Bool) (a b : T) : Bool :=
  match req a, req b with
  | some x, some y => can x y
  | _, _ => false

/-- What one bucket loop returns: `groups` partitions `m`, every group is a seed followed
by entries the seed can cluster with, and the seed of a group cannot cluster with any
member of a later group. -/
def BucketSpec {T R : Type} (req : T → Option R) (can : R → R → Bool)
    (m : List (Nat × T)) (groups : List (List (Nat × T))) : Prop :=
  groups.flatten.Perm m ∧
  (∀ g ∈ groups, ∃ seed rest, g = seed :: rest ∧
      ∀ o ∈ rest, canPair req can seed.2 o.2 = true) ∧
  groups.Pairwise (fun g g' => ∀ seed ∈ g.head?, ∀ o ∈ g', canPair req can seed.2 o.2 = false)

/-- The guard of line 53: the template has a flow script or is multiprotocol. -/
def Flagged {D H S : Type} (t : Template D H S) : Prop :=
  t.Flow ≠ "" ∨ t.IsMultiProtocol = true

/-- The templates the first loop puts in the `dns` bucket. -/
def InDNS {D H S : Type} (P : Protocols D H S) (t : Template D H S) : Prop :=
  ¬ Flagged t ∧ ∃ r, t.RequestsDNS = [r] ∧ P.dns.IsClusterable r = true

/-- The templates the first loop puts in the `http` bucket. -/
def InHTTP {D H S : Type} (P : Protocols D H S) (t : Template D H S) : Prop :=
  ¬ Flagged t ∧ t.RequestsDNS.length ≠ 1 ∧
    ∃ r, t.RequestsHTTP = [r] ∧ P.http.IsClusterable r = true

/-- The templates the first loop puts in the `ssl` bucket. -/
def InSSL {D H S : Type} (P : Protocols D H S) (t : Template D H S) : Prop :=
  ¬ Flagged t ∧ t.RequestsDNS.length ≠ 1 ∧ t.RequestsHTTP.length ≠ 1 ∧
    ∃ r, t.RequestsSSL = [r] ∧ P.ssl.IsClusterable r = true

/-- Every entry held by the state of the first loop. -/
def allEntries {T : Type} (st : Buckets T) : List (Nat × T) :=
  st.final.flatten ++ st.dns ++ st.http ++ st.ssl

/-- Invariant of the first loop of `Cluster` before it handles the key `k`. -/
structure BucketsInv {D H S : Type} (P : Protocols D H S) (k : Nat)
    (st : Buckets (Template D H S)) : Prop where
  bound : ∀ e ∈ allEntries st, e.1 < k
  single : ∀ g ∈ st.final, g.length = 1
  dns : ∀ e ∈ st.dns, InDNS P e.2
  http : ∀ e ∈ st.http, InHTTP P e.2
  ssl : ∀ e ∈ st.ssl, InSSL P e.2

/-- A group clustered on the request list `reqs`: every member satisfies the bucket
condition `InB`, and the request of the first member can cluster with the request of
every other member. -/
def ClusteredOn {T R : Type} (reqs : T → List R) (can : R → R → Bool) (InB : T → Prop)
    (g : List T) : Prop :=
  (∀ t ∈ g, InB t) ∧
    ∃ seed rest a, g = seed :: rest ∧ reqs seed = [a] ∧
      ∀ o ∈ rest, ∃ b, reqs o = [b] ∧ can a b = true

/-- Number of non-empty request lists among `RequestsDNS`, `RequestsHTTP`, `RequestsSSL`. -/
def nonEmptyRequestLists {D H S : Type} (t : Template D H S) : Nat :=
  (if t.RequestsDNS.isEmpty then 0 else 1) + (if t.RequestsHTTP.isEmpty then 0 else 1)
    + (if t.RequestsSSL.isEmpty then 0 else 1)

/-- Protocol methods used for the concrete runs: every request is clusterable and two
requests can cluster when they are equal. -/
def demoProtocols : Protocols Nat Nat Nat :=
  { dns := ⟨fun _ => true, fun a b => a == b⟩
    http := ⟨fun _ => true, fun a b => a == b⟩
    ssl := ⟨fun _ => true, fun a b => a == b⟩ }

/-- Iteration order used for the concrete runs: always the first pending entry. -/
def demoChoice : RangeChoice := ⟨fun _ => 0, fun _ _ => 0⟩

/-- A template with one DNS request and one HTTP request, not flagged multiprotocol. -/
def demoDnsHttp (id : String) : Template Nat Nat Nat :=
  { ID := id, Path := "", Flow := "", IsMultiProtocol := false,
    RequestsDNS := [1], RequestsHTTP := [7], RequestsSSL := [] }

/-- A template with a single HTTP request. -/
def demoHttp (id : String) (r : Nat) : Template Nat Nat Nat :=
  { ID := id, Path := "", Flow := "", IsMultiProtocol := false,
    RequestsDNS := [], RequestsHTTP := [r], RequestsSSL := [] }

/-- A template with a single HTTP request and a flow script. -/
def demoFlow (id : String) (r : Nat) : Template Nat Nat Nat :=
  { ID := id, Path := "", Flow := "http(1)", IsMultiProtocol := false,
    RequestsDNS := [], RequestsHTTP := [r], RequestsSSL := [] }

/-! ## `ClusterID` -/

/-- Go `sort.Strings`: the ascending rearrangement of the slice. Strings are compared
lexicographically, which for UTF-8 text is Go's bytewise comparison. -/
def sortStrings (l : List String) : List String :=
  l.insertionSort (fun a b => a ≤ b)

/-- Go `strings.Join(elems, sep)`. -/
def stringsJoin (elems : List String) (sep : String) : String :=
  sep.intercalate elems

/-- Go `ClusterID` (lines 123-131); `SHA256Sum` is `cryptoutil.SHA256Sum`. -/
def ClusterID {D H S : Type} (SHA256Sum : String → String)
    (templates : List (Template D H S)) : String :=
  let allIDS := templates.map (fun tpl => tpl.ID)
  let ids := stringsJoin (sortStrings allIDS) ","
  SHA256Sum ids

/-! ## `ClusterExecuter` -/

/-- The values of `types.ProtocolType` the executer uses; `InvalidProtocol` is the zero
value. -/
inductive ProtocolType where
  | InvalidProtocol
  | DNSProtocol
  | HTTPProtocol
  | SSLProtocol
deriving DecidableEq

/-- A non-nil `protocols.Request`: a request of one of the three protocols. -/
inductive Request (D H S : Type) where
  | dns (r : D)
  | http (r : H)
  | ssl (r : S)
deriving DecidableEq

/-- Go `output.InternalEvent`, a `map[string]interface{}`, as an association list. -/
abbrev InternalEvent := List (String × String)

/-- Go `event[k] = v` on an internal event. -/
def InternalEvent.set (ev : InternalEvent) (k v : String) : InternalEvent :=
  ev.filter (fun e => e.1 != k) ++ [(k, v)]

/-- Go `event[k]`, the empty string standing for an absent key. -/
def InternalEvent.get (ev : InternalEvent) (k : String) : String :=
  match ev.find? (fun e => e.1 == k) with
  | some e => e.2
  | none => ""

/-- The part of `output.InternalWrappedEvent` the executer reads: the internal event,
which may be a nil map. -/
structure WrappedEvent where
  InternalEvent : Option InternalEvent
deriving DecidableEq

/-- The struct `clusteredOperator` (lines 183-188). `templateInfo` is copied next to
`templatePath` and never read by the modelled code, so it is left out. -/
structure clusteredOperator (Ops : Type) where
  templateID : String
  templatePath : String
  operator : Ops
deriving DecidableEq

/-- The struct `ClusterExecuter` (lines 176-181); `requests` may be the nil interface.
The `options` pointer is passed to the methods as an argument. -/
structure ClusterExecuter (D H S Ops : Type) where
  requests : Option (Request D H S)
  operators : List (clusteredOperator Ops)
  templateType : ProtocolType

/-- What the executer uses from outside `cluster.go`: the `CompiledOperators` field of a
request of each protocol (`none` is nil); the events that `ExecuteWithResults` of a
request hands to its callback for an input, with the error it returns; and
`operators.Execute` run by a clustered operator on an internal event with the `Match`
and `Extract` functions of the request, returning `(result, matched)`. -/
structure External (D H S Ops Res Err : Type) where
  dnsOperators : D → Option Ops
  httpOperators : H → Option Ops
  sslOperators : S → Option Ops
  ExecuteWithResults : Request D H S → String → List (Option WrappedEvent) × Option Err
  operatorExecute : Request D H S → clusteredOperator Ops → InternalEvent → Option Res × Bool

/-- The fields of `protocols.ExecutorOptions` read by `Execute`: `InputHelper` (`none`
is nil), `Options.MatcherStatus`, and whether `HostErrorsCache` is non-nil. -/
structure ExecutorOptions where
  InputHelper : Option (String → ProtocolType → String)
  MatcherStatus : Bool
  HostErrorsCache : Bool

/-- The observable actions of `Execute`, in the order they happen. `WriteResult` and
`WriteFailure` carry the `template-id` the event holds when it is written. -/
inductive Effect (D H S Res Err : Type) where
  | Transport (req : Request D H S) (input : String)
  | WriteFailure (templateID : String)
  | WriteResult (templateID : String) (result : Res)
  | MarkFailed (err : Err)

/-- The branch of the loop of lines 216-230 taken for `templateType`, for one member:
the compiled operators of its first request (`some none` when they are nil); `none` is
the index-out-of-range panic. -/
def memberOperators {D H S Ops Res Err : Type} (X : External D H S Ops Res Err)
    (templateType : ProtocolType) (req : Template D H S) : Option (Option Ops) :=
  match templateType with
  | .DNSProtocol => (req.RequestsDNS[0]?).map X.dnsOperators
  | .HTTPProtocol => (req.RequestsHTTP[0]?).map X.httpOperators
  | .SSLProtocol => (req.RequestsSSL[0]?).map X.sslOperators
  | .InvalidProtocol => some none

/-- Body of the loop of lines 216-230 for the member `req`: `appendOperator` is called
when the compiled operators of its first request are non-nil. -/
def appendMember {D H S Ops Res Err : Type} (X : External D H S Ops Res Err)
    (templateType : ProtocolType) (operators : List (clusteredOperator Ops))
    (req : Template D H S) : Option (List (clusteredOperator Ops)) :=
  match memberOperators X templateType req with
  | none => none
  | some none => some operators
  | some (some operator) =>
    some (operators ++ [{ templateID := req.ID, templatePath := req.Path,
                          operator := operator }])

/-- Go `NewClusterExecuter` (lines 193-232); `none` is a panic. -/
def NewClusterExecuter {D H S Ops Res Err : Type} (X : External D H S Ops Res Err)
    (requests : List (Template D H S)) : Option (ClusterExecuter D H S Ops) :=
  match requests with
  | [] => none
  | first :: _ =>
    let head : ProtocolType × Option (Request D H S) :=
      if first.RequestsDNS.length = 1 then
        (.DNSProtocol, (first.RequestsDNS[0]?).map Request.dns)
      else if first.RequestsHTTP.length = 1 then
        (.HTTPProtocol, (first.RequestsHTTP[0]?).map Request.http)
      else if first.RequestsSSL.length = 1 then
        (.SSLProtocol, (first.RequestsSSL[0]?).map Request.ssl)
      else (.InvalidProtocol, none)
    match requests.foldlM (appendMember X head.1) [] with
    | none => none
    | some operators => some { requests := head.2, operators := operators, templateType := head.1 }

/-- State of the callback of `Execute` while it runs over the operators: the internal
event, the variable `results`, and the actions so far. -/
structure CallbackState (D H S Res Err : Type) where
  event : InternalEvent
  results : Bool
  log : List (Effect D H S Res Err)

/-- Body of the loop over `e.operators` in the callback of `Execute` (lines 266-285). -/
def operatorStep {D H S Ops Res Err : Type} (X : External D H S Ops Res Err)
    (opts : ExecutorOptions) (req : Request D H S) (st : CallbackState D H S Res Err)
    (operator : clusteredOperator Ops) : CallbackState D H S Res Err :=
  let out := X.operatorExecute req operator st.event
  let event := (st.event.set "template-id" operator.templateID).set
    "template-path" operator.templatePath
  match out.1, out.2 with
  | none, false =>
    if opts.MatcherStatus then
      { st with event := event,
                log := st.log ++ [Effect.WriteFailure (event.get "template-id")] }
    else { st with event := event }
  | some result, true =>
    { event := event, results := true,
      log := st.log ++ [Effect.WriteResult (event.get "template-id") result] }
  | _, _ => { st with event := event }

/-- Lines 263-265: a nil `event.InternalEvent` is replaced by an empty map. -/
def internalOf (event : WrappedEvent) : InternalEvent :=
  match event.InternalEvent with
  | none => []
  | some ev => ev

/-- The callback passed to `ExecuteWithResults` by `Execute` (lines 258-286), for one
delivered event; `st` holds `results` and the actions so far. -/
def executeCallback {D H S Ops Res Err : Type} (X : External D H S Ops Res Err)
    (opts : ExecutorOptions) (req : Request D H S) (operators : List (clusteredOperator Ops))
    (st : Bool × List (Effect D H S Res Err)) (event : Option WrappedEvent) :
    Bool × List (Effect D H S Res Err) :=
  match event with
  | none => st
  | some event =>
    let out := operators.foldl (operatorStep X opts req)
      { event := internalOf event, results := st.1, log := st.2 }
    (out.results, out.log)

/-- Result of `Execute`: the two returned values and the actions performed. -/
structure ExecuteResult (D H S Res Err : Type) where
  matched : Bool
  err : Option Err
  log : List (Effect D H S Res Err)

/-- Lines 250-255 of `Execute`: the input of `inputItem` after the input helper, `none`
being the early `return false, nil`. `ctx.Input.Clone()` is a deep copy, so the store
into `inputItem.MetaInput.Input` leaves `ctx.Input.MetaInput.Input`, which the inner
condition tests, as it was. -/
def transformInput (opts : ExecutorOptions) (templateType : ProtocolType) (ctxInput : String) :
    Option String :=
  match opts.InputHelper with
  | some transform =>
    if ctxInput != "" then
      if ctxInput == "" then none else some (transform ctxInput templateType)
    else some ctxInput
  | none => some ctxInput

/-- Go `ClusterExecuter.Execute` (lines 247-291) on a scan context whose input is
`ctxInput`. `none` is the panic of calling a method of the nil interface `e.requests`. -/
def Execute {D H S Ops Res Err : Type} (X : External D H S Ops Res Err)
    (opts : ExecutorOptions) (e : ClusterExecuter D H S Ops) (ctxInput : String) :
    Option (ExecuteResult D H S Res Err) :=
  match transformInput opts e.templateType ctxInput with
  | none => some { matched := false, err := none, log := [] }
  | some inputItem =>
    match e.requests with
    | none => none
    | some req =>
      let run := X.ExecuteWithResults req inputItem
      let out := run.1.foldl (executeCallback X opts req e.operators)
        (false, [Effect.Transport req inputItem])
      match run.2 with
      | some err =>
        some { matched := out.1, err := some err,
               log := if opts.HostErrorsCache then out.2 ++ [Effect.MarkFailed err] else out.2 }
      | none => some { matched := out.1, err := none, log := out.2 }

/-- The operators list `NewClusterExecuter` builds for the members `g` when the protocol
is `templateType`: in member order, the members whose compiled operators are non-nil,
each tagged with the id and path of its member. -/
def operatorsOf {D H S Ops Res Err : Type} (X : External D H S Ops Res Err)
    (templateType : ProtocolType) (g : List (Template D H S)) : List (clusteredOperator Ops) :=
  g.filterMap (fun t =>
    match memberOperators X templateType t with
    | some (some operator) =>
      some { templateID := t.ID, templatePath := t.Path, operator := operator }
    | _ => none)

/-- The transport calls (`ExecuteWithResults` of a request on an input) among the
actions, in order. -/
def transportCalls {D H S Res Err : Type} :
    List (Effect D H S Res Err) → List (Request D H S × String)
  | [] => []
  | Effect.Transport req input :: rest => (req, input) :: transportCalls rest
  | _ :: rest => transportCalls rest

/-- The template ids under which the actions write a result, each with the result. -/
def writtenResults {D H S Res Err : Type} : List (Effect D H S Res Err) → List (String × Res)
  | [] => []
  | Effect.WriteResult id r :: rest => (id, r) :: writtenResults rest
  | _ :: rest => writtenResults rest

/-- External functions used for the concrete runs: a request has compiled operators
when its number is odd; the transport delivers one event per input; the operator of the
template with id `a` matches and every other operator does not. -/
def demoExternal : External Nat Nat Nat Nat String String :=
  { dnsOperators := fun r => if r % 2 = 1 then some r else none
    httpOperators := fun r => if r % 2 = 1 then some r else none
    sslOperators := fun r => if r % 2 = 1 then some r else none
    ExecuteWithResults := fun _ input => ([some { InternalEvent := some [("host", input)] }], none)
    operatorExecute := fun _ op _ => if op.templateID = "a" then (some "hit", true) else (none, false) }

/-- Executor options used for the concrete runs. -/
def demoOptions : ExecutorOptions :=
  { InputHelper := none, MatcherStatus := false, HostErrorsCache := false }

/-! ## Specification vocabulary for the order of the groups and for the executer -/

/-- The templates the first loop puts in no bucket. -/
def Unbucketed {D H S : Type} (P : Protocols D H S) (t : Template D H S) : Prop :=
  ¬ InDNS P t ∧ ¬ InHTTP P t ∧ ¬ InSSL P t

/-- For two groups `g` and `g2` of the bucket `InB`: the request of the first member
(the seed) of `g` cannot cluster with the request of any member of `g2`. -/
def SeedRejects {T R : Type} (reqs : T → List R) (can : R → R → Bool) (InB : T → Prop)
    (g g2 : List T) : Prop :=
  (∀ t ∈ g, InB t) → (∀ t ∈ g2, InB t) →
    ∀ seed ∈ g.head?, ∀ o ∈ g2, ∃ a b, reqs seed = [a] ∧ reqs o = [b] ∧ can a b = false

/-- The seed of `g` rejects every member of `g2`, whichever bucket both groups are of. -/
def SeedRejectsAll {D H S : Type} (P : Protocols D H S) (g g2 : List (Template D H S)) : Prop :=
  SeedRejects (fun t => t.RequestsDNS) P.dns.CanCluster (InDNS P) g g2 ∧
  SeedRejects (fun t => t.RequestsHTTP) P.http.CanCluster (InHTTP P) g g2 ∧
  SeedRejects (fun t => t.RequestsSSL) P.ssl.CanCluster (InSSL P) g g2

/-- An operators list in the words of the specification: in member order, the members
of `g` whose compiled operators `ops` are non-nil, each tagged with the id and path of
its member. -/
def taggedOperators {D H S Ops : Type} (ops : Template D H S → Option Ops)
    (g : List (Template D H S)) : List (clusteredOperator Ops) :=
  g.filterMap (fun t => (ops t).map (fun operator =>
    { templateID := t.ID, templatePath := t.Path, operator := operator }))

end Templates

namespace Errkit

/-! ## Go string functions used by `errkit` -/

/-- Go `strings.Contains(s, sub)` on character lists. -/
def containsChars (sub : List Char) : List Char → Bool
  | [] => sub.isEmpty
  | c :: cs => sub.isPrefixOf (c :: cs) || containsChars sub cs

/-- Scan of `strings.Split(s, sep)` for a non-empty `sep`: `skip` characters of a
separator just found remain to be dropped, `cur` is the current part, reversed. -/
def splitGo (sep : List Char) : List Char → Nat → List Char → List (List Char)
  | [], _, cur => [cur.reverse]
  | _ :: cs, skip + 1, cur => splitGo sep cs skip cur
  | c :: cs, 0, cur =>
    if sep.isPrefixOf (c :: cs) then cur.reverse :: splitGo sep cs (sep.length - 1) []
    else splitGo sep cs 0 (c :: cur)

/-- Scan of `strings.Replace(s, old, "", -1)` for a non-empty `old`. -/
def removeGo (old : List Char) : List Char → Nat → List Char
  | [], _ => []
  | _ :: cs, skip + 1 => removeGo old cs skip
  | c :: cs, 0 =>
    if old.isPrefixOf (c :: cs) then removeGo old cs (old.length - 1)
    else c :: removeGo old cs 0

/-- Go `unicode.IsSpace`. -/
def isSpace (c : Char) : Bool :=
  c.val.toNat ∈ [0x09, 0x0A, 0x0B, 0x0C, 0x0D, 0x20, 0x85, 0xA0, 0x1680, 0x2028, 0x2029,
    0x202F, 0x205F, 0x3000] || (0x2000 ≤ c.val.toNat && c.val.toNat ≤ 0x200A)

/-- Go `strings.Contains(s, sub)`. -/
def strContains (s sub : String) : Bool :=
  containsChars sub.data s.data

/-- Go `strings.Split(s, sep)` for a non-empty `sep` (the only use in `errkit`). -/
def strSplit (s sep : String) : List String :=
  (splitGo sep.data s.data 0 []).map String.mk

/-- Go `strings.Replace(s, old, "", -1)` and `strings.ReplaceAll(s, old, "")`: every
non-overlapping occurrence of `old` is removed; an empty `old` leaves `s` as it is. -/
def strRemoveAll (s old : String) : String :=
  if old.data.isEmpty then s else String.mk (removeGo old.data s.data 0)

/-- Go `strings.TrimSpace(s)`. -/
def strTrimSpace (s : String) : String :=
  String.mk ((s.data.dropWhile isSpace).reverse.dropWhile isSpace).reverse

/-- Go `strings.TrimSuffix(s, suffix)`. -/
def strTrimSuffix (s suffix : String) : String :=
  if suffix.data.reverse.isPrefixOf s.data.reverse then
    String.mk (s.data.take (s.data.length - suffix.data.length))
  else s

/-- Scan of `strings.LastIndex(s, sub)`: `i` is the index of the next character and
`last` the last index found so far. -/
def lastIndexGo (sub : List Char) : List Char → Nat → Option Nat → Option Nat
  | [], i, last => if sub.isEmpty then some i else last
  | c :: cs, i, last =>
    lastIndexGo sub cs (i + 1) (if sub.isPrefixOf (c :: cs) then some i else last)

/-- Go `strings.LastIndex(s, sub)`, `none` standing for `-1`. -/
def strLastIndex (s sub : String) : Option Nat :=
  lastIndexGo sub.data s.data 0 none

/-! ## Errors -/

/-- Go `DelimArrow`. -/
def DelimArrow : String := "<-"

/-- Go `DelimSemiColon`. -/
def DelimSemiColon : String := "; "

/-- Go `DelimMultiLine`. -/
def DelimMultiLine : String := "\n -  "

/-- Go `MultiLineErrPrefix`. -/
def MultiLineErrPrefix : String := "the following errors occurred:"

/-- Go `ErrClassDataMissing`. -/
def ErrClassDataMissing : String := "data-missing"

/-- The two package variables read from the environment. -/
structure Config where
  MaxErrorDepth : Int
  ErrorSeperator : String

/-- The defaults: `MAX_ERROR_DEPTH` is 3 and `ERROR_SEPERATOR` is `"; "`. -/
def defaultConfig : Config :=
  { MaxErrorDepth := 3, ErrorSeperator := "; " }

/-- A non-nil Go `error`, by the first case of the type switch of `parseError` it falls
into: an `*ErrorX` with its class and causes; a `JoinedError` with what `Unwrap()`
returns; a `WrappedError` with what `Unwrap()` returns; a `CauseError` with what
`Cause()` returns, `none` being nil; any other error. `msg` is what `Error()` returns. -/
inductive GoError where
  | errorX (cls : String) (errs : List GoError)
  | joined (msg : String) (errs : List GoError)
  | wrapped (msg : String) (inner : GoError)
  | cause (msg : String) (cause : Option GoError)
  | plain (msg : String)

/-- The struct `ErrorX`; `cls` is the field `class`. -/
structure ErrorX where
  cls : String
  errs : List GoError

/-- Go `getOriginClass` (lines 125-132) on the field `class`. -/
def originClass (cls : String) : String :=
  match strLastIndex cls "," with
  | some index => String.mk (cls.data.take index)
  | none => cls

/-- The string built by `ErrorX.Error` (lines 102-114) from the class and the messages
of the causes. -/
def renderErrorX (cfg : Config) (cls : String) (msgs : List String) : String :=
  let head := if cls != "" then "class=" ++ originClass cls ++ " " else ""
  strTrimSuffix (msgs.foldl (fun sb msg => sb ++ msg ++ cfg.ErrorSeperator) head)
    cfg.ErrorSeperator

mutual
/-- The method `Error()` of an error. -/
def GoError.Error (cfg : Config) : GoError → String
  | .errorX cls errs => renderErrorX cfg cls (GoError.ErrorList cfg errs)
  | .joined msg _ => msg
  | .wrapped msg _ => msg
  | .cause msg _ => msg
  | .plain msg => msg
/-- The messages of a list of errors. -/
def GoError.ErrorList (cfg : Config) : List GoError → List String
  | [] => []
  | e :: es => GoError.Error cfg e :: GoError.ErrorList cfg es
end

/-- Go `Build`: the `ErrorX` as an `error`. -/
def ErrorX.Build (e : ErrorX) : GoError :=
  .errorX e.cls e.errs

/-- Go `Unwrap` (lines 72-74). -/
def ErrorX.Unwrap (e : ErrorX) : List GoError :=
  e.errs

/-- Go `getOriginClass` (lines 125-132). -/
def ErrorX.getOriginClass (e : ErrorX) : String :=
  originClass e.cls

/-- Go `Class` (lines 136-138). -/
def ErrorX.Class (e : ErrorX) : String :=
  e.getOriginClass

/-- Go `Error` (lines 102-114). -/
def ErrorX.Error (cfg : Config) (e : ErrorX) : String :=
  GoError.Error cfg e.Build

/-- Go `New` (lines 152-154); `formatted` is the error `fmt.Errorf(format, args...)`. -/
def New (formatted : GoError) : ErrorX :=
  { cls := "", errs := [formatted] }

/-- Go `Msgf` (lines 157-162) on a non-nil receiver. -/
def ErrorX.Msgf (e : ErrorX) (formatted : GoError) : ErrorX :=
  { e with errs := e.errs ++ [formatted] }

/-- Go `SetClass` (lines 167-174). -/
def ErrorX.SetClass (e : ErrorX) (cls : String) : ErrorX :=
  if e.cls != "" then { e with cls := cls ++ "," ++ e.cls } else { e with cls := cls }

/-- Bound on the depth of the recursion of `parseError` on `err`: the recursive calls on
the parts of a message are on strictly shorter messages, and the call of the
`CauseError` case is on a message that is not longer. -/
def GoError.weight : GoError → Nat
  | .cause msg _ => msg.length + 1
  | .plain msg => msg.length
  | _ => 0

/-- How a call of `parseError` ends: it returns with `to` updated; it panics (a method
is called on a nil `error`); or the bound on the depth of the recursion was reached. -/
inductive ParseResult where
  | returned (target : ErrorX)
  | panicked
  | boundReached

/-- The loops of `parseError` over the parts of a message (lines 208-211, 215-218 and
223-226): `step` is the recursive call on one part, and a call that does not return
ends the loop. -/
def parseParts (step : ErrorX → String → ParseResult) : List String → ErrorX → ParseResult
  | [], target => .returned target
  | part :: rest, target =>
    match step target part with
    | .returned target => parseParts step rest target
    | .panicked => .panicked
    | .boundReached => .boundReached

/-- Go `parseError` (lines 177-233) for non-nil `to` and `err`. The first argument bounds
the depth of the recursion. A `CauseError` whose `Cause()` is nil panics at line 202,
where `v.Cause().Error()` is called. -/
def parseErrorFuel (cfg : Config) : Nat → ErrorX → GoError → ParseResult
  | 0, _, _ => .boundReached
  | fuel + 1, target, err =>
    if cfg.MaxErrorDepth ≤ (target.errs.length : Int) then .returned target
    else
      match err with
      | .errorX cls errs =>
        .returned { errs := target.errs ++ errs,
                    cls := if target.cls == "" then cls else target.cls ++ "," ++ cls }
      | .joined _ errs => .returned { target with errs := target.errs ++ errs }
      | .wrapped _ inner => .returned { target with errs := target.errs ++ [inner] }
      | .cause _ none => .panicked
      | .cause msg (some c) =>
        parseErrorFuel cfg fuel { target with errs := target.errs ++ [c] }
          (.plain (strRemoveAll msg (GoError.Error cfg c)))
      | .plain msg =>
        if strContains msg DelimArrow then
          parseParts
            (fun target part => parseErrorFuel cfg fuel target (.plain (strTrimSpace part)))
            (strSplit msg DelimArrow).reverse target
        else if strContains msg DelimSemiColon then
          parseParts
            (fun target part => parseErrorFuel cfg fuel target (.plain (strTrimSpace part)))
            (strSplit msg DelimSemiColon) target
        else if strContains msg MultiLineErrPrefix then
          parseParts
            (fun target part => parseErrorFuel cfg fuel target (.plain (strTrimSpace part)))
            (strSplit (strRemoveAll msg MultiLineErrPrefix) DelimMultiLine) target
        else .returned { target with errs := target.errs ++ [err] }

/-- What a call that returns leaves in `to`; `none` when it does not return. -/
def ParseResult.value : ParseResult → Option ErrorX
  | .returned target => some target
  | _ => none

/-- Go `parseError(to, err)` with the depth bound of `err`, which is never reached;
`none` is a panic. -/
def parseError (cfg : Config) (target : ErrorX) (err : GoError) : Option ErrorX :=
  (parseErrorFuel cfg (err.weight + 2) target err).value

/-- Go `FromError` (lines 142-149) on a non-nil error; `none` is a panic. -/
def FromError (cfg : Config) (err : GoError) : Option ErrorX :=
  parseError cfg { cls := "", errs := [] } err

end Errkit

namespace HTTP

/-! ## Execution mode of an HTTP request -/

/-- The five ways `Request.ExecuteWithResults` runs a request. -/
inductive Mode where
  | turbo
  | race
  | fuzzing
  | parallel
  | serial
deriving DecidableEq

/-- The fields of the HTTP `Request` that select the mode; `Fuzzing` is the number of
fuzzing rules, `len(request.Fuzzing)`. -/
structure Request where
  Pipeline : Bool
  Race : Bool
  RaceNumberRequests : Int
  Fuzzing : Nat
  Threads : Int
deriving DecidableEq

/-- The dispatch of `Request.ExecuteWithResults` (lines 443-461): the mode function it
returns through, `serial` being the loop that follows the four tests. -/
def executionMode (request : Request) : Mode :=
  if request.Pipeline then Mode.turbo
  else if request.Race && decide (request.RaceNumberRequests > 0) then Mode.race
  else if request.Fuzzing > 0 then Mode.fuzzing
  else if request.Threads > 0 then Mode.parallel
  else Mode.serial

/-- The mode-selection table as the specification words it: the conditions in order,
each with its mode. -/
def modeTable (request : Request) : List (Bool × Mode) :=
  [(request.Pipeline, Mode.turbo),
   (request.Race && decide (request.RaceNumberRequests > 0), Mode.race),
   (decide (request.Fuzzing ≠ 0), Mode.fuzzing),
   (decide (request.Threads > 0), Mode.parallel)]

/-- First condition wins; serial mode when none holds. -/
def specifiedMode (request : Request) : Mode :=
  match (modeTable request).find? (fun row => row.1) with
  | some row => row.2
  | none => Mode.serial

/-! ## Serial mode of `Request.ExecuteWithResults` -/

/-- What one call of `executeFunc` (lines 468-546) meets, the calls it makes to other
code being given by their results: `generator.Make` returns `ErrNoMoreRequests`;
`generator.Make` returns another error; the host-errors cache reports the target;
or `executeRequest` runs and returns `err` (`none` is nil), `gotMatches` being the value
of that variable once the event callbacks are done. -/
inductive Attempt (Err : Type) where
  | noMoreRequests
  | makeFailed (err : Err)
  | hostErrored
  | executed (err : Option Err) (gotMatches : Bool)

/-- The three stop-at-first-match flags read at line 541: the global option, the
executor option and the flag of the request. -/
structure StopFlags where
  global : Bool
  executor : Bool
  request : Bool

/-- The variable `shouldStopAtFirstMatch` (line 541). -/
def StopFlags.shouldStopAtFirstMatch (flags : StopFlags) : Bool :=
  flags.global || flags.executor || flags.request

/-- What a call of `executeFunc` leaves: the returned pair `(skip, err)` and the variable
`requestErr` of the enclosing function. -/
structure FuncResult (Err : Type) where
  skip : Bool
  gotErr : Option Err
  requestErr : Option Err

/-- The closure `executeFunc` (lines 468-546). `isStop err` is
`errors.Is(err, errStopExecution)`. -/
def executeFunc {Err : Type} (isStop : Err → Bool) (flags : StopFlags)
    (requestErr : Option Err) : Attempt Err → FuncResult Err
  | .noMoreRequests => { skip := true, gotErr := none, requestErr := requestErr }
  | .makeFailed err => { skip := true, gotErr := some err, requestErr := requestErr }
  | .hostErrored => { skip := true, gotErr := none, requestErr := requestErr }
  | .executed (some err) gotMatches =>
    if isStop err then { skip := true, gotErr := none, requestErr := requestErr }
    else if flags.shouldStopAtFirstMatch && gotMatches then
      { skip := true, gotErr := none, requestErr := some err }
    else { skip := false, gotErr := none, requestErr := some err }
  | .executed none gotMatches =>
    if flags.shouldStopAtFirstMatch && gotMatches then
      { skip := true, gotErr := none, requestErr := requestErr }
    else { skip := false, gotErr := none, requestErr := requestErr }

/-- Lines 552-563 for one generator value: `executeFunc` is called once, or, when dynamic
values were extracted, once per set of values that `MakeDynamicValuesCallback` hands to
its callback, until a call returns `skip` or an error. `attempts` is what the successive
calls meet. -/
def runValue {Err : Type} (isStop : Err → Bool) (flags : StopFlags) :
    List (Attempt Err) → Option Err → FuncResult Err
  | [], requestErr => { skip := false, gotErr := none, requestErr := requestErr }
  | attempt :: rest, requestErr =>
    let r := executeFunc isStop flags requestErr attempt
    if r.skip || r.gotErr.isSome then r else runValue isStop flags rest r.requestErr

/-- What the serial loop returns, with the number of values it took from the generator. -/
structure SerialResult (Err : Type) where
  err : Option Err
  consumed : Nat

/-- The loop of lines 466-570 over the values of the generator, each given with what the
calls of `executeFunc` for it meet; `consumed` counts the successful `nextValue()`. -/
def serialLoop {Err : Type} (isStop : Err → Bool) (flags : StopFlags) :
    List (List (Attempt Err)) → Option Err → Nat → SerialResult Err
  | [], requestErr, consumed => { err := requestErr, consumed := consumed }
  | attempts :: rest, requestErr, consumed =>
    let r := runValue isStop flags attempts requestErr
    let requestErr2 :=
      if r.gotErr.isSome && r.requestErr.isNone then r.gotErr else r.requestErr
    if r.skip || r.gotErr.isSome then { err := requestErr2, consumed := consumed + 1 }
    else serialLoop isStop flags rest requestErr2 (consumed + 1)

/-- The serial branch of `Request.ExecuteWithResults` (lines 461-571). -/
def executeSerial {Err : Type} (isStop : Err → Bool) (flags : StopFlags)
    (values : List (List (Attempt Err))) : SerialResult Err :=
  serialLoop isStop flags values none 0

/-- A call of `executeFunc` after which the loop goes on: `executeRequest` ran, did not
return the stop error, and no match stopped the iteration. -/
def Attempt.continues {Err : Type} (isStop : Err → Bool) (flags : StopFlags) :
    Attempt Err → Bool
  | .executed (some err) gotMatches =>
    !isStop err && !(flags.shouldStopAtFirstMatch && gotMatches)
  | .executed none gotMatches => !(flags.shouldStopAtFirstMatch && gotMatches)
  | _ => false

/-- The error recorded in `requestErr` by a run of calls that all continue: the error
of the last call whose `executeRequest` failed, `start` when there is none. -/
def recordedError {Err : Type} : List (Attempt Err) → Option Err → Option Err
  | [], start => start
  | .executed (some err) _ :: rest, _ => recordedError rest (some err)
  | _ :: rest, start => recordedError rest start

/-- The message of the variable `errStopExecution` (line 576). -/
def errStopExecution : String := "stop execution due to unresolved variables"

/-- For concrete runs errors are their messages, and `errors.Is(err, errStopExecution)`
compares with the message of `errStopExecution`. -/
def demoIsStop (err : String) : Bool :=
  err == errStopExecution

/-- No stop-at-first-match flag set. -/
def noStopFlags : StopFlags :=
  { global := false, executor := false, request := false }

end HTTP

namespace Contextargs

/-! ## `MetaInput` -/

/-- The value of `md5.Sum`, a `[16]byte`; a byte is a character below 256. -/
structure Digest where
  bytes : List Char
  size : bytes.length = 16

/-- The struct `MetaInput` (lines 16-26). `RR` is `types.RequestResponse`; a nil
`ReqResp` is `none`. -/
structure MetaInput (RR : Type) where
  Input : String
  CustomIP : String
  hash : String
  ReqResp : Option RR

/-- Go `getMd5Hash` (lines 157-160); `md5Sum` is `md5.Sum` on the bytes of the string. -/
def getMd5Hash (md5Sum : String → Digest) (data : String) : String :=
  String.mk (md5Sum data).bytes

/-- Go `GetScanHash` (lines 143-155): the returned string and the receiver after the call.
`rrID` is the method `ID` of `types.RequestResponse`. -/
def MetaInput.GetScanHash {RR : Type} (md5Sum : String → Digest) (rrID : RR → String)
    (metaInput : MetaInput RR) (templateId : String) : String × MetaInput RR :=
  if metaInput.hash == "" then
    let rawRequest : String :=
      match metaInput.ReqResp with
      | some rr => rrID rr
      | none => ""
    let updated : MetaInput RR :=
      { metaInput with
        hash := getMd5Hash md5Sum
          (templateId ++ ":" ++ metaInput.Input ++ ":" ++ metaInput.CustomIP ++ rawRequest) }
    (updated.hash, updated)
  else (metaInput.hash, metaInput)

/-- Go `Clone` (lines 121-130); `rrClone` is the method `Clone` of
`types.RequestResponse`. The field `hash` of the new struct is left at its zero value. -/
def MetaInput.Clone {RR : Type} (rrClone : RR → RR) (metaInput : MetaInput RR) : MetaInput RR :=
  { Input := metaInput.Input,
    CustomIP := metaInput.CustomIP,
    hash := "",
    ReqResp :=
      match metaInput.ReqResp with
      | some rr => some (rrClone rr)
      | none => none }

/-- Go `ID` (lines 87-95); `fmt.Sprintf("%s-%s", a, b)` is `a ++ "-" ++ b`. -/
def MetaInput.ID {RR : Type} (rrID : RR → String) (metaInput : MetaInput RR) : String :=
  if metaInput.CustomIP != "" then metaInput.Input ++ "-" ++ metaInput.CustomIP
  else
    match metaInput.ReqResp with
    | some rr => rrID rr
    | none => metaInput.Input

/-- The raw-request id `GetScanHash` appends (lines 148-151): the `ID()` of the raw
request, empty when there is none. -/
def rawRequestID {RR : Type} (rrID : RR → String) (reqResp : Option RR) : String :=
  match reqResp with
  | some rr => rrID rr
  | none => ""

/-- The method `ID` of a raw request used for concrete runs. -/
def demoID (rr : String) : String := "id-" ++ rr

/-- A `MetaInput` used for concrete runs: `raw` is the raw request, `none` for nil. -/
def demoInput (raw : Option String) : MetaInput String :=
  { Input := "i", CustomIP := "c", hash := "", ReqResp := raw }

/-- A `MetaInput` with an empty hash, used for concrete runs. -/
def demoMeta (input customIP : String) (raw : Option String) : MetaInput String :=
  { Input := input, CustomIP := customIP, hash := "", ReqResp := raw }

/-- The fields of a scan hash joined the way the specification words it: every field
separated from the next by the delimiter `delim`. -/
def delimitedFields (delim : String) (fields : List String) : String :=
  delim.intercalate fields

/-- A stand-in for `md5.Sum` used for concrete runs: the first 16 characters of the data
padded with zeros. -/
def demoDigest (data : String) : Digest :=
  { bytes := (data.data ++ List.replicate 16 '0').take 16
    size := by simp }

/-! ## JSON form of a `MetaInput` -/

/-- The JSON object the encoder writes for a `MetaInput`, by key, following the struct
tags of lines 16-26: `input`, `customIP` and `raw-request`, each left out (`none`) when
`omitempty` applies; the field `hash` is unexported and tagged `-`, so the object has no
key for it. `J` is the JSON value of a raw request. -/
structure MetaInputJSON (J : Type) where
  input : Option String
  customIP : Option String
  rawRequest : Option J
deriving DecidableEq

/-- The byte is a UTF-8 continuation byte, `0x80` to `0xBF`. A Go string is a sequence of
bytes, here one character below 256 for each byte. -/
def isContinuation (c : Char) : Bool :=
  0x80 ≤ c.toNat && c.toNat ≤ 0xBF

/-- The byte `c` is in the range Go's package `utf8` accepts for the second byte of an
encoding of three or four bytes that starts with the byte `first`. -/
def acceptsSecond (first : Nat) (c : Char) : Bool :=
  (if first = 0xE0 then 0xA0 else if first = 0xF0 then 0x90 else 0x80) ≤ c.toNat &&
    c.toNat ≤ (if first = 0xED then 0x9F else if first = 0xF4 then 0x8F else 0xBF)

/-- The width `utf8.DecodeRuneInString` reports for the encoding at the head of the
bytes, 0 standing for `RuneError` of width 1: an invalid or truncated encoding. -/
def runeWidth : List Char → Nat
  | [] => 0
  | b0 :: rest =>
    if b0.toNat < 0x80 then 1
    else if 0xC2 ≤ b0.toNat && b0.toNat ≤ 0xDF then
      match rest with
      | b1 :: _ => if isContinuation b1 then 2 else 0
      | _ => 0
    else if 0xE0 ≤ b0.toNat && b0.toNat ≤ 0xEF then
      match rest with
      | b1 :: b2 :: _ => if acceptsSecond b0.toNat b1 && isContinuation b2 then 3 else 0
      | _ => 0
    else if 0xF0 ≤ b0.toNat && b0.toNat ≤ 0xF4 then
      match rest with
      | b1 :: b2 :: b3 :: _ =>
        if acceptsSecond b0.toNat b1 && isContinuation b2 && isContinuation b3 then 4 else 0
      | _ => 0
    else 0

/-- The bytes of U+FFFD in UTF-8. -/
def replacementBytes : List Char :=
  [Char.ofNat 0xEF, Char.ofNat 0xBF, Char.ofNat 0xBD]

/-- Scan of a string by the `jsoniter` encoder: a byte at which no valid UTF-8 encoding
starts is written as the escape of U+FFFD, which a decoder reads back as the three bytes
of U+FFFD; the bytes of a valid encoding are read back as they are. `skip` bytes of the
current encoding remain to be copied. -/
def jsonBytes : List Char → Nat → List Char
  | [], _ => []
  | c :: cs, skip + 1 => c :: jsonBytes cs skip
  | c :: cs, 0 =>
    match runeWidth (c :: cs) with
    | 0 => replacementBytes ++ jsonBytes cs 0
    | width + 1 => c :: jsonBytes cs width

/-- The string a JSON decoder reads back from what the `jsoniter` encoder writes for the
string `s`. -/
def jsonString (s : String) : String :=
  String.mk (jsonBytes s.data 0)

/-- Scan of Go `utf8.ValidString`. -/
def validBytes : List Char → Nat → Bool
  | [], _ => true
  | _ :: cs, skip + 1 => validBytes cs skip
  | c :: cs, 0 =>
    match runeWidth (c :: cs) with
    | 0 => false
    | width + 1 => validBytes cs width

/-- Go `utf8.ValidString(s)`. -/
def validUTF8 (s : String) : Bool :=
  validBytes s.data 0

/-- Go `MarshalString` (lines 28-32 and 97-100), as the JSON object that is written, each
string being the one a decoder reads back; `rrMarshal` is the JSON encoding of
`types.RequestResponse`. -/
def MetaInput.MarshalString {RR J : Type} (rrMarshal : RR → J) (metaInput : MetaInput RR) :
    MetaInputJSON J :=
  { input := if metaInput.Input == "" then none else some (jsonString metaInput.Input),
    customIP := if metaInput.CustomIP == "" then none else some (jsonString metaInput.CustomIP),
    rawRequest :=
      match metaInput.ReqResp with
      | some rr => some (rrMarshal rr)
      | none => none }

/-- Go `Unmarshal` (lines 117-119) of a JSON object into the receiver: a key that is
present overwrites its field, an absent key and the field `hash` leave the receiver as it
is; `rrUnmarshal` is the JSON decoding of `types.RequestResponse`, and `none` is a
decoding error. -/
def MetaInput.Unmarshal {RR J : Type} (rrUnmarshal : J → Option RR) (metaInput : MetaInput RR)
    (data : MetaInputJSON J) : Option (MetaInput RR) :=
  let decoded : Option (Option RR) :=
    match data.rawRequest with
    | some j => (rrUnmarshal j).map some
    | none => some metaInput.ReqResp
  match decoded with
  | none => none
  | some reqResp =>
    some { Input := data.input.getD metaInput.Input,
           CustomIP := data.customIP.getD metaInput.CustomIP,
           hash := metaInput.hash,
           ReqResp := reqResp }

/-- The zero value `MetaInput{}`, the receiver a decoder starts from. -/
def MetaInput.zero {RR : Type} : MetaInput RR :=
  { Input := "", CustomIP := "", hash := "", ReqResp := none }

/-! ## Address of a `MetaInput` -/

/-- What `Address` reads from the `*urlutil.URL` returned by `ParseAbsoluteURL`: the
field `Scheme` and the results of `Hostname()` and `Port()`. -/
structure URL where
  Scheme : String
  Hostname : String
  Port : String
deriving DecidableEq

/-- Modelled from the spec: the constant `urlutil.HTTP`, the scheme `http`. -/
def urlutilHTTP : String := "http"

/-- Modelled from the spec: the constant `urlutil.HTTPS`, the scheme `https`. -/
def urlutilHTTPS : String := "https"

/-- Go `net.JoinHostPort`: a host that contains a colon is put in square brackets. -/
def JoinHostPort (host port : String) : String :=
  if host.data.contains ':' then "[" ++ host ++ "]:" ++ port else host ++ ":" ++ port

/-- Go `Address` (lines 63-84); `ParseAbsoluteURL` is `urlutil.ParseAbsoluteURL(_, false)`,
with `none` for an error. -/
def MetaInput.Address {RR : Type} (ParseAbsoluteURL : String → Option URL)
    (metaInput : MetaInput RR) : String :=
  match ParseAbsoluteURL metaInput.Input with
  | none => ""
  | some target =>
    let host := if metaInput.CustomIP != "" then metaInput.CustomIP else target.Hostname
    let port :=
      if target.Port == "" then
        if target.Scheme == urlutilHTTP then "80"
        else if target.Scheme == urlutilHTTPS then "443"
        else "80"
      else target.Port
    JoinHostPort host port

/-- The port `Address` uses for a parsed target, as the specification words it: the port
of the URL when there is one, else 443 for `https` and 80 for every other scheme. -/
def specifiedPort (target : URL) : String :=
  if target.Port ≠ "" then target.Port
  else if target.Scheme = "https" then "443"
  else "80"

/-- A parser used for concrete runs: it knows two inputs. -/
def demoParse (input : String) : Option URL :=
  if input == "https://example.com" then
    some { Scheme := "https", Hostname := "example.com", Port := "" }
  else if input == "http://example.com:8080" then
    some { Scheme := "http", Hostname := "example.com", Port := "8080" }
  else none

end Contextargs

namespace Core

/-! ## Workflow runner

The runner `executeWorkflow` is exercised by `pkg/core/workflow_execute_test.go`; its
own source is not among the modelled files, so it is modelled from section 4.3 of the
specification, with executers shaped as the `mockExecuter` of the tests. -/

/-- Go `operators.Result` as the runner reads it: the keys of the `Matches` and of the
`Extracts` map. -/
structure OperatorsResult where
  Matches : List String
  Extracts : List String
deriving DecidableEq

/-- Go `output.InternalWrappedEvent` as the runner reads it: the operator result (`none`
is nil) and the number of entries of `Results`. -/
structure WrappedEvent where
  OperatorsResult : Option OperatorsResult
  Results : Nat
deriving DecidableEq

/-- An executer of a workflow node, after `mockExecuter` (test file, lines 186-220):
`Execute` returns whether results were found for an input, `ExecuteWithResults` logs
events for it; `name` identifies the executer in the record of calls. -/
structure Executer where
  name : String
  Execute : String → Bool
  ExecuteWithResults : String → List WrappedEvent

mutual
/-- Modelled from the spec: a workflow node (`workflows.WorkflowTemplate`) with its
executers, its named matchers and its sub-templates. -/
inductive WorkflowTemplate where
  | mk (Executers : List Executer) (Matchers : List Matcher)
      (Subtemplates : List WorkflowTemplate)
/-- Modelled from the spec: a named matcher of a node (`workflows.Matcher`) with the
sub-templates it guards. -/
inductive Matcher where
  | mk (Name : String) (Subtemplates : List WorkflowTemplate)
end

/-- The name of a matcher. -/
def Matcher.Name : Matcher → String
  | .mk name _ => name

/-- The sub-templates of a matcher. -/
def Matcher.Subtemplates : Matcher → List WorkflowTemplate
  | .mk _ subtemplates => subtemplates

/-- The executers of a node. -/
def WorkflowTemplate.Executers : WorkflowTemplate → List Executer
  | .mk executers _ _ => executers

/-- One call of an executer by the runner: the executer, the input it was given, and
for a terminal node the value `Execute` returned (`none` when the node is not terminal
and `ExecuteWithResults` was called). -/
structure Visit where
  executer : String
  input : String
  matched : Option Bool
deriving DecidableEq

/-- What a run gives: the `matched` value and the calls made, in order. -/
structure Run where
  matched : Bool
  visits : List Visit
deriving DecidableEq

/-- Modelled from the spec: the parent produced at least one match, that is, an event
whose operators ran and that holds at least one result. -/
def hasMatch (event : WrappedEvent) : Bool :=
  event.OperatorsResult.isSome && decide (0 < event.Results)

/-- Modelled from the spec: a named matcher succeeds iff a captured operator result
contains a key equal to its name in its matches or extracts map. -/
def matcherSatisfied (name : String) (events : List WrappedEvent) : Bool :=
  events.any (fun event =>
    match event.OperatorsResult with
    | some result => result.Matches.contains name || result.Extracts.contains name
    | none => false)

/-- The events captured from the executers of a node for an input. -/
def capturedEvents (executers : List Executer) (input : String) : List WrappedEvent :=
  executers.flatMap (fun e => e.ExecuteWithResults input)

/-- The calls a non-terminal node makes to its own executers. -/
def parentVisits (executers : List Executer) (input : String) : List Visit :=
  executers.map (fun e => { executer := e.name, input := input, matched := none })

/-- The calls a terminal node makes to its executers. -/
def terminalVisits (executers : List Executer) (input : String) : List Visit :=
  executers.map (fun e => { executer := e.name, input := input, matched := some (e.Execute input) })

/-- A call contributes a match when it is the call of a terminal node's executer that
returned true. -/
def Visit.contributes (v : Visit) : Bool :=
  v.matched == some true

mutual
/-- Modelled from the spec: the runner on one node (section 4.3). The executers of the
node run with the input and their events are captured; with matchers, the sub-templates
of every satisfied matcher are run with the same input; else with sub-templates, these
are run only if the parent produced a match; else the node is terminal and its own
success is its contribution. The result is the logical OR over the nodes visited. -/
def runWorkflowStep (input : String) : WorkflowTemplate → Run
  | .mk executers matchers subtemplates =>
    match matchers with
    | [] =>
      match subtemplates with
      | [] =>
        { matched := executers.any (fun e => e.Execute input),
          visits := terminalVisits executers input }
      | _ :: _ =>
        if (capturedEvents executers input).any hasMatch then
          { matched := (runSubtemplates input subtemplates).matched,
            visits := parentVisits executers input ++ (runSubtemplates input subtemplates).visits }
        else { matched := false, visits := parentVisits executers input }
    | _ :: _ =>
      { matched := (runMatchers input (capturedEvents executers input) matchers).matched,
        visits := parentVisits executers input ++
          (runMatchers input (capturedEvents executers input) matchers).visits }
/-- Modelled from the spec: the runner on a list of nodes, each with the same input. -/
def runSubtemplates (input : String) : List WorkflowTemplate → Run
  | [] => { matched := false, visits := [] }
  | template :: rest =>
    { matched := (runWorkflowStep input template).matched || (runSubtemplates input rest).matched,
      visits := (runWorkflowStep input template).visits ++ (runSubtemplates input rest).visits }
/-- Modelled from the spec: the runner on the matchers of a node, given the events
captured from the node. -/
def runMatchers (input : String) (events : List WrappedEvent) : List Matcher → Run
  | [] => { matched := false, visits := [] }
  | .mk name subtemplates :: rest =>
    if matcherSatisfied name events then
      { matched := (runSubtemplates input subtemplates).matched ||
          (runMatchers input events rest).matched,
        visits := (runSubtemplates input subtemplates).visits ++
          (runMatchers input events rest).visits }
    else runMatchers input events rest
end

/-- Modelled from the spec: `executeWorkflow` on the root nodes of a workflow and the
input of the target. -/
def executeWorkflow (input : String) (workflows : List WorkflowTemplate) : Run :=
  runSubtemplates input workflows

/-- The `mockExecuter` of the tests: `Execute` returns `result`, `ExecuteWithResults`
logs `outputs`. -/
def mockExecuter (name : String) (result : Bool) (outputs : List WrappedEvent) : Executer :=
  { name := name, Execute := fun _ => result, ExecuteWithResults := fun _ => outputs }

/-- The input of the tests. -/
def testInput : String := "https://test.com"

/-- The parent event of `TestWorkflowsSubtemplates`: an operator result and one result. -/
def eventWithResult : WrappedEvent :=
  { OperatorsResult := some { Matches := [], Extracts := [] }, Results := 1 }

/-- The parent event of the matcher tests: `Matches` has the key `tomcat`. -/
def eventTomcat : WrappedEvent :=
  { OperatorsResult := some { Matches := ["tomcat"], Extracts := [] }, Results := 0 }

/-- A node with executers only, as the tests build it. -/
def leaf (e : Executer) : WorkflowTemplate :=
  .mk [e] [] []

end Core

namespace Mysql

/-! ## Memoized MySQL probes (`pkg/js/libs/mysql/memo.go`) -/

/-- A Go `interface{}` value returned by the memoizer, by its dynamic type: a `bool`, a
`MySQLInfo`, or a value of any other type (`typeName`), nil included. -/
inductive AnyValue (Info : Type) where
  | bool (value : Bool)
  | info (value : Info)
  | other (typeName : String)

/-- The method `protocolstate.Memoizer.Do`: for a key and a function to compute the
value, the value and the error it hands back. -/
abbrev MemoizerDo (Info : Type) :=
  String → (Unit → AnyValue Info × Option Errkit.GoError) → AnyValue Info × Option Errkit.GoError

/-- The error every wrapper returns when the cached value has another type. -/
def couldNotConvert : Errkit.GoError :=
  .plain "could not convert cached result"

/-- Go `memoizedconnectWithDSN` (lines 10-24). -/
def memoizedconnectWithDSN {Info : Type} (Do : MemoizerDo Info)
    (connectWithDSN : String → Bool × Option Errkit.GoError) (dsn : String) :
    Bool × Option Errkit.GoError :=
  let hash := "connectWithDSN:" ++ dsn
  let r := Do hash (fun _ => (AnyValue.bool (connectWithDSN dsn).1, (connectWithDSN dsn).2))
  match r.2 with
  | some err => (false, some err)
  | none =>
    match r.1 with
    | .bool value => (value, none)
    | _ => (false, some couldNotConvert)

/-- Go `memoizedisMySQL` (lines 26-40); `fmt.Sprint(port)` is the decimal form. -/
def memoizedisMySQL {Info : Type} (Do : MemoizerDo Info)
    (isMySQL : String → Int → Bool × Option Errkit.GoError) (host : String) (port : Int) :
    Bool × Option Errkit.GoError :=
  let hash := "isMySQL:" ++ host ++ ":" ++ toString port
  let r := Do hash (fun _ => (AnyValue.bool (isMySQL host port).1, (isMySQL host port).2))
  match r.2 with
  | some err => (false, some err)
  | none =>
    match r.1 with
    | .bool value => (value, none)
    | _ => (false, some couldNotConvert)

/-- Go `memoizedfingerprintMySQL` (lines 42-56); `zero` is `MySQLInfo{}`. -/
def memoizedfingerprintMySQL {Info : Type} (zero : Info) (Do : MemoizerDo Info)
    (fingerprintMySQL : String → Int → Info × Option Errkit.GoError) (host : String)
    (port : Int) : Info × Option Errkit.GoError :=
  let hash := "fingerprintMySQL:" ++ host ++ ":" ++ toString port
  let r := Do hash (fun _ =>
    (AnyValue.info (fingerprintMySQL host port).1, (fingerprintMySQL host port).2))
  match r.2 with
  | some err => (zero, some err)
  | none =>
    match r.1 with
    | .info value => (value, none)
    | _ => (zero, some couldNotConvert)

/-- The class of an error as `errkit` reports it: `Class()` of `FromError(err)`. -/
def errorClass (err : Errkit.GoError) : Option String :=
  (Errkit.FromError Errkit.defaultConfig err).map Errkit.ErrorX.Class

/-- The value is not a `bool`. -/
def AnyValue.notBool {Info : Type} : AnyValue Info → Bool
  | .bool _ => false
  | _ => true

/-- The value is not a `MySQLInfo`. -/
def AnyValue.notInfo {Info : Type} : AnyValue Info → Bool
  | .info _ => false
  | _ => true

/-- A memoizer that returns a cached string with a nil error, for concrete runs. -/
def demoStaleDo : MemoizerDo Nat :=
  fun _ _ => (AnyValue.other "string", none)

/-- A memoizer that returns an error, for concrete runs. -/
def demoFailingDo : MemoizerDo Nat :=
  fun _ _ => (AnyValue.other "nil", some (.plain "dial tcp: timeout"))

end Mysql

namespace HTTP

/-! ## The host-errors cache in the serial and fuzzing modes -/

/-- A call to the host-errors cache: `Check(key)` or `MarkFailed(key, err)`. -/
inductive CacheCall where
  | Check (key : String)
  | MarkFailed (key : String)
deriving DecidableEq

/-- The key of a call to the cache. -/
def CacheCall.key : CacheCall → String
  | .Check key => key
  | .MarkFailed key => key

/-! ## The stop-at-first-match decision of every path -/

/-- The places of `request.go` that decide whether a match stops the execution. -/
inductive StopSite where
  | race
  | parallel
  | turbo
  | serial
  | fuzzing
  | responseChain
deriving DecidableEq

/-- The stop-at-first-match decision at each place: the variable `shouldStop` of
`executeRaceRequest` (line 108), `executeParallelHTTP` (line 170) and `executeTurboHTTP`
(line 279), the variable `shouldStopAtFirstMatch` of the serial closure (line 541) and
of `fuzzRequestCallback` (line 399), and the condition of the loop over the response
chain in `executeRequest` (line 914). -/
def stopDecision (flags : StopFlags) : StopSite → Bool
  | .race => flags.global || flags.request || flags.executor
  | .parallel => flags.global || flags.request || flags.executor
  | .turbo => flags.global || flags.request || flags.executor
  | .serial => flags.global || flags.executor || flags.request
  | .fuzzing => flags.global || flags.request
  | .responseChain => flags.global || flags.executor || flags.request

/-- The value `fuzzRequestCallback` returns (lines 353-404), `true` letting the fuzzing
rule go on: `hostErrored` is the outcome of the host-errors check, `requestErr` what
`executeRequest` returns and `gotMatches` the variable once the event callbacks are
done. -/
def fuzzRequestCallback {Err : Type} (isStop : Err → Bool) (flags : StopFlags)
    (hostErrored : Bool) (requestErr : Option Err) (gotMatches : Bool) : Bool :=
  if hostErrored then false
  else
    match requestErr with
    | some err =>
      if isStop err then false
      else if stopDecision flags .fuzzing && gotMatches then false
      else true
    | none => if stopDecision flags .fuzzing && gotMatches then false else true

/-! ## The end of the modes run through the stop-at-first-match handler -/

/-- The three modes that run their requests as tasks of an `spmHandler`:
`executeRaceRequest`, `executeParallelHTTP` and `executeTurboHTTP` (pipelining). -/
inductive SPMMode where
  | race
  | parallel
  | turbo
deriving DecidableEq

/-- Go `multierr.Combine(errs...)`: nil (`none`) when no error of the list is non-nil,
else an error made of the non-nil errors, in order. -/
def multierrCombine {Err : Type} (errs : List (Option Err)) : Option (List Err) :=
  if (errs.filterMap id).isEmpty then none else some (errs.filterMap id)

/-- What a mode returns once `spmHandler.Wait()` has returned (lines 154-160, 239-244
and 336-341): `foundFirstMatch` is `spmHandler.FoundFirstMatch()` and `results` is
`spmHandler.CombinedResults()`, the errors the tasks sent, nil ones included. -/
def spmReturn {Err : Type} (mode : SPMMode) (foundFirstMatch : Bool)
    (results : List (Option Err)) : Option (List Err) :=
  match mode with
  | .race => if foundFirstMatch then none else multierrCombine results
  | .parallel => if foundFirstMatch then none else multierrCombine results
  | .turbo => if foundFirstMatch then none else multierrCombine results

/-! ## `createResponseHexDump` -/

/-- Scan of `strings.Index(s, sub)`; `i` is the index of the next character. -/
def indexGo (sub : List Char) : List Char → Nat → Int
  | [], i => if sub.isEmpty then (i : Int) else -1
  | c :: cs, i => if sub.isPrefixOf (c :: cs) then (i : Int) else indexGo sub cs (i + 1)

/-- Go `strings.Index(s, sub)`, a string being its bytes, one character each. -/
def strIndex (s sub : String) : Int :=
  indexGo sub.data s.data 0

/-- Go `CRLF` (line 967). -/
def CRLF : String := "\r\n"

/-- What `createResponseHexDump` builds its result from: the headers in clear and the
hex dump of `body`, or the hex dump of the whole response. -/
inductive HexDump where
  | split (headers : String) (body : String)
  | whole (response : String)
deriving DecidableEq

/-- Go `createResponseHexDump` (lines 995-1008); `none` is the panic of a slice
expression whose bound is past the end of the string. -/
def createResponseHexDump (response : String) : Option HexDump :=
  let CRLFs := CRLF ++ CRLF
  let headerEndIndex : Int := strIndex response CRLFs + CRLFs.length
  if headerEndIndex > 0 then
    if headerEndIndex ≤ response.length then
      some (.split (String.mk (response.data.take headerEndIndex.toNat))
        (String.mk (response.data.drop headerEndIndex.toNat)))
    else none
  else some (.whole response)

end HTTP

namespace Mysql

/-! ## The memoization keys -/

/-- The key `hash` of `memoizedconnectWithDSN` (line 11). -/
def connectWithDSNKey (dsn : String) : String :=
  "connectWithDSN:" ++ dsn

/-- The key `hash` of `memoizedisMySQL` (line 27). -/
def isMySQLKey (host : String) (port : Int) : String :=
  "isMySQL:" ++ host ++ ":" ++ toString port

/-- The key `hash` of `memoizedfingerprintMySQL` (line 43). -/
def fingerprintMySQLKey (host : String) (port : Int) : String :=
  "fingerprintMySQL:" ++ host ++ ":" ++ toString port

/-- A memoizer that hands back, as its error, the key it was called with. -/
def keyProbe {Info : Type} : MemoizerDo Info :=
  fun key _ => (AnyValue.other "", some (.plain key))

/-- The value of the decimal digits `ds`, most significant first. -/
def decimalValue (ds : List Char) : Nat :=
  ds.foldl (fun acc c => 10 * acc + (c.toNat - 48)) 0

/-- The character is one of `0` to `9`. -/
def isDecimalDigit (c : Char) : Bool :=
  48 ≤ c.toNat && c.toNat ≤ 57

end Mysql

namespace Templates

/-! ## `Cluster`: proofs -/

theorem perm_cons_eraseIdx {α : Type} : ∀ (l : List α) (i : Nat) (h : i < l.length),
    (l[i] :: l.eraseIdx i).Perm l
  | [], _, h => by simp at h
  | _ :: _, 0, _ => by simp
  | x :: xs, i + 1, h => by
    have h2 : i < xs.length := by simpa using h
    have ih := perm_cons_eraseIdx xs i h2
    simp only [List.getElem_cons_succ, List.eraseIdx_cons_succ]
    exact (List.Perm.swap x xs[i] (xs.eraseIdx i)).trans (ih.cons x)

theorem rangeOrder_perm {V : Type} (pick : List Nat → Nat) :
    ∀ (n : Nat) (pending : List (Nat × V)), pending.length ≤ n →
      (rangeOrder pick n pending).Perm pending
  | 0, pending, h => by
    have : pending = [] := List.length_eq_zero.mp (Nat.le_zero.mp h)
    subst this
    simp [rangeOrder]
  | n + 1, [], _ => by simp [rangeOrder]
  | n + 1, x :: xs, h => by
    have hpos : 0 < (x :: xs).length := by simp
    have hi : pick ((x :: xs).map Prod.fst) % (x :: xs).length < (x :: xs).length :=
      Nat.mod_lt _ hpos
    rw [rangeOrder, List.getElem?_eq_getElem hi]
    have hlen : ((x :: xs).eraseIdx (pick ((x :: xs).map Prod.fst) % (x :: xs).length)).length ≤ n := by
      rw [List.length_eraseIdx, if_pos hi]
      simp at h ⊢
      omega
    exact ((rangeOrder_perm pick n _ hlen).cons _).trans (perm_cons_eraseIdx _ _ hi)

theorem key_inj {V : Type} {m : List (Nat × V)} (hnd : (m.map Prod.fst).Nodup)
    {e e' : Nat × V} (he : e ∈ m) (he' : e' ∈ m) (h : e.1 = e'.1) : e = e' :=
  List.inj_on_of_nodup_map hnd he he' h

theorem perm_cons_mapDelete {V : Type} : ∀ (m : List (Nat × V)), (m.map Prod.fst).Nodup →
    ∀ seed ∈ m, m.Perm (seed :: mapDelete m seed.1)
  | [], _, _, h => by simp at h
  | x :: xs, hnd, seed, hmem => by
    have hnd' : x.1 ∉ xs.map Prod.fst ∧ (xs.map Prod.fst).Nodup := by
      simpa using hnd
    by_cases hx : x = seed
    · subst hx
      have : mapDelete (x :: xs) x.1 = xs := by
        unfold mapDelete
        rw [List.filter_cons_of_neg (by simp)]
        apply List.filter_eq_self.mpr
        intro e he
        have : e.1 ≠ x.1 := fun h => hnd'.1 (h ▸ List.mem_map_of_mem Prod.fst he)
        simpa using this
      rw [this]
    · have hs : seed ∈ xs := by
        rcases List.mem_cons.mp hmem with h | h
        · exact absurd h.symm hx
        · exact h
      have hk : x.1 ≠ seed.1 := fun h => hnd'.1 (h ▸ List.mem_map_of_mem Prod.fst hs)
      have : mapDelete (x :: xs) seed.1 = x :: mapDelete xs seed.1 := by
        unfold mapDelete
        rw [List.filter_cons_of_pos (by simpa using hk)]
      rw [this]
      exact ((perm_cons_mapDelete xs hnd'.2 seed hs).cons x).trans (List.Perm.swap _ _ _)

theorem absorb_foldlM {T R : Type} (req : T → Option R) (can : R → R → Bool) (seed : T)
    (hseed : ∃ a, req seed = some a) :
    ∀ (visit m cl : List (Nat × T)), (∀ e ∈ visit, ∃ b, req e.2 = some b) →
      visit.foldlM (absorbStep req can seed) (m, cl)
        = some (m.filter (fun e =>
              !((visit.filter (fun o => canPair req can seed o.2)).map Prod.fst).contains e.1),
            cl ++ visit.filter (fun o => canPair req can seed o.2))
  | [], m, cl, _ => by simp
  | o :: os, m, cl, h => by
    obtain ⟨a, ha⟩ := hseed
    obtain ⟨b, hb⟩ := h o (List.mem_cons_self _ _)
    have hos : ∀ e ∈ os, ∃ b, req e.2 = some b := fun e he => h e (List.mem_cons_of_mem _ he)
    have hcp : canPair req can seed o.2 = can a b := by simp [canPair, ha, hb]
    rw [List.foldlM_cons]
    by_cases hc : can a b = true
    · have hstep : absorbStep req can seed (m, cl) o = some (mapDelete m o.1, cl ++ [o]) := by
        simp [absorbStep, ha, hb, hc]
      rw [hstep]
      simp only [Option.some_bind, Option.bind_eq_bind]
      rw [absorb_foldlM req can seed ⟨a, ha⟩ os _ _ hos]
      rw [List.filter_cons_of_pos (by rw [hcp]; exact hc)]
      simp only [mapDelete, List.filter_filter, List.append_assoc, List.singleton_append,
        List.map_cons, List.contains_cons]
      congr 2
      apply List.filter_congr
      intro e _
      cases h1 : (e.1 == o.1) <;> simp [h1, bne]
    · have hstep : absorbStep req can seed (m, cl) o = some (m, cl) := by
        simp [absorbStep, ha, hb, hc]
      rw [hstep]
      simp only [Option.some_bind, Option.bind_eq_bind]
      rw [absorb_foldlM req can seed ⟨a, ha⟩ os _ _ hos]
      rw [List.filter_cons_of_neg (by rw [hcp]; exact hc)]

theorem absorbed_key_iff {T R : Type} (req : T → Option R) (can : R → R → Bool) (seed : T)
    {m1 visit : List (Nat × T)} (hnd : (m1.map Prod.fst).Nodup) (hv : visit.Perm m1)
    {e : Nat × T} (he : e ∈ m1) :
    ((visit.filter (fun o => canPair req can seed o.2)).map Prod.fst).contains e.1 = true
      ↔ canPair req can seed e.2 = true := by
  rw [List.contains_iff_exists_mem_beq]
  simp only [List.mem_map, beq_iff_eq, exists_exists_and_eq_and]
  constructor
  · rintro ⟨o, ho, hk⟩
    rw [List.mem_filter] at ho
    have : o = e := key_inj hnd (hv.subset ho.1) he hk.symm
    rw [← this]; exact ho.2
  · intro hp
    exact ⟨e, List.mem_filter.mpr ⟨hv.symm.subset he, hp⟩, rfl⟩

theorem clusterBucket_spec {T R : Type} (req : T → Option R) (can : R → R → Bool)
    (ch : RangeChoice) :
    ∀ (n : Nat) (m : List (Nat × T)), m.length ≤ n → (m.map Prod.fst).Nodup →
      (∀ e ∈ m, ∃ b, req e.2 = some b) →
      ∃ groups, clusterBucket req can ch n m = some groups ∧ BucketSpec req can m groups
  | 0, m, hlen, _, _ => by
    have : m = [] := List.length_eq_zero.mp (Nat.le_zero.mp hlen)
    subst this
    exact ⟨[], rfl, by simp [BucketSpec]⟩
  | n + 1, [], _, _, _ => ⟨[], by simp [clusterBucket], by simp [BucketSpec]⟩
  | n + 1, x :: xs, hlen, hnd, hreq => by
    have hi : ch.outer ((x :: xs).map Prod.fst) % (x :: xs).length < (x :: xs).length :=
      Nat.mod_lt _ (by simp)
    generalize hm : x :: xs = m at hi hlen hnd hreq
    generalize hidx : ch.outer (m.map Prod.fst) % m.length = i at hi
    have hseed : m[i] ∈ m := List.getElem_mem hi
    have hperm : m.Perm (m[i] :: mapDelete m m[i].1) := perm_cons_mapDelete m hnd _ hseed
    have hsub1 : ∀ e ∈ mapDelete m m[i].1, e ∈ m := fun e he => (List.mem_filter.mp he).1
    have hnd1 : ((mapDelete m m[i].1).map Prod.fst).Nodup :=
      hnd.sublist ((List.filter_sublist m).map Prod.fst)
    have hlen1 : (mapDelete m m[i].1).length + 1 = m.length := by
      have := hperm.length_eq
      simpa using this.symm
    have hv := rangeOrder_perm (ch.inner m[i].1) (mapDelete m m[i].1).length
      (mapDelete m m[i].1) (Nat.le_refl _)
    have hfold := absorb_foldlM req can m[i].2 (hreq _ hseed)
      (rangeOrder (ch.inner m[i].1) (mapDelete m m[i].1).length (mapDelete m m[i].1))
      (mapDelete m m[i].1) [m[i]] (fun e he => hreq e (hsub1 e (hv.subset he)))
    have hm2 : (mapDelete m m[i].1).filter (fun e =>
          !((List.filter (fun o => canPair req can m[i].2 o.2)
            (rangeOrder (ch.inner m[i].1) (mapDelete m m[i].1).length
              (mapDelete m m[i].1))).map Prod.fst).contains e.1)
        = (mapDelete m m[i].1).filter (fun e => !canPair req can m[i].2 e.2) := by
      apply List.filter_congr
      intro e he
      have := absorbed_key_iff req can m[i].2 hnd1 hv he
      cases h1 : canPair req can m[i].2 e.2 <;> simp_all
    rw [hm2] at hfold
    have hlen2 : ((mapDelete m m[i].1).filter (fun e => !canPair req can m[i].2 e.2)).length ≤ n := by
      have := List.length_filter_le (fun e => !canPair req can m[i].2 e.2) (mapDelete m m[i].1)
      omega
    have hnd2 : (((mapDelete m m[i].1).filter
        (fun e => !canPair req can m[i].2 e.2)).map Prod.fst).Nodup :=
      hnd1.sublist ((List.filter_sublist _).map Prod.fst)
    obtain ⟨groups, hg, hspec⟩ := clusterBucket_spec req can ch n _ hlen2 hnd2
      (fun e he => hreq e (hsub1 e (List.mem_filter.mp he).1))
    refine ⟨([m[i]] ++ List.filter (fun o => canPair req can m[i].2 o.2)
        (rangeOrder (ch.inner m[i].1) (mapDelete m m[i].1).length (mapDelete m m[i].1)))
        :: groups, ?_, ?_⟩
    · rw [clusterBucket, hidx, List.getElem?_eq_getElem hi]
      simp only [hfold, hg]
    · obtain ⟨hp, hg2, hpw⟩ := hspec
      refine ⟨?_, ?_, ?_⟩
      · simp only [List.flatten_cons, List.singleton_append, List.cons_append]
        refine List.Perm.trans (List.Perm.cons _ ?_) hperm.symm
        refine List.Perm.trans ((hv.filter _).append hp) ?_
        exact List.filter_append_perm _ _
      · intro g hgm
        rcases List.mem_cons.mp hgm with h | h
        · refine ⟨m[i], _, by rw [h]; rfl, ?_⟩
          intro o ho
          exact (List.mem_filter.mp ho).2
        · exact hg2 g h
      · refine List.pairwise_cons.mpr ⟨?_, hpw⟩
        intro g hgm seed hs o ho
        simp only [List.singleton_append, List.head?_cons, Option.mem_def, Option.some.injEq] at hs
        subst hs
        have : o ∈ groups.flatten := List.mem_flatten.mpr ⟨g, hgm, ho⟩
        have := (List.mem_filter.mp (hp.subset this)).2
        simpa using this

theorem mapSet_fresh {V : Type} (m : List (Nat × V)) (k : Nat) (v : V)
    (h : ∀ e ∈ m, e.1 < k) : mapSet m k v = m ++ [(k, v)] := by
  unfold mapSet
  congr 1
  apply List.filter_eq_self.mpr
  intro e he
  have := h e he
  simp only [bne_iff_ne, ne_eq]
  omega

theorem mem_allEntries {T : Type} {st : Buckets T} {e : Nat × T} :
    e ∈ allEntries st ↔ (∃ g ∈ st.final, e ∈ g) ∨ e ∈ st.dns ∨ e ∈ st.http ∨ e ∈ st.ssl := by
  simp only [allEntries, List.mem_append, List.mem_flatten, or_assoc]

theorem inv_final {D H S : Type} {P : Protocols D H S} {k : Nat}
    {st : Buckets (Template D H S)} (t : Template D H S) (h : BucketsInv P k st) :
    BucketsInv P (k + 1) { st with final := st.final ++ [[(k, t)]] } ∧
      (allEntries { st with final := st.final ++ [[(k, t)]] }).Perm
        (allEntries st ++ [(k, t)]) := by
  refine ⟨⟨?_, ?_, h.dns, h.http, h.ssl⟩, ?_⟩
  · intro e he
    rw [mem_allEntries] at he
    simp only [List.mem_append, List.mem_singleton] at he
    rcases he with ⟨g, hg | hg, heg⟩ | he
    · exact Nat.lt_succ_of_lt (h.bound e (mem_allEntries.mpr (Or.inl ⟨g, hg, heg⟩)))
    · subst hg
      simp only [List.mem_singleton] at heg
      subst heg
      exact Nat.lt_succ_self _
    · exact Nat.lt_succ_of_lt (h.bound e (mem_allEntries.mpr (Or.inr he)))
  · intro g hg
    rcases List.mem_append.mp hg with hg | hg
    · exact h.single g hg
    · simp only [List.mem_singleton] at hg
      subst hg
      rfl
  · simp only [allEntries, List.flatten_append, List.flatten_cons, List.flatten_nil,
      List.append_nil, List.append_assoc]
    refine List.Perm.append_left _ ?_
    exact List.perm_append_comm.trans (by simp only [List.append_assoc]; exact List.Perm.refl _)

theorem inv_dns {D H S : Type} {P : Protocols D H S} {k : Nat}
    {st : Buckets (Template D H S)} (t : Template D H S) (h : BucketsInv P k st)
    (ht : InDNS P t) :
    BucketsInv P (k + 1) { st with dns := mapSet st.dns k t } ∧
      (allEntries { st with dns := mapSet st.dns k t }).Perm (allEntries st ++ [(k, t)]) := by
  have hfresh : mapSet st.dns k t = st.dns ++ [(k, t)] :=
    mapSet_fresh _ _ _ (fun e he => h.bound e (mem_allEntries.mpr (Or.inr (Or.inl he))))
  rw [hfresh]
  refine ⟨⟨?_, h.single, ?_, h.http, h.ssl⟩, ?_⟩
  · intro e he
    rw [mem_allEntries] at he
    simp only [List.mem_append, List.mem_singleton] at he
    rcases he with he | (he | he) | he
    · exact Nat.lt_succ_of_lt (h.bound e (mem_allEntries.mpr (Or.inl he)))
    · exact Nat.lt_succ_of_lt (h.bound e (mem_allEntries.mpr (Or.inr (Or.inl he))))
    · subst he
      exact Nat.lt_succ_self _
    · exact Nat.lt_succ_of_lt (h.bound e (mem_allEntries.mpr (Or.inr (Or.inr he))))
  · intro e he
    rcases List.mem_append.mp he with he | he
    · exact h.dns e he
    · simp only [List.mem_singleton] at he
      subst he
      exact ht
  · simp only [allEntries, List.append_assoc]
    refine List.Perm.append_left _ (List.Perm.append_left _ ?_)
    exact List.perm_append_comm.trans (by simp only [List.append_assoc]; exact List.Perm.refl _)

theorem inv_http {D H S : Type} {P : Protocols D H S} {k : Nat}
    {st : Buckets (Template D H S)} (t : Template D H S) (h : BucketsInv P k st)
    (ht : InHTTP P t) :
    BucketsInv P (k + 1) { st with http := mapSet st.http k t } ∧
      (allEntries { st with http := mapSet st.http k t }).Perm (allEntries st ++ [(k, t)]) := by
  have hfresh : mapSet st.http k t = st.http ++ [(k, t)] :=
    mapSet_fresh _ _ _ (fun e he => h.bound e (mem_allEntries.mpr (Or.inr (Or.inr (Or.inl he)))))
  rw [hfresh]
  refine ⟨⟨?_, h.single, h.dns, ?_, h.ssl⟩, ?_⟩
  · intro e he
    rw [mem_allEntries] at he
    simp only [List.mem_append, List.mem_singleton] at he
    rcases he with he | he | (he | he) | he
    · exact Nat.lt_succ_of_lt (h.bound e (mem_allEntries.mpr (Or.inl he)))
    · exact Nat.lt_succ_of_lt (h.bound e (mem_allEntries.mpr (Or.inr (Or.inl he))))
    · exact Nat.lt_succ_of_lt (h.bound e (mem_allEntries.mpr (Or.inr (Or.inr (Or.inl he)))))
    · subst he
      exact Nat.lt_succ_self _
    · exact Nat.lt_succ_of_lt (h.bound e (mem_allEntries.mpr (Or.inr (Or.inr (Or.inr he)))))
  · intro e he
    rcases List.mem_append.mp he with he | he
    · exact h.http e he
    · simp only [List.mem_singleton] at he
      subst he
      exact ht
  · simp only [allEntries, List.append_assoc]
    refine List.Perm.append_left _ (List.Perm.append_left _ (List.Perm.append_left _ ?_))
    exact List.perm_append_comm

theorem inv_ssl {D H S : Type} {P : Protocols D H S} {k : Nat}
    {st : Buckets (Template D H S)} (t : Template D H S) (h : BucketsInv P k st)
    (ht : InSSL P t) :
    BucketsInv P (k + 1) { st with ssl := mapSet st.ssl k t } ∧
      (allEntries { st with ssl := mapSet st.ssl k t }).Perm (allEntries st ++ [(k, t)]) := by
  have hfresh : mapSet st.ssl k t = st.ssl ++ [(k, t)] :=
    mapSet_fresh _ _ _ (fun e he => h.bound e (mem_allEntries.mpr (Or.inr (Or.inr (Or.inr he)))))
  rw [hfresh]
  refine ⟨⟨?_, h.single, h.dns, h.http, ?_⟩, ?_⟩
  · intro e he
    rw [mem_allEntries] at he
    simp only [List.mem_append, List.mem_singleton] at he
    rcases he with he | he | he | he | he
    · exact Nat.lt_succ_of_lt (h.bound e (mem_allEntries.mpr (Or.inl he)))
    · exact Nat.lt_succ_of_lt (h.bound e (mem_allEntries.mpr (Or.inr (Or.inl he))))
    · exact Nat.lt_succ_of_lt (h.bound e (mem_allEntries.mpr (Or.inr (Or.inr (Or.inl he)))))
    · exact Nat.lt_succ_of_lt (h.bound e (mem_allEntries.mpr (Or.inr (Or.inr (Or.inr he)))))
    · subst he
      exact Nat.lt_succ_self _
  · intro e he
    rcases List.mem_append.mp he with he | he
    · exact h.ssl e he
    · simp only [List.mem_singleton] at he
      subst he
      exact ht
  · simp only [allEntries, List.append_assoc]
    exact List.Perm.refl _

theorem classify_inv {D H S : Type} {P : Protocols D H S} {k : Nat}
    {st : Buckets (Template D H S)} (t : Template D H S) (h : BucketsInv P k st) :
    BucketsInv P (k + 1) (classify P st k t) ∧
      (allEntries (classify P st k t)).Perm (allEntries st ++ [(k, t)]) := by
  unfold classify
  by_cases hf : Flagged t
  · have : (t.Flow != "" || t.IsMultiProtocol) = true := by
      rcases hf with hf | hf
      · simp [hf]
      · simp [hf]
    rw [if_pos this]
    exact inv_final t h
  · have : ¬ ((t.Flow != "" || t.IsMultiProtocol) = true) := by
      intro hc
      apply hf
      simp only [Bool.or_eq_true, bne_iff_ne, ne_eq] at hc
      exact hc
    rw [if_neg this]
    split
    · rename_i r hr
      split
      · rename_i hc
        exact inv_dns t h ⟨hf, r, hr, hc⟩
      · exact inv_final t h
    · rename_i hd
      have hd1 : t.RequestsDNS.length ≠ 1 := by
        intro hl
        obtain ⟨r, hr⟩ := List.length_eq_one.mp hl
        exact hd r hr
      split
      · rename_i r hr
        split
        · rename_i hc
          exact inv_http t h ⟨hf, hd1, r, hr, hc⟩
        · exact inv_final t h
      · rename_i hh
        have hh1 : t.RequestsHTTP.length ≠ 1 := by
          intro hl
          obtain ⟨r, hr⟩ := List.length_eq_one.mp hl
          exact hh r hr
        split
        · rename_i r hr
          split
          · rename_i hc
            exact inv_ssl t h ⟨hf, hd1, hh1, r, hr, hc⟩
          · exact inv_final t h
        · exact inv_final t h

theorem classifyFrom_inv {D H S : Type} {P : Protocols D H S} :
    ∀ (l : List (Template D H S)) (k : Nat) (st : Buckets (Template D H S)),
      BucketsInv P k st →
      BucketsInv P (k + l.length) (classifyFrom P k l st) ∧
        (allEntries (classifyFrom P k l st)).Perm (allEntries st ++ l.enumFrom k)
  | [], k, st, h => by simpa [classifyFrom] using h
  | t :: rest, k, st, h => by
    obtain ⟨h1, p1⟩ := classify_inv t h
    obtain ⟨h2, p2⟩ := classifyFrom_inv rest (k + 1) _ h1
    rw [classifyFrom]
    refine ⟨by simpa [Nat.add_assoc, Nat.add_comm 1] using h2, ?_⟩
    refine p2.trans ?_
    simp only [List.enumFrom_cons]
    refine (p1.append_right _).trans ?_
    simp

theorem ClusterKeyed_classified {D H S : Type} (P : Protocols D H S) (ch : RangeChoice)
    (list : List (Template D H S)) :
    ∃ (st : Buckets (Template D H S)) (d h s : List (List (Nat × Template D H S))),
      st = classifyFrom P 0 list { http := [], dns := [], ssl := [], final := [] } ∧
      ClusterKeyed P ch list = some (st.final ++ d ++ h ++ s) ∧
      BucketsInv P list.length st ∧ (allEntries st).Perm list.enum ∧
      BucketSpec (fun t => t.RequestsDNS[0]?) P.dns.CanCluster st.dns d ∧
      BucketSpec (fun t => t.RequestsHTTP[0]?) P.http.CanCluster st.http h ∧
      BucketSpec (fun t => t.RequestsSSL[0]?) P.ssl.CanCluster st.ssl s := by
  have h0 : BucketsInv P 0 ({ http := [], dns := [], ssl := [], final := [] } :
      Buckets (Template D H S)) :=
    ⟨by simp [allEntries], by simp, by simp, by simp, by simp⟩
  obtain ⟨hinv, hperm⟩ := classifyFrom_inv list 0 _ h0
  generalize hst : classifyFrom P 0 list { http := [], dns := [], ssl := [], final := [] } = st
    at hinv hperm
  have hperm2 : (allEntries st).Perm list.enum := by
    simpa [allEntries, List.enum] using hperm
  have hnd : ((allEntries st).map Prod.fst).Nodup := by
    have := (hperm2.map Prod.fst).nodup_iff
    rw [this, List.enum_map_fst]
    exact List.nodup_range _
  have hsub : ∀ m : List (Nat × Template D H S), m.Sublist (allEntries st) →
      (m.map Prod.fst).Nodup := fun m hm => hnd.sublist (hm.map Prod.fst)
  have hd := clusterBucket_spec (fun t : Template D H S => t.RequestsDNS[0]?) P.dns.CanCluster ch
    st.dns.length st.dns (Nat.le_refl _)
    (hsub _ (by
      unfold allEntries
      exact ((List.sublist_append_right _ _).trans (List.sublist_append_left _ _)).trans
        (List.sublist_append_left _ _)))
    (fun e he => by
      obtain ⟨_, r, hr, _⟩ := hinv.dns e he
      exact ⟨r, by simp [hr]⟩)
  have hh := clusterBucket_spec (fun t : Template D H S => t.RequestsHTTP[0]?) P.http.CanCluster ch
    st.http.length st.http (Nat.le_refl _)
    (hsub _ (by
      unfold allEntries
      exact (List.sublist_append_right _ _).trans (List.sublist_append_left _ _)))
    (fun e he => by
      obtain ⟨_, _, r, hr, _⟩ := hinv.http e he
      exact ⟨r, by simp [hr]⟩)
  have hs := clusterBucket_spec (fun t : Template D H S => t.RequestsSSL[0]?) P.ssl.CanCluster ch
    st.ssl.length st.ssl (Nat.le_refl _)
    (hsub _ (by
      unfold allEntries
      exact List.sublist_append_right _ _))
    (fun e he => by
      obtain ⟨_, _, _, r, hr, _⟩ := hinv.ssl e he
      exact ⟨r, by simp [hr]⟩)
  obtain ⟨d, hd1, hd2⟩ := hd
  obtain ⟨h, hh1, hh2⟩ := hh
  obtain ⟨s, hs1, hs2⟩ := hs
  refine ⟨st, d, h, s, rfl, ?_, by simpa using hinv, hperm2, hd2, hh2, hs2⟩
  unfold ClusterKeyed
  simp only [hst, hd1, hh1, hs1]

theorem ClusterKeyed_spec {D H S : Type} (P : Protocols D H S) (ch : RangeChoice)
    (list : List (Template D H S)) :
    ∃ (st : Buckets (Template D H S)) (d h s : List (List (Nat × Template D H S))),
      ClusterKeyed P ch list = some (st.final ++ d ++ h ++ s) ∧
      BucketsInv P list.length st ∧ (allEntries st).Perm list.enum ∧
      BucketSpec (fun t => t.RequestsDNS[0]?) P.dns.CanCluster st.dns d ∧
      BucketSpec (fun t => t.RequestsHTTP[0]?) P.http.CanCluster st.http h ∧
      BucketSpec (fun t => t.RequestsSSL[0]?) P.ssl.CanCluster st.ssl s := by
  obtain ⟨st, d, h, s, _, hrest⟩ := ClusterKeyed_classified P ch list
  exact ⟨st, d, h, s, hrest⟩

theorem bucket_group_nonempty {T R : Type} {req : T → Option R} {can : R → R → Bool}
    {m : List (Nat × T)} {groups : List (List (Nat × T))} (hspec : BucketSpec req can m groups) :
    ∀ g ∈ groups, g ≠ [] := by
  intro g hg
  obtain ⟨seed, rest, h, _⟩ := hspec.2.1 g hg
  rw [h]
  exact List.cons_ne_nil _ _

theorem bucket_group_mem {T R : Type} {req : T → Option R} {can : R → R → Bool}
    {m : List (Nat × T)} {groups : List (List (Nat × T))} (hspec : BucketSpec req can m groups)
    {g : List (Nat × T)} (hg : g ∈ groups) {e : Nat × T} (he : e ∈ g) : e ∈ m :=
  hspec.1.subset (List.mem_flatten.mpr ⟨g, hg, he⟩)

theorem bucket_group_clustered {T R : Type} (reqs : T → List R) (can : R → R → Bool)
    (InB : T → Prop) {m : List (Nat × T)} {groups : List (List (Nat × T))}
    (hspec : BucketSpec (fun t => (reqs t)[0]?) can m groups)
    (hin : ∀ e ∈ m, InB e.2) (hone : ∀ t, InB t → ∃ r, reqs t = [r]) :
    ∀ g ∈ groups, ClusteredOn reqs can InB (g.map Prod.snd) := by
  intro g hg
  have hmem : ∀ e ∈ g, InB e.2 := fun e he => hin e (bucket_group_mem hspec hg he)
  obtain ⟨seed, rest, hgeq, hcan⟩ := hspec.2.1 g hg
  refine ⟨?_, ?_⟩
  · intro t ht
    obtain ⟨e, he, rfl⟩ := List.mem_map.mp ht
    exact hmem e he
  · obtain ⟨a, ha⟩ := hone seed.2 (hmem seed (by rw [hgeq]; exact List.mem_cons_self _ _))
    refine ⟨seed.2, rest.map Prod.snd, a, by rw [hgeq]; rfl, ha, ?_⟩
    intro o ho
    obtain ⟨e, he, rfl⟩ := List.mem_map.mp ho
    obtain ⟨b, hb⟩ := hone e.2 (hmem e (by rw [hgeq]; exact List.mem_cons_of_mem _ he))
    refine ⟨b, hb, ?_⟩
    have := hcan e he
    simpa [canPair, ha, hb] using this

/-- C1: `Cluster(list)` returns (no panic) and is a partition of the list: the
position/template pairs of all the groups together are a rearrangement of the pairs
`(i, list[i])`, so every position occurs in exactly one group; no group is empty; and
the group sizes sum to `len(list)`. This holds for every iteration order of the maps. -/
theorem Cluster_partition {D H S : Type} (P : Protocols D H S) (ch : RangeChoice)
    (list : List (Template D H S)) :
    ∃ groups, ClusterKeyed P ch list = some groups ∧
      Cluster P ch list = some (groups.map (fun g => g.map Prod.snd)) ∧
      groups.flatten.Perm list.enum ∧
      (∀ g ∈ groups, g ≠ []) ∧
      (groups.map List.length).sum = list.length := by
  obtain ⟨st, d, h, s, hk, hinv, hperm, hd, hh, hs⟩ := ClusterKeyed_spec P ch list
  have hflat : (st.final ++ d ++ h ++ s).flatten.Perm list.enum := by
    refine List.Perm.trans ?_ hperm
    simp only [List.flatten_append, allEntries]
    exact (((List.Perm.refl _).append hd.1).append hh.1).append hs.1
  refine ⟨_, hk, by simp [Cluster, hk], hflat, ?_, ?_⟩
  · intro g hg
    simp only [List.mem_append] at hg
    rcases hg with ((hg | hg) | hg) | hg
    · intro h0
      have := hinv.single g hg
      simp [h0] at this
    · exact bucket_group_nonempty hd g hg
    · exact bucket_group_nonempty hh g hg
    · exact bucket_group_nonempty hs g hg
  · rw [← List.length_flatten, hflat.length_eq, List.enum_length]

theorem Cluster_group_clustered {D H S : Type} (P : Protocols D H S) (ch : RangeChoice)
    (list : List (Template D H S)) (groups : List (List (Template D H S)))
    (hrun : Cluster P ch list = some groups) (g : List (Template D H S)) (hg : g ∈ groups)
    (hsize : 2 ≤ g.length) :
    ClusteredOn (fun t => t.RequestsDNS) P.dns.CanCluster (InDNS P) g ∨
    ClusteredOn (fun t => t.RequestsHTTP) P.http.CanCluster (InHTTP P) g ∨
    ClusteredOn (fun t => t.RequestsSSL) P.ssl.CanCluster (InSSL P) g := by
  obtain ⟨st, d, h, s, hk, hinv, _, hd, hh, hs⟩ := ClusterKeyed_spec P ch list
  simp only [Cluster, hk, Option.map_some', Option.some.injEq] at hrun
  subst hrun
  obtain ⟨kg, hkg, rfl⟩ := List.mem_map.mp hg
  simp only [List.mem_append] at hkg
  rcases hkg with ((hkg | hkg) | hkg) | hkg
  · have := hinv.single kg hkg
    simp only [List.length_map] at hsize
    omega
  · exact Or.inl (bucket_group_clustered (fun t => t.RequestsDNS) _ _ hd hinv.dns
      (fun t ht => by obtain ⟨_, r, hr, _⟩ := ht; exact ⟨r, hr⟩) kg hkg)
  · exact Or.inr (Or.inl (bucket_group_clustered (fun t => t.RequestsHTTP) _ _ hh hinv.http
      (fun t ht => by obtain ⟨_, _, r, hr, _⟩ := ht; exact ⟨r, hr⟩) kg hkg))
  · exact Or.inr (Or.inr (bucket_group_clustered (fun t => t.RequestsSSL) _ _ hs hinv.ssl
      (fun t ht => by obtain ⟨_, _, _, r, hr, _⟩ := ht; exact ⟨r, hr⟩) kg hkg))

/-- C2: every group of two or more members returned by `Cluster` comes from one protocol
bucket: all its members are unflagged templates with exactly one request of that
protocol, the request reporting `IsClusterable`, and the request of the first member
`CanCluster` the request of every other member. -/
theorem Cluster_group_same_bucket {D H S : Type} (P : Protocols D H S) (ch : RangeChoice)
    (list : List (Template D H S)) (groups : List (List (Template D H S)))
    (hrun : Cluster P ch list = some groups) (g : List (Template D H S)) (hg : g ∈ groups)
    (hsize : 2 ≤ g.length) :
    ClusteredOn (fun t => t.RequestsDNS) P.dns.CanCluster (InDNS P) g ∨
    ClusteredOn (fun t => t.RequestsHTTP) P.http.CanCluster (InHTTP P) g ∨
    ClusteredOn (fun t => t.RequestsSSL) P.ssl.CanCluster (InSSL P) g :=
  Cluster_group_clustered P ch list groups hrun g hg hsize

theorem Cluster_group_same_bucket_witness :
    Cluster demoProtocols demoChoice [demoHttp "a" 7, demoHttp "b" 8, demoHttp "c" 7]
        = some [[demoHttp "a" 7, demoHttp "c" 7], [demoHttp "b" 8]] ∧
    (ClusteredOn (fun t => t.RequestsDNS) demoProtocols.dns.CanCluster (InDNS demoProtocols)
        [demoHttp "a" 7, demoHttp "c" 7] ∨
      ClusteredOn (fun t => t.RequestsHTTP) demoProtocols.http.CanCluster (InHTTP demoProtocols)
        [demoHttp "a" 7, demoHttp "c" 7] ∨
      ClusteredOn (fun t => t.RequestsSSL) demoProtocols.ssl.CanCluster (InSSL demoProtocols)
        [demoHttp "a" 7, demoHttp "c" 7]) :=
  ⟨by decide, Cluster_group_same_bucket demoProtocols demoChoice
    [demoHttp "a" 7, demoHttp "b" 8, demoHttp "c" 7]
    [[demoHttp "a" 7, demoHttp "c" 7], [demoHttp "b" 8]] (by decide)
    [demoHttp "a" 7, demoHttp "c" 7] (List.mem_cons_self _ _) (by decide)⟩

/-- C3: a template at position `k` whose `Flow` is non-empty or whose
`Options.IsMultiProtocol` is set is returned by `Cluster` in a group of its own, and no
other group holds it, whatever its requests and the other templates are. -/
theorem Cluster_flagged_alone {D H S : Type} (P : Protocols D H S) (ch : RangeChoice)
    (list : List (Template D H S)) (k : Nat) (t : Template D H S)
    (hk : list[k]? = some t) (hf : Flagged t) :
    ∃ groups, ClusterKeyed P ch list = some groups ∧ [(k, t)] ∈ groups ∧
      ∀ g ∈ groups, (k, t) ∈ g → g = [(k, t)] := by
  obtain ⟨st, d, h, s, hrun, hinv, hperm, hd, hh, hs⟩ := ClusterKeyed_spec P ch list
  have hfin : ∀ g ∈ st.final, (k, t) ∈ g → g = [(k, t)] := by
    intro g hg hmem
    obtain ⟨x, hx⟩ := List.length_eq_one.mp (hinv.single g hg)
    subst hx
    rw [List.mem_singleton.mp hmem]
  have hnd : (k, t) ∉ st.dns := fun hm => (hinv.dns _ hm).1 hf
  have hnh : (k, t) ∉ st.http := fun hm => (hinv.http _ hm).1 hf
  have hns : (k, t) ∉ st.ssl := fun hm => (hinv.ssl _ hm).1 hf
  refine ⟨_, hrun, ?_, ?_⟩
  · have hmem : (k, t) ∈ allEntries st :=
      hperm.symm.subset (List.mk_mem_enum_iff_getElem?.mpr hk)
    rcases mem_allEntries.mp hmem with ⟨g, hg, hkg⟩ | hm | hm | hm
    · have := hfin g hg hkg
      subst this
      simp only [List.mem_append]
      exact Or.inl (Or.inl (Or.inl hg))
    · exact absurd hm hnd
    · exact absurd hm hnh
    · exact absurd hm hns
  · intro g hg hmem
    simp only [List.mem_append] at hg
    rcases hg with ((hg | hg) | hg) | hg
    · exact hfin g hg hmem
    · exact absurd (bucket_group_mem hd hg hmem) hnd
    · exact absurd (bucket_group_mem hh hg hmem) hnh
    · exact absurd (bucket_group_mem hs hg hmem) hns

theorem Cluster_flagged_alone_witness :
    ∃ groups, ClusterKeyed demoProtocols demoChoice
        [demoHttp "a" 7, demoFlow "f" 7, demoHttp "c" 7] = some groups ∧
      [(1, demoFlow "f" 7)] ∈ groups ∧
      ∀ g ∈ groups, (1, demoFlow "f" 7) ∈ g → g = [(1, demoFlow "f" 7)] :=
  Cluster_flagged_alone demoProtocols demoChoice
    [demoHttp "a" 7, demoFlow "f" 7, demoHttp "c" 7] 1 (demoFlow "f" 7) (by decide)
    (Or.inl (by decide))

/-- C4, as stated, fails: two templates that each carry one DNS request and one HTTP
request (and are not flagged multiprotocol) are returned in one group of two, although
each has two non-empty request lists. -/
theorem Cluster_two_request_lists_grouped :
    Cluster demoProtocols demoChoice [demoDnsHttp "a", demoDnsHttp "b"]
        = some [[demoDnsHttp "a", demoDnsHttp "b"]] ∧
      nonEmptyRequestLists (demoDnsHttp "a") = 2 ∧
      nonEmptyRequestLists (demoDnsHttp "b") = 2 := by
  decide

/-- C4, amended: every member of a returned group of two or more is neither flow-scripted
nor multiprotocol and has a request list of length exactly one among `RequestsDNS`,
`RequestsHTTP`, `RequestsSSL`; the first such list, in that order, is the one of the
bucket it was grouped in, that is, the list on which the whole group is clustered: if
`RequestsDNS` has length one the group is clustered on DNS; if not and `RequestsHTTP` has
length one the group is clustered on HTTP; otherwise `RequestsSSL` has length one and the
group is clustered on TLS. The other lists of the member are not constrained. -/
theorem Cluster_group_member_single_request {D H S : Type} (P : Protocols D H S)
    (ch : RangeChoice) (list : List (Template D H S)) (groups : List (List (Template D H S)))
    (hrun : Cluster P ch list = some groups) (g : List (Template D H S)) (hg : g ∈ groups)
    (hsize : 2 ≤ g.length) (t : Template D H S) (ht : t ∈ g) :
    ¬ Flagged t ∧
      ((t.RequestsDNS.length = 1 ∧
          ClusteredOn (fun t => t.RequestsDNS) P.dns.CanCluster (InDNS P) g) ∨
        (t.RequestsDNS.length ≠ 1 ∧ t.RequestsHTTP.length = 1 ∧
          ClusteredOn (fun t => t.RequestsHTTP) P.http.CanCluster (InHTTP P) g) ∨
        (t.RequestsDNS.length ≠ 1 ∧ t.RequestsHTTP.length ≠ 1 ∧ t.RequestsSSL.length = 1 ∧
          ClusteredOn (fun t => t.RequestsSSL) P.ssl.CanCluster (InSSL P) g)) := by
  rcases Cluster_group_clustered P ch list groups hrun g hg hsize with hc | hc | hc
  · obtain ⟨hf, r, hr, _⟩ := hc.1 t ht
    exact ⟨hf, Or.inl ⟨by rw [hr]; rfl, hc⟩⟩
  · obtain ⟨hf, h1, r, hr, _⟩ := hc.1 t ht
    exact ⟨hf, Or.inr (Or.inl ⟨h1, by rw [hr]; rfl, hc⟩)⟩
  · obtain ⟨hf, h1, h2, r, hr, _⟩ := hc.1 t ht
    exact ⟨hf, Or.inr (Or.inr ⟨h1, h2, by rw [hr]; rfl, hc⟩)⟩

theorem Cluster_group_member_single_request_witness :
    Cluster demoProtocols demoChoice [demoDnsHttp "a", demoHttp "x" 3, demoDnsHttp "b"]
        = some [[demoDnsHttp "a", demoDnsHttp "b"], [demoHttp "x" 3]] ∧
      (demoDnsHttp "b").RequestsDNS.length = 1 ∧ (demoDnsHttp "b").RequestsHTTP.length = 1 ∧
      ¬ Flagged (demoDnsHttp "b") ∧
      (((demoDnsHttp "b").RequestsDNS.length = 1 ∧
          ClusteredOn (fun t => t.RequestsDNS) demoProtocols.dns.CanCluster (InDNS demoProtocols)
            [demoDnsHttp "a", demoDnsHttp "b"]) ∨
        ((demoDnsHttp "b").RequestsDNS.length ≠ 1 ∧ (demoDnsHttp "b").RequestsHTTP.length = 1 ∧
          ClusteredOn (fun t => t.RequestsHTTP) demoProtocols.http.CanCluster
            (InHTTP demoProtocols) [demoDnsHttp "a", demoDnsHttp "b"]) ∨
        ((demoDnsHttp "b").RequestsDNS.length ≠ 1 ∧ (demoDnsHttp "b").RequestsHTTP.length ≠ 1 ∧
          (demoDnsHttp "b").RequestsSSL.length = 1 ∧
          ClusteredOn (fun t => t.RequestsSSL) demoProtocols.ssl.CanCluster (InSSL demoProtocols)
            [demoDnsHttp "a", demoDnsHttp "b"])) :=
  ⟨by decide, by decide, by decide,
    Cluster_group_member_single_request demoProtocols demoChoice
      [demoDnsHttp "a", demoHttp "x" 3, demoDnsHttp "b"]
      [[demoDnsHttp "a", demoDnsHttp "b"], [demoHttp "x" 3]] (by decide)
      [demoDnsHttp "a", demoDnsHttp "b"] (List.mem_cons_self _ _) (by decide)
      (demoDnsHttp "b") (by decide)⟩

/-! ## `ClusterID`: proofs -/

theorem sortStrings_perm (l : List String) : (sortStrings l).Perm l :=
  List.perm_insertionSort _ l

theorem sortStrings_sorted (l : List String) : (sortStrings l).Sorted (fun a b => a ≤ b) :=
  List.sorted_insertionSort _ l

/-- C5: `ClusterID` does not depend on the order of its argument: two template lists
that are permutations of each other get the same id, which is the SHA-256 digest of the
template ids sorted ascending and joined by a comma. -/
theorem ClusterID_perm {D H S : Type} (SHA256Sum : String → String)
    (l1 l2 : List (Template D H S)) (h : l1.Perm l2) :
    ClusterID SHA256Sum l1 = ClusterID SHA256Sum l2 ∧
      ∃ ids : List String, ids.Sorted (fun a b => a ≤ b) ∧
        ids.Perm (l1.map (fun tpl => tpl.ID)) ∧
        ClusterID SHA256Sum l1 = SHA256Sum (",".intercalate ids) := by
  refine ⟨?_, sortStrings (l1.map (fun tpl : Template D H S => tpl.ID)), sortStrings_sorted _,
    sortStrings_perm _, rfl⟩
  have hs : sortStrings (l1.map (fun tpl => tpl.ID)) = sortStrings (l2.map (fun tpl => tpl.ID)) :=
    List.eq_of_perm_of_sorted
      (((sortStrings_perm _).trans (h.map _)).trans (sortStrings_perm _).symm)
      (sortStrings_sorted _) (sortStrings_sorted _)
  simp only [ClusterID, hs]

theorem ClusterID_perm_witness :
    [demoHttp "b" 7, demoHttp "a" 7].Perm [demoHttp "a" 7, demoHttp "b" 7] ∧
    (ClusterID (fun s => "sha256:" ++ s) [demoHttp "b" 7, demoHttp "a" 7]
        = ClusterID (fun s => "sha256:" ++ s) [demoHttp "a" 7, demoHttp "b" 7] ∧
      ∃ ids : List String, ids.Sorted (fun a b => a ≤ b) ∧
        ids.Perm ([demoHttp "b" 7, demoHttp "a" 7].map (fun tpl => tpl.ID)) ∧
        ClusterID (fun s => "sha256:" ++ s) [demoHttp "b" 7, demoHttp "a" 7]
          = (fun s => "sha256:" ++ s) (",".intercalate ids)) :=
  ⟨List.Perm.swap _ _ _, ClusterID_perm _ _ _ (List.Perm.swap _ _ _)⟩

/-! ## `ClusterExecuter`: proofs -/

theorem operators_foldlM {D H S Ops Res Err : Type} (X : External D H S Ops Res Err)
    (ty : ProtocolType) :
    ∀ (l : List (Template D H S)) (acc : List (clusteredOperator Ops)),
      (∀ t ∈ l, ∃ o, memberOperators X ty t = some o) →
      l.foldlM (appendMember X ty) acc = some (acc ++ operatorsOf X ty l)
  | [], acc, _ => by simp [operatorsOf]
  | t :: rest, acc, h => by
    obtain ⟨o, ho⟩ := h t (List.mem_cons_self _ _)
    have hrest : ∀ t ∈ rest, ∃ o, memberOperators X ty t = some o :=
      fun t ht => h t (List.mem_cons_of_mem _ ht)
    rw [List.foldlM_cons]
    cases o with
    | none =>
      simp only [appendMember, ho, Option.some_bind, Option.bind_eq_bind]
      rw [operators_foldlM X ty rest acc hrest]
      simp [operatorsOf, List.filterMap_cons, ho]
    | some op =>
      simp only [appendMember, ho, Option.some_bind, Option.bind_eq_bind]
      rw [operators_foldlM X ty rest _ hrest]
      simp [operatorsOf, List.filterMap_cons, ho]

theorem operatorsOf_member {D H S Ops Res Err : Type} (X : External D H S Ops Res Err)
    (ty : ProtocolType) (g : List (Template D H S)) :
    ∀ op ∈ operatorsOf X ty g, ∃ t ∈ g, t.ID = op.templateID := by
  intro op hop
  obtain ⟨t, ht, h⟩ := List.mem_filterMap.mp hop
  refine ⟨t, ht, ?_⟩
  split at h
  · simp only [Option.some.injEq] at h
    rw [← h]
  · simp at h

theorem NewClusterExecuter_dns {D H S Ops Res Err : Type} (X : External D H S Ops Res Err)
    (seed : Template D H S) (rest : List (Template D H S)) (a : D)
    (hseed : seed.RequestsDNS = [a]) (hrest : ∀ o ∈ rest, ∃ b, o.RequestsDNS = [b]) :
    NewClusterExecuter X (seed :: rest)
      = some { requests := some (Request.dns a),
               operators := operatorsOf X .DNSProtocol (seed :: rest),
               templateType := .DNSProtocol } := by
  have hall : ∀ t ∈ seed :: rest, ∃ o, memberOperators X .DNSProtocol t = some o := by
    intro t ht
    rcases List.mem_cons.mp ht with h | h
    · subst h
      exact ⟨X.dnsOperators a, by simp [memberOperators, hseed]⟩
    · obtain ⟨b, hb⟩ := hrest t h
      exact ⟨X.dnsOperators b, by simp [memberOperators, hb]⟩
  have hfold := operators_foldlM X .DNSProtocol (seed :: rest) [] hall
  simp only [List.nil_append] at hfold
  simp only [NewClusterExecuter, hseed, List.length_singleton, if_true]
  rw [hfold]
  rfl

theorem NewClusterExecuter_http {D H S Ops Res Err : Type} (X : External D H S Ops Res Err)
    (seed : Template D H S) (rest : List (Template D H S)) (a : H)
    (hd : seed.RequestsDNS.length ≠ 1)
    (hseed : seed.RequestsHTTP = [a]) (hrest : ∀ o ∈ rest, ∃ b, o.RequestsHTTP = [b]) :
    NewClusterExecuter X (seed :: rest)
      = some { requests := some (Request.http a),
               operators := operatorsOf X .HTTPProtocol (seed :: rest),
               templateType := .HTTPProtocol } := by
  have hall : ∀ t ∈ seed :: rest, ∃ o, memberOperators X .HTTPProtocol t = some o := by
    intro t ht
    rcases List.mem_cons.mp ht with h | h
    · subst h
      exact ⟨X.httpOperators a, by simp [memberOperators, hseed]⟩
    · obtain ⟨b, hb⟩ := hrest t h
      exact ⟨X.httpOperators b, by simp [memberOperators, hb]⟩
  have hfold := operators_foldlM X .HTTPProtocol (seed :: rest) [] hall
  simp only [List.nil_append] at hfold
  simp only [NewClusterExecuter, if_neg hd, hseed, List.length_singleton, if_true]
  rw [hfold]
  rfl

theorem NewClusterExecuter_ssl {D H S Ops Res Err : Type} (X : External D H S Ops Res Err)
    (seed : Template D H S) (rest : List (Template D H S)) (a : S)
    (hd : seed.RequestsDNS.length ≠ 1) (hh : seed.RequestsHTTP.length ≠ 1)
    (hseed : seed.RequestsSSL = [a]) (hrest : ∀ o ∈ rest, ∃ b, o.RequestsSSL = [b]) :
    NewClusterExecuter X (seed :: rest)
      = some { requests := some (Request.ssl a),
               operators := operatorsOf X .SSLProtocol (seed :: rest),
               templateType := .SSLProtocol } := by
  have hall : ∀ t ∈ seed :: rest, ∃ o, memberOperators X .SSLProtocol t = some o := by
    intro t ht
    rcases List.mem_cons.mp ht with h | h
    · subst h
      exact ⟨X.sslOperators a, by simp [memberOperators, hseed]⟩
    · obtain ⟨b, hb⟩ := hrest t h
      exact ⟨X.sslOperators b, by simp [memberOperators, hb]⟩
  have hfold := operators_foldlM X .SSLProtocol (seed :: rest) [] hall
  simp only [List.nil_append] at hfold
  simp only [NewClusterExecuter, if_neg hd, if_neg hh, hseed, List.length_singleton, if_true]
  rw [hfold]
  rfl

theorem Execute_demo_run : ((NewClusterExecuter demoExternal [demoHttp "a" 7, demoHttp "b" 7]).bind
    (fun e => Execute demoExternal demoOptions e "https://test.com")).map
      (fun out => (out.matched, writtenResults out.log, (transportCalls out.log).length))
    = some (true, [("a", "hit")], 1) := by decide

theorem NewClusterExecuter_demo_operators :
    (NewClusterExecuter demoExternal [demoHttp "a" 7, demoHttp "b" 7]).map
        (fun e => e.operators)
      = some [{ templateID := "a", templatePath := "", operator := 7 },
          { templateID := "b", templatePath := "", operator := 7 }] := by decide

end Templates

namespace Errkit

/-! ## `errkit`: proofs -/

/-- C7 is violated by the code: with the default `MaxErrorDepth` of 3, an `ErrorX` made
by `New` and extended by three `Msgf` calls holds four causes, and `FromError` of a
joined error or of an `ErrorX` with four causes keeps all four, because the depth is
tested only on entry to `parseError` and never by `Msgf`. -/
theorem chain_exceeds_MaxErrorDepth :
    defaultConfig.MaxErrorDepth = 3 ∧
    ((((New (.plain "a")).Msgf (.plain "b")).Msgf (.plain "c")).Msgf (.plain "d")).Unwrap.length
      = 4 ∧
    (FromError defaultConfig
        (.joined "a\nb\nc\nd" [.plain "a", .plain "b", .plain "c", .plain "d"])).map
      (fun e => e.Unwrap.length) = some 4 ∧
    (FromError defaultConfig
        (ErrorX.Build { cls := "", errs := [.plain "a", .plain "b", .plain "c", .plain "d"] })).map
      (fun e => e.Unwrap.length) = some 4 := by
  decide

/-- C8 is violated by the code: merging an `ErrorX` of class `b,c` into a receiver of
class `a` stores the class `a,b,c`, as stated, but `Class()` of the receiver is then
`a,b` and not `a`, because `getOriginClass` cuts at the last comma. -/
theorem merged_class_not_receiver_class :
    (parseError defaultConfig { cls := "a", errs := [] }
        (ErrorX.Build { cls := "b,c", errs := [.plain "x"] })).map
      (fun e => (e.cls, e.Class)) = some ("a,b,c", "a,b") ∧
    ErrorX.Class { cls := "a", errs := [] } = "a" := by
  decide

end Errkit

namespace HTTP

/-! ## HTTP execution mode: proofs -/

/-- C9: `Request.ExecuteWithResults` runs exactly one mode, the one of the first
condition that holds in the order pipeline, race with a positive race count, non-empty
fuzzing rules, positive thread count, and serial mode when none holds. -/
theorem executionMode_first_condition (request : Request) :
    executionMode request = specifiedMode request ∧
    (executionMode request = Mode.turbo ↔ request.Pipeline = true) ∧
    (executionMode request = Mode.race ↔
      request.Pipeline = false ∧ request.Race = true ∧ 0 < request.RaceNumberRequests) ∧
    (executionMode request = Mode.fuzzing ↔
      request.Pipeline = false ∧ ¬ (request.Race = true ∧ 0 < request.RaceNumberRequests) ∧
        0 < request.Fuzzing) ∧
    (executionMode request = Mode.parallel ↔
      request.Pipeline = false ∧ ¬ (request.Race = true ∧ 0 < request.RaceNumberRequests) ∧
        request.Fuzzing = 0 ∧ 0 < request.Threads) ∧
    (executionMode request = Mode.serial ↔
      request.Pipeline = false ∧ ¬ (request.Race = true ∧ 0 < request.RaceNumberRequests) ∧
        request.Fuzzing = 0 ∧ request.Threads ≤ 0) := by
  obtain ⟨pipeline, race, raceCount, fuzzing, threads⟩ := request
  simp only [executionMode, specifiedMode, modeTable]
  by_cases hp : pipeline = true
  · simp [hp]
  · by_cases hr : race = true ∧ 0 < raceCount
    · simp [hp, hr.1, hr.2]
    · have hr2 : (race && decide (raceCount > 0)) = false := by
        cases race <;> simp_all
      by_cases hf : 0 < fuzzing
      · have hf2 : fuzzing ≠ 0 := by omega
        simp [hp, hr2, hr, hf, hf2]
      · have hf2 : fuzzing = 0 := by omega
        by_cases ht : 0 < threads
        · simp [hp, hr2, hr, hf2, ht]
        · have ht2 : threads ≤ 0 := by omega
          simp [hp, hr2, hr, hf2, ht, ht2]

end HTTP

namespace Contextargs

/-! ## `MetaInput`: proofs -/

theorem getMd5Hash_ne_empty (md5Sum : String → Digest) (data : String) :
    getMd5Hash md5Sum data ≠ "" := by
  intro h
  have hlen : (getMd5Hash md5Sum data).length = 16 := by
    simp [getMd5Hash, String.length, (md5Sum data).size]
  rw [h] at hlen
  simp at hlen

theorem GetScanHash_hash_ne_empty {RR : Type} (md5Sum : String → Digest) (rrID : RR → String)
    (m : MetaInput RR) (templateId : String) :
    (m.GetScanHash md5Sum rrID templateId).2.hash ≠ "" ∧
      (m.GetScanHash md5Sum rrID templateId).1 = (m.GetScanHash md5Sum rrID templateId).2.hash := by
  unfold MetaInput.GetScanHash
  by_cases h : m.hash = ""
  · simp only [h, beq_self_eq_true, if_true]
    exact ⟨getMd5Hash_ne_empty _ _, trivial⟩
  · have hb : (m.hash == "") = false := by simpa using h
    simp only [hb, Bool.false_eq_true, if_false]
    exact ⟨h, trivial⟩

/-- C10: `GetScanHash` is idempotent. After a first call `m.GetScanHash(t)`, a second
call returns the same string and leaves the receiver as it is, also when `Input`,
`CustomIP` or the raw request were changed in between; nothing is recomputed, since the
result of the second call is the same for whatever `md5.Sum` and `ID` functions it is
given. -/
theorem GetScanHash_idempotent {RR : Type} (md5Sum md5Sum2 : String → Digest)
    (rrID rrID2 : RR → String) (m : MetaInput RR) (templateId : String)
    (input customIP : String) (reqResp : Option RR) :
    MetaInput.GetScanHash md5Sum2 rrID2
        { (m.GetScanHash md5Sum rrID templateId).2 with
          Input := input, CustomIP := customIP, ReqResp := reqResp } templateId
      = ((m.GetScanHash md5Sum rrID templateId).1,
          { (m.GetScanHash md5Sum rrID templateId).2 with
            Input := input, CustomIP := customIP, ReqResp := reqResp }) ∧
    MetaInput.GetScanHash md5Sum2 rrID2 (m.GetScanHash md5Sum rrID templateId).2 templateId
      = ((m.GetScanHash md5Sum rrID templateId).1, (m.GetScanHash md5Sum rrID templateId).2) := by
  obtain ⟨hne, heq⟩ := GetScanHash_hash_ne_empty md5Sum rrID m templateId
  have hb : ((m.GetScanHash md5Sum rrID templateId).2.hash == "") = false := by simpa using hne
  constructor
  · rw [MetaInput.GetScanHash]
    simp only [hb, Bool.false_eq_true, if_false, heq]
  · rw [MetaInput.GetScanHash]
    simp only [hb, Bool.false_eq_true, if_false, heq]

/-! ## `MetaInput`: clone, scan hash, JSON, id and address -/

theorem GetScanHash_fresh {RR : Type} (md5Sum : String → Digest) (rrID : RR → String)
    (m : MetaInput RR) (templateId : String) (hfresh : m.hash = "") :
    (m.GetScanHash md5Sum rrID templateId).1
      = getMd5Hash md5Sum (templateId ++ ":" ++ m.Input ++ ":" ++ m.CustomIP ++
          rawRequestID rrID m.ReqResp) := by
  unfold MetaInput.GetScanHash rawRequestID
  simp only [hfresh, beq_self_eq_true, if_true]

/-- C11: for a `MetaInput` whose hash has not been computed, `Clone()` keeps `Input` and
`CustomIP`, has an empty cached hash, and `GetScanHash(t)` on the clone returns the value
it returns on the original, the clone of the raw request having the id of the raw
request. -/
theorem Clone_GetScanHash {RR : Type} (md5Sum : String → Digest) (rrID : RR → String)
    (rrClone : RR → RR) (hclone : ∀ rr, rrID (rrClone rr) = rrID rr)
    (m : MetaInput RR) (hfresh : m.hash = "") (templateId : String) :
    (m.Clone rrClone).Input = m.Input ∧ (m.Clone rrClone).CustomIP = m.CustomIP ∧
      (m.Clone rrClone).hash = "" ∧
      ((m.Clone rrClone).GetScanHash md5Sum rrID templateId).1
        = (m.GetScanHash md5Sum rrID templateId).1 := by
  refine ⟨rfl, rfl, rfl, ?_⟩
  rw [GetScanHash_fresh md5Sum rrID m templateId hfresh,
    GetScanHash_fresh md5Sum rrID (m.Clone rrClone) templateId rfl]
  cases hr : m.ReqResp with
  | none => simp [MetaInput.Clone, hr, rawRequestID]
  | some rr => simp [MetaInput.Clone, hr, hclone, rawRequestID]

theorem Clone_GetScanHash_witness :
    (∀ rr : String, demoID (id rr) = demoID rr) ∧ (demoInput (some "raw")).hash = "" ∧
    (((demoInput (some "raw")).Clone id).Input = (demoInput (some "raw")).Input ∧
      ((demoInput (some "raw")).Clone id).CustomIP = (demoInput (some "raw")).CustomIP ∧
      ((demoInput (some "raw")).Clone id).hash = "" ∧
      (((demoInput (some "raw")).Clone id).GetScanHash demoDigest demoID "tpl").1
        = ((demoInput (some "raw")).GetScanHash demoDigest demoID "tpl").1) :=
  ⟨fun _ => rfl, rfl,
    Clone_GetScanHash demoDigest demoID id (fun _ => rfl) (demoInput (some "raw")) rfl "tpl"⟩

/-- C12, as stated, fails: for template id `t`, input `i`, custom IP `c` and a raw request
of id `id-r`, the digest is taken of `t:i:cid-r`, the raw-request id following the custom
IP directly; this is not the four fields joined by one delimiter, whatever the delimiter,
and with the stand-in digest the returned hash differs from the digest of `t:i:c:id-r`. -/
theorem GetScanHash_not_delimited :
    ((demoInput (some "r")).GetScanHash demoDigest demoID "t").1
      = getMd5Hash demoDigest "t:i:cid-r" ∧
    ((demoInput (some "r")).GetScanHash demoDigest demoID "t").1
      ≠ getMd5Hash demoDigest (delimitedFields ":" ["t", "i", "c", "id-r"]) ∧
    ∀ delim : String, delimitedFields delim ["t", "i", "c", "id-r"] ≠ "t:i:cid-r" := by
  refine ⟨by decide, by decide, ?_⟩
  intro delim h
  have hlen := congrArg String.length h
  have h1 : ("t" : String).length = 1 := rfl
  have h2 : ("i" : String).length = 1 := rfl
  have h3 : ("c" : String).length = 1 := rfl
  have h4 : ("id-r" : String).length = 4 := rfl
  have h9 : ("t:i:cid-r" : String).length = 9 := rfl
  simp only [delimitedFields, String.intercalate, String.intercalate.go, String.length_append,
    h1, h2, h3, h4, h9] at hlen
  omega

/-- C12, amended: the first `GetScanHash(t)` on a `MetaInput` returns the raw MD5 digest,
a string of exactly 16 bytes, of the template id, a colon, the input, a colon, the
custom IP, and the raw-request id appended without a delimiter (empty when there is no
raw request). -/
theorem GetScanHash_first {RR : Type} (md5Sum : String → Digest) (rrID : RR → String)
    (m : MetaInput RR) (templateId : String) (hfresh : m.hash = "") :
    (m.GetScanHash md5Sum rrID templateId).1
      = String.mk (md5Sum (templateId ++ ":" ++ m.Input ++ ":" ++ m.CustomIP ++
          rawRequestID rrID m.ReqResp)).bytes ∧
    (m.GetScanHash md5Sum rrID templateId).1.length = 16 := by
  have h := GetScanHash_fresh md5Sum rrID m templateId hfresh
  refine ⟨h, ?_⟩
  rw [h]
  simp [getMd5Hash, String.length, Digest.size]

theorem GetScanHash_first_witness :
    (demoInput none).hash = "" ∧
    (((demoInput none).GetScanHash demoDigest demoID "t").1
      = String.mk (demoDigest ("t" ++ ":" ++ (demoInput none).Input ++ ":" ++
          (demoInput none).CustomIP ++ rawRequestID demoID (demoInput none).ReqResp)).bytes ∧
    ((demoInput none).GetScanHash demoDigest demoID "t").1.length = 16) :=
  ⟨rfl, GetScanHash_first demoDigest demoID (demoInput none) "t" rfl⟩

theorem jsonBytes_valid : ∀ (l : List Char) (skip : Nat),
    validBytes l skip = true → jsonBytes l skip = l
  | [], _, _ => rfl
  | c :: cs, skip + 1, h => by
    rw [validBytes] at h
    rw [jsonBytes, jsonBytes_valid cs skip h]
  | c :: cs, 0, h => by
    rw [validBytes] at h
    rw [jsonBytes]
    split at h
    · exact absurd h (by decide)
    · rename_i width hw
      rw [jsonBytes_valid cs width h]

theorem jsonString_valid (s : String) (h : validUTF8 s = true) : jsonString s = s := by
  unfold jsonString
  rw [jsonBytes_valid s.data 0 h]

/-- C13 as stated fails: for a `MetaInput` whose `Input` is the two bytes `0xFF 0xFE`,
which are not valid UTF-8, the encoder writes each byte as the escape of U+FFFD, so the
`Input` decoded from what `MarshalString` writes is the six bytes of two U+FFFD and not
the `Input` of the original. -/
theorem Marshal_Unmarshal_invalid_utf8 :
    validUTF8 "\xff\xfe" = false ∧
    (MetaInput.Unmarshal some MetaInput.zero
        ((demoMeta "\xff\xfe" "" none).MarshalString id)).map (fun out => out.Input)
      = some "\xef\xbf\xbd\xef\xbf\xbd" ∧
    (MetaInput.Unmarshal some MetaInput.zero
        ((demoMeta "\xff\xfe" "" none).MarshalString id)).map (fun out => out.Input)
      ≠ some (demoMeta "\xff\xfe" "" none).Input := by
  decide

/-- C13, amended: JSON round trip of a `MetaInput` whose `Input` and `CustomIP` are valid
UTF-8. Decoding what `MarshalString` writes for `m` into a new `MetaInput` succeeds and
gives the same `Input`, the same `CustomIP`, an equal raw request and an empty hash,
provided the raw request survives its own JSON round trip; and what is written does not
depend on the hash. -/
theorem Marshal_Unmarshal_roundtrip {RR J : Type} (rrMarshal : RR → J)
    (rrUnmarshal : J → Option RR) (hcodec : ∀ rr, rrUnmarshal (rrMarshal rr) = some rr)
    (m : MetaInput RR) (hinput : validUTF8 m.Input = true)
    (hcustomIP : validUTF8 m.CustomIP = true) :
    (∃ out, MetaInput.Unmarshal rrUnmarshal MetaInput.zero (m.MarshalString rrMarshal) = some out ∧
      out.Input = m.Input ∧ out.CustomIP = m.CustomIP ∧ out.ReqResp = m.ReqResp ∧
      out.hash = "") ∧
    ∀ h : String, MetaInput.MarshalString rrMarshal { m with hash := h }
      = m.MarshalString rrMarshal := by
  refine ⟨?_, fun _ => rfl⟩
  obtain ⟨input, customIP, hash, reqResp⟩ := m
  simp only at hinput hcustomIP
  have hi2 := jsonString_valid input hinput
  have hc2 := jsonString_valid customIP hcustomIP
  cases reqResp with
  | none =>
    refine ⟨_, rfl, ?_, ?_, rfl, rfl⟩
    · by_cases hi : input = "" <;> simp [MetaInput.MarshalString, MetaInput.zero, hi, hi2]
    · by_cases hc : customIP = "" <;> simp [MetaInput.MarshalString, MetaInput.zero, hc, hc2]
  | some rr =>
    refine ⟨{ Input := input, CustomIP := customIP, hash := "", ReqResp := some rr }, ?_,
      rfl, rfl, rfl, rfl⟩
    simp only [MetaInput.Unmarshal, MetaInput.MarshalString, hcodec, Option.map_some',
      MetaInput.zero]
    by_cases hi : input = "" <;> by_cases hc : customIP = "" <;> simp [hi, hc, hi2, hc2]

theorem Marshal_Unmarshal_roundtrip_witness :
    (∀ rr : String, some (id rr) = some rr) ∧
    validUTF8 (demoMeta "h\xc3\xa9" "1.2.3.4" (some "raw")).Input = true ∧
    validUTF8 (demoMeta "h\xc3\xa9" "1.2.3.4" (some "raw")).CustomIP = true ∧
    ((∃ out, MetaInput.Unmarshal some MetaInput.zero
          ((demoMeta "h\xc3\xa9" "1.2.3.4" (some "raw")).MarshalString id) = some out ∧
        out.Input = (demoMeta "h\xc3\xa9" "1.2.3.4" (some "raw")).Input ∧
        out.CustomIP = (demoMeta "h\xc3\xa9" "1.2.3.4" (some "raw")).CustomIP ∧
        out.ReqResp = (demoMeta "h\xc3\xa9" "1.2.3.4" (some "raw")).ReqResp ∧ out.hash = "") ∧
      ∀ h : String,
        MetaInput.MarshalString id { demoMeta "h\xc3\xa9" "1.2.3.4" (some "raw") with hash := h }
          = (demoMeta "h\xc3\xa9" "1.2.3.4" (some "raw")).MarshalString id) :=
  ⟨fun _ => rfl, by decide, by decide,
    Marshal_Unmarshal_roundtrip id some (fun _ => rfl)
      (demoMeta "h\xc3\xa9" "1.2.3.4" (some "raw")) (by decide) (by decide)⟩

/-- C14: `ID()` is `Input`, a hyphen and `CustomIP` when a custom IP is set; otherwise
the internal id of the raw request when there is one; otherwise `Input`. -/
theorem ID_cases {RR : Type} (rrID : RR → String) (m : MetaInput RR) :
    (m.CustomIP ≠ "" → m.ID rrID = m.Input ++ "-" ++ m.CustomIP) ∧
    (∀ rr, m.CustomIP = "" → m.ReqResp = some rr → m.ID rrID = rrID rr) ∧
    (m.CustomIP = "" → m.ReqResp = none → m.ID rrID = m.Input) := by
  refine ⟨?_, ?_, ?_⟩
  · intro h
    simp [MetaInput.ID, h]
  · intro rr h hr
    simp [MetaInput.ID, h, hr]
  · intro h hr
    simp [MetaInput.ID, h, hr]

theorem ID_cases_witness :
    (demoInput (some "raw")).CustomIP ≠ "" ∧
    (demoMeta "i" "" (some "raw")).ReqResp = some "raw" ∧
    (demoMeta "i" "" none).ReqResp = none ∧
    (demoInput (some "raw")).ID demoID = "i-c" ∧
    (demoMeta "i" "" (some "raw")).ID demoID = "id-raw" ∧
    (demoMeta "i" "" none).ID demoID = "i" :=
  ⟨by decide, rfl, rfl,
    (ID_cases demoID (demoInput (some "raw"))).1 (by decide),
    (ID_cases demoID (demoMeta "i" "" (some "raw"))).2.1
      "raw" rfl rfl,
    (ID_cases demoID (demoMeta "i" "" none)).2.2 rfl rfl⟩

/-- C15: `Address()` is empty when `Input` does not parse as an absolute URL; when it
parses, it is `net.JoinHostPort` of the host and the port, the host being `CustomIP` when
that is non-empty and the hostname of the URL otherwise, the port being the port of the
URL when that is non-empty, 443 for the scheme `https`, and 80 for `http` and every
other scheme. For a host without a colon the result is the host, a colon and the
port. -/
theorem Address_cases {RR : Type} (ParseAbsoluteURL : String → Option URL) (m : MetaInput RR) :
    (ParseAbsoluteURL m.Input = none → m.Address ParseAbsoluteURL = "") ∧
    (∀ target, ParseAbsoluteURL m.Input = some target →
      m.Address ParseAbsoluteURL
          = JoinHostPort (if m.CustomIP ≠ "" then m.CustomIP else target.Hostname)
              (specifiedPort target) ∧
        ((if m.CustomIP ≠ "" then m.CustomIP else target.Hostname).data.contains ':' = false →
          m.Address ParseAbsoluteURL
            = (if m.CustomIP ≠ "" then m.CustomIP else target.Hostname) ++ ":" ++
                specifiedPort target)) := by
  constructor
  · intro h
    simp [MetaInput.Address, h]
  · intro target h
    have hport : (if target.Port == "" then
          if target.Scheme == urlutilHTTP then "80"
          else if target.Scheme == urlutilHTTPS then "443"
          else "80"
        else target.Port) = specifiedPort target := by
      unfold specifiedPort urlutilHTTP urlutilHTTPS
      by_cases hp : target.Port = ""
      · by_cases hs : target.Scheme = "https"
        · simp [hp, hs]
        · by_cases hh : target.Scheme = "http" <;> simp [hp, hs, hh]
      · simp [hp]
    have hhost : (if m.CustomIP != "" then m.CustomIP else target.Hostname)
        = (if m.CustomIP ≠ "" then m.CustomIP else target.Hostname) := by
      by_cases hc : m.CustomIP = "" <;> simp [hc]
    have haddr : m.Address ParseAbsoluteURL
        = JoinHostPort (if m.CustomIP ≠ "" then m.CustomIP else target.Hostname)
            (specifiedPort target) := by
      simp only [MetaInput.Address, h, hport, hhost]
    refine ⟨haddr, ?_⟩
    intro hcolon
    rw [haddr, JoinHostPort, hcolon]
    simp

theorem Address_cases_witness :
    demoParse (demoMeta "ftp://x" "" none).Input = none ∧
    demoParse (demoMeta "https://example.com" "" none).Input
      = some { Scheme := "https", Hostname := "example.com", Port := "" } ∧
    demoParse (demoMeta "http://example.com:8080" "::1" none).Input
      = some { Scheme := "http", Hostname := "example.com", Port := "8080" } ∧
    (demoMeta "ftp://x" "" none).Address demoParse = "" ∧
    (demoMeta "https://example.com" "" none).Address demoParse = "example.com:443" ∧
    (demoMeta "http://example.com:8080" "::1" none).Address demoParse = "[::1]:8080" :=
  ⟨by decide, by decide, by decide,
    (Address_cases demoParse
      (demoMeta "ftp://x" "" none)).1 (by decide),
    ((Address_cases demoParse (demoMeta "https://example.com" "" none)).2
        { Scheme := "https", Hostname := "example.com", Port := "" } (by decide)).1.trans
      (by decide),
    ((Address_cases demoParse (demoMeta "http://example.com:8080" "::1" none)).2
        { Scheme := "http", Hostname := "example.com", Port := "8080" } (by decide)).1.trans
      (by decide)⟩

end Contextargs

namespace Core

/-! ## Workflow runner: proofs -/

mutual
theorem runWorkflowStep_input (input : String) :
    ∀ (t : WorkflowTemplate), ∀ v ∈ (runWorkflowStep input t).visits, v.input = input
  | .mk executers [] [] => by
    intro v hv
    simp only [runWorkflowStep, terminalVisits, List.mem_map] at hv
    obtain ⟨e, _, rfl⟩ := hv
    rfl
  | .mk executers [] (s :: subs) => by
    intro v hv
    simp only [runWorkflowStep] at hv
    split at hv
    · rcases List.mem_append.mp hv with h | h
      · simp only [parentVisits, List.mem_map] at h
        obtain ⟨e, _, rfl⟩ := h
        rfl
      · exact runSubtemplates_input input (s :: subs) v h
    · simp only [parentVisits, List.mem_map] at hv
      obtain ⟨e, _, rfl⟩ := hv
      rfl
  | .mk executers (m :: ms) subs => by
    intro v hv
    simp only [runWorkflowStep] at hv
    rcases List.mem_append.mp hv with h | h
    · simp only [parentVisits, List.mem_map] at h
      obtain ⟨e, _, rfl⟩ := h
      rfl
    · exact runMatchers_input input _ (m :: ms) v h
theorem runSubtemplates_input (input : String) :
    ∀ (l : List WorkflowTemplate), ∀ v ∈ (runSubtemplates input l).visits, v.input = input
  | [] => by simp [runSubtemplates]
  | t :: rest => by
    intro v hv
    simp only [runSubtemplates] at hv
    rcases List.mem_append.mp hv with h | h
    · exact runWorkflowStep_input input t v h
    · exact runSubtemplates_input input rest v h
theorem runMatchers_input (input : String) (events : List WrappedEvent) :
    ∀ (l : List Matcher), ∀ v ∈ (runMatchers input events l).visits, v.input = input
  | [] => by simp [runMatchers]
  | .mk name subs :: rest => by
    intro v hv
    simp only [runMatchers] at hv
    split at hv
    · rcases List.mem_append.mp hv with h | h
      · exact runSubtemplates_input input subs v h
      · exact runMatchers_input input events rest v h
    · exact runMatchers_input input events rest v hv
end

theorem parentVisits_any (executers : List Executer) (input : String) :
    (parentVisits executers input).any Visit.contributes = false := by
  induction executers with
  | nil => rfl
  | cons e rest ih =>
    simp only [parentVisits, List.map_cons, List.any_cons] at ih ⊢
    rw [ih]
    rfl

theorem terminalVisits_any (executers : List Executer) (input : String) :
    (terminalVisits executers input).any Visit.contributes
      = executers.any (fun e => e.Execute input) := by
  induction executers with
  | nil => rfl
  | cons e rest ih =>
    simp only [terminalVisits, List.map_cons, List.any_cons] at ih ⊢
    rw [ih]
    cases h : e.Execute input <;> simp [Visit.contributes]

mutual
theorem runWorkflowStep_matched (input : String) :
    ∀ (t : WorkflowTemplate),
      (runWorkflowStep input t).matched = (runWorkflowStep input t).visits.any Visit.contributes
  | .mk executers [] [] => by
    simp only [runWorkflowStep, terminalVisits_any]
  | .mk executers [] (s :: subs) => by
    simp only [runWorkflowStep]
    split
    · simp only [List.any_append, parentVisits_any, Bool.false_or]
      exact runSubtemplates_matched input (s :: subs)
    · simp only [parentVisits_any]
  | .mk executers (m :: ms) subs => by
    simp only [runWorkflowStep, List.any_append, parentVisits_any, Bool.false_or]
    exact runMatchers_matched input _ (m :: ms)
theorem runSubtemplates_matched (input : String) :
    ∀ (l : List WorkflowTemplate),
      (runSubtemplates input l).matched = (runSubtemplates input l).visits.any Visit.contributes
  | [] => by simp [runSubtemplates]
  | t :: rest => by
    simp only [runSubtemplates, List.any_append]
    rw [runWorkflowStep_matched input t, runSubtemplates_matched input rest]
theorem runMatchers_matched (input : String) (events : List WrappedEvent) :
    ∀ (l : List Matcher),
      (runMatchers input events l).matched
        = (runMatchers input events l).visits.any Visit.contributes
  | [] => by simp [runMatchers]
  | .mk name subs :: rest => by
    simp only [runMatchers]
    split
    · simp only [List.any_append]
      rw [runSubtemplates_matched input subs, runMatchers_matched input events rest]
    · exact runMatchers_matched input events rest
end

theorem runSubtemplates_visits (input : String) :
    ∀ (l : List WorkflowTemplate),
      (runSubtemplates input l).visits = l.flatMap (fun t => (runWorkflowStep input t).visits)
  | [] => by simp [runSubtemplates]
  | t :: rest => by
    simp only [runSubtemplates, List.flatMap_cons, runSubtemplates_visits input rest]

theorem runMatchers_visits (input : String) (events : List WrappedEvent) :
    ∀ (l : List Matcher),
      (runMatchers input events l).visits
        = l.flatMap (fun m =>
            if matcherSatisfied m.Name events then (runSubtemplates input m.Subtemplates).visits
            else [])
  | [] => by simp [runMatchers]
  | .mk name subs :: rest => by
    rw [List.flatMap_cons, ← runMatchers_visits input events rest]
    show (runMatchers input events (Matcher.mk name subs :: rest)).visits
      = (if matcherSatisfied name events then (runSubtemplates input subs).visits else []) ++
          (runMatchers input events rest).visits
    simp only [runMatchers]
    split <;> simp

theorem executers_visited (input : String) (t : WorkflowTemplate) :
    ∀ e ∈ t.Executers, ∃ v ∈ (runWorkflowStep input t).visits,
      v.executer = e.name ∧ v.input = input := by
  intro e he
  obtain ⟨executers, matchers, subs⟩ := t
  simp only [WorkflowTemplate.Executers] at he
  have hp : ∃ v ∈ parentVisits executers input, v.executer = e.name ∧ v.input = input :=
    ⟨_, List.mem_map.mpr ⟨e, he, rfl⟩, rfl, rfl⟩
  cases matchers with
  | nil =>
    cases subs with
    | nil => exact ⟨_, by simp only [runWorkflowStep]; exact List.mem_map.mpr ⟨e, he, rfl⟩, rfl, rfl⟩
    | cons s subs =>
      obtain ⟨v, hv, h1, h2⟩ := hp
      refine ⟨v, ?_, h1, h2⟩
      simp only [runWorkflowStep]
      split
      · exact List.mem_append_left _ hv
      · exact hv
  | cons m ms =>
    obtain ⟨v, hv, h1, h2⟩ := hp
    exact ⟨v, by simp only [runWorkflowStep]; exact List.mem_append_left _ hv, h1, h2⟩

/-- C16: a node that declares sub-templates and no matchers runs its own executers with
the input; if they produced at least one match, every sub-template is run with the same
input, so each executer of each sub-template is called with it; if they produced no
match, nothing but the executers of the node is called and the node contributes no
match. -/
theorem subtemplates_follow_parent_match (input : String) (executers : List Executer)
    (sub : WorkflowTemplate) (subs : List WorkflowTemplate) :
    ((capturedEvents executers input).any hasMatch = true →
      (runWorkflowStep input (.mk executers [] (sub :: subs))).visits
          = parentVisits executers input ++
              (sub :: subs).flatMap (fun t => (runWorkflowStep input t).visits) ∧
        (∀ t ∈ sub :: subs, ∀ e ∈ t.Executers,
          ∃ v ∈ (runWorkflowStep input (.mk executers [] (sub :: subs))).visits,
            v.executer = e.name ∧ v.input = input)) ∧
    ((capturedEvents executers input).any hasMatch = false →
      runWorkflowStep input (.mk executers [] (sub :: subs))
        = { matched := false, visits := parentVisits executers input }) ∧
    ∀ v ∈ (runWorkflowStep input (.mk executers [] (sub :: subs))).visits, v.input = input := by
  refine ⟨?_, ?_, runWorkflowStep_input input _⟩
  · intro h
    have hv : (runWorkflowStep input (.mk executers [] (sub :: subs))).visits
        = parentVisits executers input ++
            (sub :: subs).flatMap (fun t => (runWorkflowStep input t).visits) := by
      simp only [runWorkflowStep, h, if_true, runSubtemplates_visits]
    refine ⟨hv, ?_⟩
    intro t ht e he
    obtain ⟨v, hmem, h1, h2⟩ := executers_visited input t e he
    refine ⟨v, ?_, h1, h2⟩
    rw [hv]
    exact List.mem_append_right _ (List.mem_flatMap.mpr ⟨t, ht, hmem⟩)
  · intro h
    simp only [runWorkflowStep, h, Bool.false_eq_true, if_false]

theorem subtemplates_follow_parent_match_witness :
    (capturedEvents [mockExecuter "first" true [eventWithResult]] testInput).any hasMatch = true ∧
    (capturedEvents [mockExecuter "first" false []] testInput).any hasMatch = false ∧
    (runWorkflowStep testInput
        (.mk [mockExecuter "first" true [eventWithResult]] []
          [leaf (mockExecuter "second" true [])])).visits
      = parentVisits [mockExecuter "first" true [eventWithResult]] testInput ++
          [leaf (mockExecuter "second" true [])].flatMap
            (fun t => (runWorkflowStep testInput t).visits) ∧
    runWorkflowStep testInput
        (.mk [mockExecuter "first" false []] [] [leaf (mockExecuter "second" true [])])
      = { matched := false, visits := parentVisits [mockExecuter "first" false []] testInput } :=
  ⟨by decide, by decide,
    ((subtemplates_follow_parent_match testInput [mockExecuter "first" true [eventWithResult]]
      (leaf (mockExecuter "second" true [])) []).1 (by decide)).1,
    (subtemplates_follow_parent_match testInput [mockExecuter "first" false []]
      (leaf (mockExecuter "second" true [])) []).2.1 (by decide)⟩

theorem matcherSatisfied_iff (name : String) (events : List WrappedEvent) :
    matcherSatisfied name events = true ↔
      ∃ event ∈ events, ∃ result, event.OperatorsResult = some result ∧
        (name ∈ result.Matches ∨ name ∈ result.Extracts) := by
  simp only [matcherSatisfied, List.any_eq_true]
  constructor
  · rintro ⟨event, hmem, h⟩
    cases hr : event.OperatorsResult with
    | none => simp [hr] at h
    | some result =>
      simp only [hr, Bool.or_eq_true, List.contains_iff_exists_mem_beq, beq_iff_eq] at h
      refine ⟨event, hmem, result, hr, ?_⟩
      rcases h with ⟨a, ha, rfl⟩ | ⟨a, ha, rfl⟩
      · exact Or.inl ha
      · exact Or.inr ha
  · rintro ⟨event, hmem, result, hr, h⟩
    refine ⟨event, hmem, ?_⟩
    simp only [hr, Bool.or_eq_true, List.contains_iff_exists_mem_beq, beq_iff_eq]
    rcases h with h | h
    · exact Or.inl ⟨name, h, rfl⟩
    · exact Or.inr ⟨name, h, rfl⟩

/-- C17: a node with named matchers runs its executers with the input and then, for each
matcher, runs the sub-templates under it, with the same input, exactly when the matcher
is satisfied, and a matcher named N is satisfied iff the operator result of an event
captured from the node has the key N in its matches map or in its extracts map. -/
theorem matcher_gates_subtemplates (input : String) (executers : List Executer)
    (m : Matcher) (ms : List Matcher) (subs : List WorkflowTemplate) :
    (runWorkflowStep input (.mk executers (m :: ms) subs)).visits
      = parentVisits executers input ++
          (m :: ms).flatMap (fun mm =>
            if matcherSatisfied mm.Name (capturedEvents executers input) then
              (runSubtemplates input mm.Subtemplates).visits
            else []) ∧
    (∀ name, matcherSatisfied name (capturedEvents executers input) = true ↔
      ∃ event ∈ capturedEvents executers input, ∃ result,
        event.OperatorsResult = some result ∧
          (name ∈ result.Matches ∨ name ∈ result.Extracts)) ∧
    (∀ mm ∈ m :: ms, matcherSatisfied mm.Name (capturedEvents executers input) = true →
      ∀ t ∈ mm.Subtemplates, ∀ e ∈ t.Executers,
        ∃ v ∈ (runWorkflowStep input (.mk executers (m :: ms) subs)).visits,
          v.executer = e.name ∧ v.input = input) ∧
    ∀ v ∈ (runWorkflowStep input (.mk executers (m :: ms) subs)).visits, v.input = input := by
  have hv : (runWorkflowStep input (.mk executers (m :: ms) subs)).visits
      = parentVisits executers input ++
          (m :: ms).flatMap (fun mm =>
            if matcherSatisfied mm.Name (capturedEvents executers input) then
              (runSubtemplates input mm.Subtemplates).visits
            else []) := by
    simp only [runWorkflowStep]
    rw [runMatchers_visits]
  refine ⟨hv, fun name => matcherSatisfied_iff name _, ?_, runWorkflowStep_input input _⟩
  intro mm hmm hsat t ht e he
  obtain ⟨v, hmem, h1, h2⟩ := executers_visited input t e he
  refine ⟨v, ?_, h1, h2⟩
  rw [hv]
  refine List.mem_append_right _ (List.mem_flatMap.mpr ⟨mm, hmm, ?_⟩)
  rw [if_pos hsat, runSubtemplates_visits]
  exact List.mem_flatMap.mpr ⟨t, ht, hmem⟩

theorem matcher_gates_subtemplates_witness :
    executeWorkflow testInput
        [.mk [mockExecuter "first" true [eventTomcat]]
          [.mk "tomcat" [leaf (mockExecuter "second" true [])]] []]
      = { matched := true,
          visits := [{ executer := "first", input := testInput, matched := none },
                     { executer := "second", input := testInput, matched := some true }] } ∧
    executeWorkflow testInput
        [.mk [mockExecuter "first" true [eventTomcat]]
          [.mk "apache" [leaf (mockExecuter "second" true [])]] []]
      = { matched := false,
          visits := [{ executer := "first", input := testInput, matched := none }] } ∧
    (runWorkflowStep testInput
        (.mk [mockExecuter "first" true [eventTomcat]]
          [.mk "tomcat" [leaf (mockExecuter "second" true [])]] [])).visits
      = parentVisits [mockExecuter "first" true [eventTomcat]] testInput ++
          [Matcher.mk "tomcat" [leaf (mockExecuter "second" true [])]].flatMap (fun mm =>
            if matcherSatisfied mm.Name
                (capturedEvents [mockExecuter "first" true [eventTomcat]] testInput) then
              (runSubtemplates testInput mm.Subtemplates).visits
            else []) :=
  ⟨by decide, by decide,
    (matcher_gates_subtemplates testInput [mockExecuter "first" true [eventTomcat]]
      (.mk "tomcat" [leaf (mockExecuter "second" true [])]) [] []).1⟩

/-- C18: `executeWorkflow` runs every root node once with the input of the target and
returns the logical OR over the nodes visited: it returns true iff some call made during
the run is the call of a terminal node's executer that matched, and every call is made
with the same input. -/
theorem executeWorkflow_or (input : String) (workflows : List WorkflowTemplate) :
    ((executeWorkflow input workflows).matched = true ↔
      ∃ v ∈ (executeWorkflow input workflows).visits, v.matched = some true) ∧
    (executeWorkflow input workflows).visits
      = workflows.flatMap (fun t => (runWorkflowStep input t).visits) ∧
    ∀ v ∈ (executeWorkflow input workflows).visits, v.input = input := by
  refine ⟨?_, runSubtemplates_visits input workflows, runSubtemplates_input input workflows⟩
  unfold executeWorkflow
  rw [runSubtemplates_matched, List.any_eq_true]
  constructor
  · rintro ⟨v, hv, h⟩
    exact ⟨v, hv, by simpa [Visit.contributes] using h⟩
  · rintro ⟨v, hv, h⟩
    exact ⟨v, hv, by simp [Visit.contributes, h]⟩

/-- The expectations of `TestWorkflowsSimple`, `TestWorkflowsSimpleMultiple`,
`TestWorkflowsSubtemplates` and `TestWorkflowsSubtemplatesNoMatch` on the model. -/
theorem workflow_tests :
    (executeWorkflow testInput [leaf (mockExecuter "first" true [])]).matched = true ∧
    executeWorkflow testInput
        [leaf (mockExecuter "first" true []), leaf (mockExecuter "second" true [])]
      = { matched := true,
          visits := [{ executer := "first", input := testInput, matched := some true },
                     { executer := "second", input := testInput, matched := some true }] } ∧
    executeWorkflow testInput
        [.mk [mockExecuter "first" true [eventWithResult]] []
          [leaf (mockExecuter "second" true [])]]
      = { matched := true,
          visits := [{ executer := "first", input := testInput, matched := none },
                     { executer := "second", input := testInput, matched := some true }] } ∧
    executeWorkflow testInput
        [.mk [mockExecuter "first" false []] [] [leaf (mockExecuter "second" true [])]]
      = { matched := false,
          visits := [{ executer := "first", input := testInput, matched := none }] } := by
  decide

end Core

namespace HTTP

/-! ## Serial mode: proofs -/

theorem executeFunc_continues {Err : Type} (isStop : Err → Bool) (flags : StopFlags)
    (requestErr : Option Err) (a : Attempt Err) (h : a.continues isStop flags = true) :
    executeFunc isStop flags requestErr a
      = { skip := false, gotErr := none, requestErr := recordedError [a] requestErr } := by
  cases a with
  | noMoreRequests => simp [Attempt.continues] at h
  | makeFailed err => simp [Attempt.continues] at h
  | hostErrored => simp [Attempt.continues] at h
  | executed err gotMatches =>
    cases err with
    | none =>
      simp only [Attempt.continues, Bool.not_eq_true'] at h
      simp [executeFunc, h, recordedError]
    | some e =>
      simp only [Attempt.continues, Bool.and_eq_true, Bool.not_eq_true'] at h
      simp [executeFunc, h.1, h.2, recordedError]

theorem recordedError_append {Err : Type} :
    ∀ (l1 l2 : List (Attempt Err)) (start : Option Err),
      recordedError (l1 ++ l2) start = recordedError l2 (recordedError l1 start)
  | [], _, _ => rfl
  | .noMoreRequests :: rest, l2, start => by
    simpa [recordedError] using recordedError_append rest l2 start
  | .makeFailed _ :: rest, l2, start => by
    simpa [recordedError] using recordedError_append rest l2 start
  | .hostErrored :: rest, l2, start => by
    simpa [recordedError] using recordedError_append rest l2 start
  | .executed none _ :: rest, l2, start => by
    simpa [recordedError] using recordedError_append rest l2 start
  | .executed (some err) _ :: rest, l2, start => by
    simpa [recordedError] using recordedError_append rest l2 (some err)

theorem recordedError_cons {Err : Type} (a : Attempt Err) (rest : List (Attempt Err))
    (start : Option Err) :
    recordedError (a :: rest) start = recordedError rest (recordedError [a] start) :=
  recordedError_append [a] rest start

theorem runValue_continues {Err : Type} (isStop : Err → Bool) (flags : StopFlags) :
    ∀ (attempts : List (Attempt Err)) (requestErr : Option Err),
      (∀ a ∈ attempts, a.continues isStop flags = true) →
      runValue isStop flags attempts requestErr
        = { skip := false, gotErr := none, requestErr := recordedError attempts requestErr }
  | [], _, _ => rfl
  | a :: rest, requestErr, h => by
    rw [runValue, executeFunc_continues isStop flags requestErr a (h a (List.mem_cons_self _ _))]
    simp only [Bool.false_or, Option.isSome_none, Bool.false_eq_true, if_false]
    rw [runValue_continues isStop flags rest _ (fun b hb => h b (List.mem_cons_of_mem _ hb)),
      ← recordedError_cons]

theorem runValue_stop {Err : Type} (isStop : Err → Bool) (flags : StopFlags)
    (stopErr : Err) (hstop : isStop stopErr = true) (gotMatches : Bool)
    (after : List (Attempt Err)) :
    ∀ (before : List (Attempt Err)) (requestErr : Option Err),
      (∀ a ∈ before, a.continues isStop flags = true) →
      runValue isStop flags (before ++ .executed (some stopErr) gotMatches :: after) requestErr
        = { skip := true, gotErr := none, requestErr := recordedError before requestErr }
  | [], requestErr, _ => by
    simp [runValue, executeFunc, hstop, recordedError]
  | a :: rest, requestErr, h => by
    rw [List.cons_append, runValue,
      executeFunc_continues isStop flags requestErr a (h a (List.mem_cons_self _ _))]
    simp only [Bool.false_or, Option.isSome_none, Bool.false_eq_true, if_false]
    rw [runValue_stop isStop flags stopErr hstop gotMatches after rest _
      (fun b hb => h b (List.mem_cons_of_mem _ hb)), ← recordedError_cons]

theorem serialLoop_stop {Err : Type} (isStop : Err → Bool) (flags : StopFlags)
    (stopErr : Err) (hstop : isStop stopErr = true) (gotMatches : Bool)
    (before after : List (Attempt Err)) (post : List (List (Attempt Err)))
    (hbefore : ∀ a ∈ before, a.continues isStop flags = true) :
    ∀ (pre : List (List (Attempt Err))) (requestErr : Option Err) (consumed : Nat),
      (∀ attempts ∈ pre, ∀ a ∈ attempts, a.continues isStop flags = true) →
      serialLoop isStop flags
          (pre ++ (before ++ .executed (some stopErr) gotMatches :: after) :: post)
          requestErr consumed
        = { err := recordedError (pre.flatten ++ before) requestErr,
            consumed := consumed + pre.length + 1 }
  | [], requestErr, consumed, _ => by
    rw [List.nil_append, serialLoop,
      runValue_stop isStop flags stopErr hstop gotMatches after before requestErr hbefore]
    simp
  | attempts :: rest, requestErr, consumed, h => by
    rw [List.cons_append, serialLoop,
      runValue_continues isStop flags attempts requestErr (h attempts (List.mem_cons_self _ _))]
    simp only [Option.isSome_none, Bool.false_and, Bool.false_eq_true, if_false, Bool.or_self]
    rw [serialLoop_stop isStop flags stopErr hstop gotMatches before after post hbefore rest _ _
      (fun l hl => h l (List.mem_cons_of_mem _ hl))]
    simp only [List.flatten_cons, List.append_assoc, List.length_cons, recordedError_append]
    congr 1
    omega

theorem recordedError_not_stop {Err : Type} (isStop : Err → Bool) (flags : StopFlags) :
    ∀ (attempts : List (Attempt Err)) (start : Option Err),
      (∀ a ∈ attempts, a.continues isStop flags = true) →
      (∀ e, start = some e → isStop e = false) →
      ∀ e, recordedError attempts start = some e → isStop e = false
  | [], _, _, hs => hs
  | a :: rest, start, h, hs => by
    have hrest : ∀ b ∈ rest, b.continues isStop flags = true :=
      fun b hb => h b (List.mem_cons_of_mem _ hb)
    have ha := h a (List.mem_cons_self _ _)
    cases a with
    | noMoreRequests => simp [Attempt.continues] at ha
    | makeFailed err => simp [Attempt.continues] at ha
    | hostErrored => simp [Attempt.continues] at ha
    | executed err gotMatches =>
      cases err with
      | none => exact recordedError_not_stop isStop flags rest start hrest hs
      | some e0 =>
        simp only [Attempt.continues, Bool.and_eq_true, Bool.not_eq_true'] at ha
        refine recordedError_not_stop isStop flags rest (some e0) hrest ?_
        intro e he
        simp only [Option.some.injEq] at he
        rw [← he]
        exact ha.1

/-- C19: in serial mode, when the calls of `executeFunc` go on until one whose
`executeRequest` returns the unresolved-variables stop error, the loop ends there: no
further value is taken from the generator, and `ExecuteWithResults` returns the error
recorded by the earlier calls (nil when there was none), which is never the stop
error. -/
theorem executeSerial_stop {Err : Type} (isStop : Err → Bool) (flags : StopFlags)
    (pre : List (List (Attempt Err))) (before after : List (Attempt Err))
    (post : List (List (Attempt Err))) (stopErr : Err) (gotMatches : Bool)
    (hstop : isStop stopErr = true)
    (hpre : ∀ attempts ∈ pre, ∀ a ∈ attempts, a.continues isStop flags = true)
    (hbefore : ∀ a ∈ before, a.continues isStop flags = true) :
    (executeSerial isStop flags
        (pre ++ (before ++ .executed (some stopErr) gotMatches :: after) :: post)).consumed
      = pre.length + 1 ∧
    (executeSerial isStop flags
        (pre ++ (before ++ .executed (some stopErr) gotMatches :: after) :: post)).err
      = recordedError (pre.flatten ++ before) none ∧
    ∀ e, (executeSerial isStop flags
        (pre ++ (before ++ .executed (some stopErr) gotMatches :: after) :: post)).err = some e →
      isStop e = false := by
  have h := serialLoop_stop isStop flags stopErr hstop gotMatches before after post hbefore
    pre none 0 hpre
  unfold executeSerial
  rw [h]
  refine ⟨by simp, rfl, ?_⟩
  refine recordedError_not_stop isStop flags (pre.flatten ++ before) none ?_ (by simp)
  intro a ha
  rcases List.mem_append.mp ha with h1 | h1
  · obtain ⟨l, hl, hal⟩ := List.mem_flatten.mp h1
    exact hpre l hl a hal
  · exact hbefore a h1

theorem executeSerial_stop_witness :
    demoIsStop errStopExecution = true ∧
    (∀ attempts ∈ [[Attempt.executed (some "connection reset") false]],
      ∀ a ∈ attempts, a.continues demoIsStop noStopFlags = true) ∧
    (∀ a ∈ [Attempt.executed (none : Option String) false],
      a.continues demoIsStop noStopFlags = true) ∧
    ((executeSerial demoIsStop noStopFlags
        ([[Attempt.executed (some "connection reset") false]] ++
          ([Attempt.executed none false] ++
            Attempt.executed (some errStopExecution) false :: []) ::
          [[Attempt.executed none true]])).consumed
      = [[Attempt.executed (some "connection reset") false]].length + 1 ∧
    (executeSerial demoIsStop noStopFlags
        ([[Attempt.executed (some "connection reset") false]] ++
          ([Attempt.executed none false] ++
            Attempt.executed (some errStopExecution) false :: []) ::
          [[Attempt.executed none true]])).err
      = recordedError ([[Attempt.executed (some "connection reset") false]].flatten ++
          [Attempt.executed none false]) none ∧
    ∀ e, (executeSerial demoIsStop noStopFlags
        ([[Attempt.executed (some "connection reset") false]] ++
          ([Attempt.executed none false] ++
            Attempt.executed (some errStopExecution) false :: []) ::
          [[Attempt.executed none true]])).err = some e →
      demoIsStop e = false) :=
  ⟨by decide, by decide, by decide,
    executeSerial_stop demoIsStop noStopFlags [[Attempt.executed (some "connection reset") false]]
      [Attempt.executed none false] [] [[Attempt.executed none true]] errStopExecution false
      (by decide) (by decide) (by decide)⟩

/-- A serial run on three generator values: the first request fails with a transport
error, the second meets the stop error, the third is never taken; the transport error is
what is returned. -/
theorem executeSerial_demo_run :
    (executeSerial demoIsStop noStopFlags
        [[Attempt.executed (some "connection reset") false],
         [Attempt.executed (some errStopExecution) false],
         [Attempt.executed none true]]).consumed = 2 ∧
    (executeSerial demoIsStop noStopFlags
        [[Attempt.executed (some "connection reset") false],
         [Attempt.executed (some errStopExecution) false],
         [Attempt.executed none true]]).err = some "connection reset" := by
  decide

end HTTP

namespace Mysql

/-! ## Memoized MySQL probes: proofs -/

/-- C20, as stated, fails: when the memoizer hands back a cached string with a nil
error, `memoizedisMySQL` returns false with the plain error `could not convert cached
result`, and the class `errkit` reports for that error is empty, not `data-missing`. -/
theorem type_mismatch_error_has_no_class :
    memoizedisMySQL demoStaleDo (fun _ _ => (true, none)) "db.local" 3306
      = (false, some couldNotConvert) ∧
    errorClass couldNotConvert = some "" ∧
    errorClass couldNotConvert ≠ some Errkit.ErrClassDataMissing :=
  ⟨rfl, by decide, by decide⟩

/-- C20, amended: each memoized MySQL wrapper returns the zero value with the error of
the memoizer, unchanged, when the memoizer returns an error; and when the memoizer
returns, with a nil error, a value that is not of the expected type, it returns the zero
value with the plain error `could not convert cached result`, which carries no error
class. -/
theorem memoized_wrappers_errors {Info : Type} (zero : Info) (Do : MemoizerDo Info)
    (connectWithDSN : String → Bool × Option Errkit.GoError)
    (isMySQL : String → Int → Bool × Option Errkit.GoError)
    (fingerprintMySQL : String → Int → Info × Option Errkit.GoError)
    (dsn host : String) (port : Int) :
    (∀ err, (Do ("connectWithDSN:" ++ dsn)
          (fun _ => (AnyValue.bool (connectWithDSN dsn).1, (connectWithDSN dsn).2))).2 = some err →
        memoizedconnectWithDSN Do connectWithDSN dsn = (false, some err)) ∧
    (∀ err, (Do ("isMySQL:" ++ host ++ ":" ++ toString port)
          (fun _ => (AnyValue.bool (isMySQL host port).1, (isMySQL host port).2))).2 = some err →
        memoizedisMySQL Do isMySQL host port = (false, some err)) ∧
    (∀ err, (Do ("fingerprintMySQL:" ++ host ++ ":" ++ toString port)
          (fun _ => (AnyValue.info (fingerprintMySQL host port).1,
            (fingerprintMySQL host port).2))).2 = some err →
        memoizedfingerprintMySQL zero Do fingerprintMySQL host port = (zero, some err)) ∧
    (∀ v, Do ("connectWithDSN:" ++ dsn)
          (fun _ => (AnyValue.bool (connectWithDSN dsn).1, (connectWithDSN dsn).2)) = (v, none) →
        v.notBool = true →
        memoizedconnectWithDSN Do connectWithDSN dsn = (false, some couldNotConvert)) ∧
    (∀ v, Do ("isMySQL:" ++ host ++ ":" ++ toString port)
          (fun _ => (AnyValue.bool (isMySQL host port).1, (isMySQL host port).2)) = (v, none) →
        v.notBool = true →
        memoizedisMySQL Do isMySQL host port = (false, some couldNotConvert)) ∧
    (∀ v, Do ("fingerprintMySQL:" ++ host ++ ":" ++ toString port)
          (fun _ => (AnyValue.info (fingerprintMySQL host port).1,
            (fingerprintMySQL host port).2)) = (v, none) →
        v.notInfo = true →
        memoizedfingerprintMySQL zero Do fingerprintMySQL host port
          = (zero, some couldNotConvert)) ∧
    errorClass couldNotConvert = some "" := by
  refine ⟨?_, ?_, ?_, ?_, ?_, ?_, by decide⟩
  · intro err h
    simp only [memoizedconnectWithDSN, h]
  · intro err h
    simp only [memoizedisMySQL, h]
  · intro err h
    simp only [memoizedfingerprintMySQL, h]
  · intro v h hv
    simp only [memoizedconnectWithDSN, h]
    cases v <;> simp_all [AnyValue.notBool]
  · intro v h hv
    simp only [memoizedisMySQL, h]
    cases v <;> simp_all [AnyValue.notBool]
  · intro v h hv
    simp only [memoizedfingerprintMySQL, h]
    cases v <;> simp_all [AnyValue.notInfo]

theorem memoized_wrappers_errors_witness :
    (demoFailingDo ("isMySQL:" ++ "db.local" ++ ":" ++ toString (3306 : Int))
        (fun _ => (AnyValue.bool true, none))).2 = some (.plain "dial tcp: timeout") ∧
    demoStaleDo ("fingerprintMySQL:" ++ "db.local" ++ ":" ++ toString (3306 : Int))
        (fun _ => (AnyValue.info 7, none)) = (AnyValue.other "string", none) ∧
    (AnyValue.other "string" : AnyValue Nat).notInfo = true ∧
    memoizedisMySQL demoFailingDo (fun _ _ => (true, none)) "db.local" 3306
      = (false, some (.plain "dial tcp: timeout")) ∧
    memoizedfingerprintMySQL 0 demoStaleDo (fun _ _ => (7, none)) "db.local" 3306
      = (0, some couldNotConvert) :=
  ⟨rfl, rfl, rfl,
    (memoized_wrappers_errors 0 demoFailingDo (fun _ => (true, none)) (fun _ _ => (true, none))
      (fun _ _ => (7, none)) "dsn" "db.local" 3306).2.1 (.plain "dial tcp: timeout") rfl,
    (memoized_wrappers_errors 0 demoStaleDo (fun _ => (true, none)) (fun _ _ => (true, none))
      (fun _ _ => (7, none)) "dsn" "db.local" 3306).2.2.2.2.2.1 (AnyValue.other "string") rfl rfl⟩

end Mysql

namespace Templates

/-! ## `Cluster`: the seed of a group rejects the later groups of its bucket -/

theorem InDNS_not_InHTTP {D H S : Type} {P : Protocols D H S} {t : Template D H S}
    (h : InDNS P t) : ¬ InHTTP P t := by
  obtain ⟨_, r, hr, _⟩ := h
  intro hh
  exact hh.2.1 (by simp [hr])

theorem InDNS_not_InSSL {D H S : Type} {P : Protocols D H S} {t : Template D H S}
    (h : InDNS P t) : ¬ InSSL P t := by
  obtain ⟨_, r, hr, _⟩ := h
  intro hh
  exact hh.2.1 (by simp [hr])

theorem InHTTP_not_InSSL {D H S : Type} {P : Protocols D H S} {t : Template D H S}
    (h : InHTTP P t) : ¬ InSSL P t := by
  obtain ⟨_, _, r, hr, _⟩ := h
  intro hh
  exact hh.2.2.1 (by simp [hr])

theorem seedRejects_left {T R : Type} (reqs : T → List R) (can : R → R → Bool)
    (InB : T → Prop) (g g2 : List T) (hne : g ≠ []) (hg : ∀ t ∈ g, ¬ InB t) :
    SeedRejects reqs can InB g g2 := by
  intro h1 _
  cases g with
  | nil => exact absurd rfl hne
  | cons t ts => exact absurd (h1 t (List.mem_cons_self _ _)) (hg t (List.mem_cons_self _ _))

theorem seedRejects_right {T R : Type} (reqs : T → List R) (can : R → R → Bool)
    (InB : T → Prop) (g g2 : List T) (hg : ∀ t ∈ g2, ¬ InB t) :
    SeedRejects reqs can InB g g2 := by
  intro _ h2 seed _ o ho
  exact absurd (h2 o ho) (hg o ho)

theorem classify_final {D H S : Type} {P : Protocols D H S} {k : Nat}
    {st : Buckets (Template D H S)} (t : Template D H S)
    (h : ∀ g ∈ st.final, ∀ e ∈ g, Unbucketed P e.2) :
    ∀ g ∈ (classify P st k t).final, ∀ e ∈ g, Unbucketed P e.2 := by
  have hadd : Unbucketed P t →
      ∀ g ∈ st.final ++ [[(k, t)]], ∀ e ∈ g, Unbucketed P e.2 := by
    intro hu g hg e he
    rcases List.mem_append.mp hg with hg | hg
    · exact h g hg e he
    · simp only [List.mem_singleton] at hg
      subst hg
      simp only [List.mem_singleton] at he
      subst he
      exact hu
  unfold classify
  split
  · rename_i hf
    apply hadd
    have hfl : Flagged t := by
      simp only [Bool.or_eq_true, bne_iff_ne, ne_eq] at hf
      exact hf
    exact ⟨fun hh => hh.1 hfl, fun hh => hh.1 hfl, fun hh => hh.1 hfl⟩
  · split
    · rename_i r hr
      split
      · exact h
      · rename_i hc
        apply hadd
        refine ⟨?_, ?_, ?_⟩
        · rintro ⟨_, r2, hr2, hc2⟩
          rw [hr] at hr2
          simp only [List.cons.injEq, and_true] at hr2
          subst hr2
          exact hc hc2
        · intro hh; exact hh.2.1 (by simp [hr])
        · intro hh; exact hh.2.1 (by simp [hr])
    · rename_i hd
      split
      · rename_i r hr
        split
        · exact h
        · rename_i hc
          apply hadd
          refine ⟨?_, ?_, ?_⟩
          · rintro ⟨_, r2, hr2, _⟩
            exact hd r2 hr2
          · rintro ⟨_, _, r2, hr2, hc2⟩
            rw [hr] at hr2
            simp only [List.cons.injEq, and_true] at hr2
            subst hr2
            exact hc hc2
          · intro hh; exact hh.2.2.1 (by simp [hr])
      · rename_i hh
        split
        · rename_i r hr
          split
          · exact h
          · rename_i hc
            apply hadd
            refine ⟨?_, ?_, ?_⟩
            · rintro ⟨_, r2, hr2, _⟩
              exact hd r2 hr2
            · rintro ⟨_, _, r2, hr2, _⟩
              exact hh r2 hr2
            · rintro ⟨_, _, _, r2, hr2, hc2⟩
              rw [hr] at hr2
              simp only [List.cons.injEq, and_true] at hr2
              subst hr2
              exact hc hc2
        · rename_i hs
          apply hadd
          refine ⟨?_, ?_, ?_⟩
          · rintro ⟨_, r2, hr2, _⟩
            exact hd r2 hr2
          · rintro ⟨_, _, r2, hr2, _⟩
            exact hh r2 hr2
          · rintro ⟨_, _, _, r2, hr2, _⟩
            exact hs r2 hr2

theorem classifyFrom_final {D H S : Type} {P : Protocols D H S} :
    ∀ (l : List (Template D H S)) (k : Nat) (st : Buckets (Template D H S)),
      (∀ g ∈ st.final, ∀ e ∈ g, Unbucketed P e.2) →
      ∀ g ∈ (classifyFrom P k l st).final, ∀ e ∈ g, Unbucketed P e.2
  | [], _, _, h => by simpa [classifyFrom] using h
  | t :: rest, k, st, h => by
    rw [classifyFrom]
    exact classifyFrom_final rest (k + 1) _ (classify_final t h)

theorem bucket_pairwise_rejects {T R : Type} (reqs : T → List R) (can : R → R → Bool)
    (InB : T → Prop) {m : List (Nat × T)} {groups : List (List (Nat × T))}
    (hspec : BucketSpec (fun t => (reqs t)[0]?) can m groups)
    (hin : ∀ e ∈ m, InB e.2) (hone : ∀ t, InB t → ∃ r, reqs t = [r]) :
    (groups.map (fun g => g.map Prod.snd)).Pairwise (SeedRejects reqs can InB) := by
  rw [List.pairwise_map]
  refine List.Pairwise.imp_of_mem ?_ hspec.2.2
  intro g g2 hg hg2 hrej _ _ seed hseed o ho
  obtain ⟨e, he, rfl⟩ := List.mem_map.mp ho
  cases g with
  | nil => simp at hseed
  | cons s0 rest =>
    simp only [List.map_cons, List.head?_cons, Option.mem_def, Option.some.injEq] at hseed
    subst hseed
    obtain ⟨a, ha⟩ := hone s0.2 (hin s0 (bucket_group_mem hspec hg (List.mem_cons_self _ _)))
    obtain ⟨b, hb⟩ := hone e.2 (hin e (bucket_group_mem hspec hg2 he))
    refine ⟨a, b, ha, hb, ?_⟩
    have := hrej s0 (by simp) e he
    simpa [canPair, ha, hb] using this

theorem pairwise_of_left {α : Type} {R : α → α → Prop} {l : List α}
    (h : ∀ a ∈ l, ∀ b, R a b) : l.Pairwise R :=
  List.Pairwise.imp_mem.mpr (List.pairwise_of_forall (fun a b ha _ => h a ha b))

theorem Cluster_pairwise_rejects {D H S : Type} (P : Protocols D H S) (ch : RangeChoice)
    (list : List (Template D H S)) (groups : List (List (Template D H S)))
    (hrun : Cluster P ch list = some groups) : groups.Pairwise (SeedRejectsAll P) := by
  obtain ⟨st, d, h, s, hst, hk, hinv, _, hd, hh, hs⟩ := ClusterKeyed_classified P ch list
  have hfin : ∀ g ∈ st.final, ∀ e ∈ g, Unbucketed P e.2 := by
    rw [hst]
    exact classifyFrom_final list 0 _ (by simp)
  simp only [Cluster, hk, Option.map_some', Option.some.injEq] at hrun
  subst hrun
  have hne : ∀ g ∈ st.final, g.map Prod.snd ≠ [] := by
    intro g hg h0
    have := hinv.single g hg
    rw [List.map_eq_nil_iff] at h0
    simp [h0] at this
  -- the members of the groups of each bucket
  have hdm : ∀ g ∈ d, g.map Prod.snd ≠ [] ∧ ∀ t ∈ g.map Prod.snd, InDNS P t := by
    intro g hg
    refine ⟨by simpa using bucket_group_nonempty hd g hg, ?_⟩
    intro t ht
    obtain ⟨e, he, rfl⟩ := List.mem_map.mp ht
    exact hinv.dns e (bucket_group_mem hd hg he)
  have hhm : ∀ g ∈ h, g.map Prod.snd ≠ [] ∧ ∀ t ∈ g.map Prod.snd, InHTTP P t := by
    intro g hg
    refine ⟨by simpa using bucket_group_nonempty hh g hg, ?_⟩
    intro t ht
    obtain ⟨e, he, rfl⟩ := List.mem_map.mp ht
    exact hinv.http e (bucket_group_mem hh hg he)
  have hsm : ∀ g ∈ s, g.map Prod.snd ≠ [] ∧ ∀ t ∈ g.map Prod.snd, InSSL P t := by
    intro g hg
    refine ⟨by simpa using bucket_group_nonempty hs g hg, ?_⟩
    intro t ht
    obtain ⟨e, he, rfl⟩ := List.mem_map.mp ht
    exact hinv.ssl e (bucket_group_mem hs hg he)
  -- a group of `final` rejects vacuously, whatever follows
  have hF : ∀ g ∈ st.final, ∀ g2, SeedRejectsAll P (g.map Prod.snd) g2 := by
    intro g hg g2
    have hu : ∀ t ∈ g.map Prod.snd, Unbucketed P t := by
      intro t ht
      obtain ⟨e, he, rfl⟩ := List.mem_map.mp ht
      exact hfin g hg e he
    exact ⟨seedRejects_left _ _ _ _ _ (hne g hg) (fun t ht => (hu t ht).1),
      seedRejects_left _ _ _ _ _ (hne g hg) (fun t ht => (hu t ht).2.1),
      seedRejects_left _ _ _ _ _ (hne g hg) (fun t ht => (hu t ht).2.2)⟩
  have hD := bucket_pairwise_rejects (fun t : Template D H S => t.RequestsDNS) P.dns.CanCluster
    (InDNS P) hd hinv.dns (fun t ht => by obtain ⟨_, r, hr, _⟩ := ht; exact ⟨r, hr⟩)
  have hH := bucket_pairwise_rejects (fun t : Template D H S => t.RequestsHTTP) P.http.CanCluster
    (InHTTP P) hh hinv.http (fun t ht => by obtain ⟨_, _, r, hr, _⟩ := ht; exact ⟨r, hr⟩)
  have hS := bucket_pairwise_rejects (fun t : Template D H S => t.RequestsSSL) P.ssl.CanCluster
    (InSSL P) hs hinv.ssl (fun t ht => by obtain ⟨_, _, _, r, hr, _⟩ := ht; exact ⟨r, hr⟩)
  simp only [List.map_append]
  rw [List.pairwise_append, List.pairwise_append, List.pairwise_append]
  refine ⟨⟨⟨?_, ?_, ?_⟩, ?_, ?_⟩, ?_, ?_⟩
  · exact pairwise_of_left (fun a ha b => by
      obtain ⟨g, hg, rfl⟩ := List.mem_map.mp ha
      exact hF g hg b)
  · refine List.Pairwise.imp_of_mem ?_ hD
    intro a b ha _ hab
    obtain ⟨g, hg, rfl⟩ := List.mem_map.mp ha
    exact ⟨hab,
      seedRejects_left _ _ _ _ _ (hdm g hg).1 (fun t ht => InDNS_not_InHTTP ((hdm g hg).2 t ht)),
      seedRejects_left _ _ _ _ _ (hdm g hg).1 (fun t ht => InDNS_not_InSSL ((hdm g hg).2 t ht))⟩
  · intro a ha b _
    obtain ⟨g, hg, rfl⟩ := List.mem_map.mp ha
    exact hF g hg b
  · refine List.Pairwise.imp_of_mem ?_ hH
    intro a b ha _ hab
    obtain ⟨g, hg, rfl⟩ := List.mem_map.mp ha
    exact ⟨seedRejects_left _ _ _ _ _ (hhm g hg).1
        (fun t ht hc => InDNS_not_InHTTP hc ((hhm g hg).2 t ht)),
      hab,
      seedRejects_left _ _ _ _ _ (hhm g hg).1 (fun t ht => InHTTP_not_InSSL ((hhm g hg).2 t ht))⟩
  · intro a ha b hb
    obtain ⟨g2, hg2, rfl⟩ := List.mem_map.mp hb
    rcases List.mem_append.mp ha with ha | ha
    · obtain ⟨g, hg, rfl⟩ := List.mem_map.mp ha
      exact hF g hg _
    · obtain ⟨g, hg, rfl⟩ := List.mem_map.mp ha
      exact ⟨seedRejects_right _ _ _ _ _
          (fun t ht hc => InDNS_not_InHTTP hc ((hhm g2 hg2).2 t ht)),
        seedRejects_left _ _ _ _ _ (hdm g hg).1
          (fun t ht => InDNS_not_InHTTP ((hdm g hg).2 t ht)),
        seedRejects_left _ _ _ _ _ (hdm g hg).1
          (fun t ht => InDNS_not_InSSL ((hdm g hg).2 t ht))⟩
  · refine List.Pairwise.imp_of_mem ?_ hS
    intro a b ha _ hab
    obtain ⟨g, hg, rfl⟩ := List.mem_map.mp ha
    exact ⟨seedRejects_left _ _ _ _ _ (hsm g hg).1
        (fun t ht hc => InDNS_not_InSSL hc ((hsm g hg).2 t ht)),
      seedRejects_left _ _ _ _ _ (hsm g hg).1
        (fun t ht hc => InHTTP_not_InSSL hc ((hsm g hg).2 t ht)),
      hab⟩
  · intro a ha b hb
    obtain ⟨g2, hg2, rfl⟩ := List.mem_map.mp hb
    have hr2 := hsm g2 hg2
    rcases List.mem_append.mp ha with ha | ha
    · rcases List.mem_append.mp ha with ha | ha
      · obtain ⟨g, hg, rfl⟩ := List.mem_map.mp ha
        exact hF g hg _
      · obtain ⟨g, hg, rfl⟩ := List.mem_map.mp ha
        exact ⟨seedRejects_right _ _ _ _ _ (fun t ht hc => InDNS_not_InSSL hc (hr2.2 t ht)),
          seedRejects_left _ _ _ _ _ (hdm g hg).1
            (fun t ht => InDNS_not_InHTTP ((hdm g hg).2 t ht)),
          seedRejects_left _ _ _ _ _ (hdm g hg).1
            (fun t ht => InDNS_not_InSSL ((hdm g hg).2 t ht))⟩
    · obtain ⟨g, hg, rfl⟩ := List.mem_map.mp ha
      exact ⟨seedRejects_left _ _ _ _ _ (hhm g hg).1
          (fun t ht hc => InDNS_not_InHTTP hc ((hhm g hg).2 t ht)),
        seedRejects_right _ _ _ _ _ (fun t ht hc => InHTTP_not_InSSL hc (hr2.2 t ht)),
        seedRejects_left _ _ _ _ _ (hhm g hg).1
          (fun t ht => InHTTP_not_InSSL ((hhm g hg).2 t ht))⟩

/-- C23: the grouping of `Cluster` is greedy and maximal with respect to the seed. For
any two groups at positions `i < j` of the returned list that are of the same protocol
bucket (all members of both in the `dns` bucket, or all in the `http` bucket, or all in
the `ssl` bucket), the request of the first member of group `i` cannot cluster with the
request of any member of group `j`. This holds for every iteration order of the maps. -/
theorem Cluster_seed_maximal {D H S : Type} (P : Protocols D H S) (ch : RangeChoice)
    (list : List (Template D H S)) (groups : List (List (Template D H S)))
    (hrun : Cluster P ch list = some groups) (i j : Nat) (gi gj : List (Template D H S))
    (hi : groups[i]? = some gi) (hj : groups[j]? = some gj) (hij : i < j) :
    SeedRejects (fun t => t.RequestsDNS) P.dns.CanCluster (InDNS P) gi gj ∧
    SeedRejects (fun t => t.RequestsHTTP) P.http.CanCluster (InHTTP P) gi gj ∧
    SeedRejects (fun t => t.RequestsSSL) P.ssl.CanCluster (InSSL P) gi gj := by
  have hp := Cluster_pairwise_rejects P ch list groups hrun
  rw [List.pairwise_iff_getElem] at hp
  obtain ⟨hi1, hi2⟩ := List.getElem?_eq_some_iff.mp hi
  obtain ⟨hj1, hj2⟩ := List.getElem?_eq_some_iff.mp hj
  have := hp i j hi1 hj1 hij
  rw [hi2, hj2] at this
  exact this

theorem Cluster_seed_maximal_witness :
    Cluster demoProtocols demoChoice [demoHttp "a" 7, demoHttp "b" 8, demoHttp "c" 7]
        = some [[demoHttp "a" 7, demoHttp "c" 7], [demoHttp "b" 8]] ∧
    demoProtocols.http.CanCluster 7 8 = false ∧
    (SeedRejects (fun t => t.RequestsDNS) demoProtocols.dns.CanCluster (InDNS demoProtocols)
        [demoHttp "a" 7, demoHttp "c" 7] [demoHttp "b" 8] ∧
      SeedRejects (fun t => t.RequestsHTTP) demoProtocols.http.CanCluster (InHTTP demoProtocols)
        [demoHttp "a" 7, demoHttp "c" 7] [demoHttp "b" 8] ∧
      SeedRejects (fun t => t.RequestsSSL) demoProtocols.ssl.CanCluster (InSSL demoProtocols)
        [demoHttp "a" 7, demoHttp "c" 7] [demoHttp "b" 8]) :=
  ⟨by decide, by decide, Cluster_seed_maximal demoProtocols demoChoice
    [demoHttp "a" 7, demoHttp "b" 8, demoHttp "c" 7]
    [[demoHttp "a" 7, demoHttp "c" 7], [demoHttp "b" 8]] (by decide) 0 1
    [demoHttp "a" 7, demoHttp "c" 7] [demoHttp "b" 8] rfl rfl (by decide)⟩

/-! ## `NewClusterExecuter` on the groups of `Cluster` -/

theorem operatorsOf_dns {D H S Ops Res Err : Type} (X : External D H S Ops Res Err)
    (g : List (Template D H S)) :
    operatorsOf X .DNSProtocol g
      = taggedOperators (fun t => t.RequestsDNS.head?.bind X.dnsOperators) g := by
  unfold operatorsOf taggedOperators
  congr 1
  funext t
  cases hr : t.RequestsDNS with
  | nil => simp [memberOperators, hr]
  | cons r rs => cases ho : X.dnsOperators r <;> simp [memberOperators, hr, ho]

theorem operatorsOf_http {D H S Ops Res Err : Type} (X : External D H S Ops Res Err)
    (g : List (Template D H S)) :
    operatorsOf X .HTTPProtocol g
      = taggedOperators (fun t => t.RequestsHTTP.head?.bind X.httpOperators) g := by
  unfold operatorsOf taggedOperators
  congr 1
  funext t
  cases hr : t.RequestsHTTP with
  | nil => simp [memberOperators, hr]
  | cons r rs => cases ho : X.httpOperators r <;> simp [memberOperators, hr, ho]

theorem operatorsOf_ssl {D H S Ops Res Err : Type} (X : External D H S Ops Res Err)
    (g : List (Template D H S)) :
    operatorsOf X .SSLProtocol g
      = taggedOperators (fun t => t.RequestsSSL.head?.bind X.sslOperators) g := by
  unfold operatorsOf taggedOperators
  congr 1
  funext t
  cases hr : t.RequestsSSL with
  | nil => simp [memberOperators, hr]
  | cons r rs => cases ho : X.sslOperators r <;> simp [memberOperators, hr, ho]

/-- C27: `NewClusterExecuter` is safe on what `Cluster` produces. For every group `g` of
two or more templates returned by `Cluster`, `NewClusterExecuter(g)` returns (no index
is out of range) with a non-nil representative request, and one of three cases holds,
according to the bucket the group came from: the group is clustered on DNS, the protocol
is DNS, the representative is the single DNS request of the first member, every member
has a `RequestsDNS[0]`, and the operators list is, in member order, the members whose
compiled operators are non-nil, each tagged with the id and path of its member; or the
same for HTTP; or the same for TLS. -/
theorem NewClusterExecuter_on_Cluster {D H S Ops Res Err : Type} (P : Protocols D H S)
    (X : External D H S Ops Res Err) (ch : RangeChoice) (list : List (Template D H S))
    (groups : List (List (Template D H S))) (hrun : Cluster P ch list = some groups)
    (g : List (Template D H S)) (hg : g ∈ groups) (hsize : 2 ≤ g.length) :
    ∃ e, NewClusterExecuter X g = some e ∧ e.requests.isSome = true ∧
      ((ClusteredOn (fun t => t.RequestsDNS) P.dns.CanCluster (InDNS P) g ∧
          e.templateType = .DNSProtocol ∧
          (∃ a, g.head?.map (fun t => t.RequestsDNS) = some [a] ∧
            e.requests = some (Request.dns a)) ∧
          (∀ t ∈ g, (t.RequestsDNS[0]?).isSome = true) ∧
          e.operators = taggedOperators (fun t => t.RequestsDNS.head?.bind X.dnsOperators) g) ∨
        (ClusteredOn (fun t => t.RequestsHTTP) P.http.CanCluster (InHTTP P) g ∧
          e.templateType = .HTTPProtocol ∧
          (∃ a, g.head?.map (fun t => t.RequestsHTTP) = some [a] ∧
            e.requests = some (Request.http a)) ∧
          (∀ t ∈ g, (t.RequestsHTTP[0]?).isSome = true) ∧
          e.operators = taggedOperators (fun t => t.RequestsHTTP.head?.bind X.httpOperators) g) ∨
        (ClusteredOn (fun t => t.RequestsSSL) P.ssl.CanCluster (InSSL P) g ∧
          e.templateType = .SSLProtocol ∧
          (∃ a, g.head?.map (fun t => t.RequestsSSL) = some [a] ∧
            e.requests = some (Request.ssl a)) ∧
          (∀ t ∈ g, (t.RequestsSSL[0]?).isSome = true) ∧
          e.operators = taggedOperators (fun t => t.RequestsSSL.head?.bind X.sslOperators) g)) := by
  rcases Cluster_group_clustered P ch list groups hrun g hg hsize with hc | hc | hc
  · obtain ⟨hin, seed, rest, a, hgeq, ha, hrest⟩ := id hc
    have hnew := NewClusterExecuter_dns X seed rest a ha
      (fun o ho => (hrest o ho).imp fun _ h => h.1)
    rw [← hgeq] at hnew
    refine ⟨_, hnew, rfl, Or.inl ⟨hc, rfl, ⟨a, by simp [hgeq, ha], rfl⟩, ?_, operatorsOf_dns X g⟩⟩
    intro t ht
    obtain ⟨_, r, hr, _⟩ := hin t ht
    simp [hr]
  · obtain ⟨hin, seed, rest, a, hgeq, ha, hrest⟩ := id hc
    have hs := hin seed (by rw [hgeq]; exact List.mem_cons_self _ _)
    have hnew := NewClusterExecuter_http X seed rest a hs.2.1 ha
      (fun o ho => (hrest o ho).imp fun _ h => h.1)
    rw [← hgeq] at hnew
    refine ⟨_, hnew, rfl,
      Or.inr (Or.inl ⟨hc, rfl, ⟨a, by simp [hgeq, ha], rfl⟩, ?_, operatorsOf_http X g⟩)⟩
    intro t ht
    obtain ⟨_, _, r, hr, _⟩ := hin t ht
    simp [hr]
  · obtain ⟨hin, seed, rest, a, hgeq, ha, hrest⟩ := id hc
    have hs := hin seed (by rw [hgeq]; exact List.mem_cons_self _ _)
    have hnew := NewClusterExecuter_ssl X seed rest a hs.2.1 hs.2.2.1 ha
      (fun o ho => (hrest o ho).imp fun _ h => h.1)
    rw [← hgeq] at hnew
    refine ⟨_, hnew, rfl,
      Or.inr (Or.inr ⟨hc, rfl, ⟨a, by simp [hgeq, ha], rfl⟩, ?_, operatorsOf_ssl X g⟩)⟩
    intro t ht
    obtain ⟨_, _, _, r, hr, _⟩ := hin t ht
    simp [hr]

theorem NewClusterExecuter_on_Cluster_witness :
    Cluster demoProtocols demoChoice [demoHttp "a" 7, demoHttp "b" 8, demoHttp "c" 7]
        = some [[demoHttp "a" 7, demoHttp "c" 7], [demoHttp "b" 8]] ∧
    (NewClusterExecuter demoExternal [demoHttp "a" 7, demoHttp "c" 7]).map
        (fun e => (e.templateType, e.requests, e.operators))
      = some (.HTTPProtocol, some (Request.http 7),
          [{ templateID := "a", templatePath := "", operator := 7 },
           { templateID := "c", templatePath := "", operator := 7 }]) ∧
    (∃ e, NewClusterExecuter demoExternal [demoHttp "a" 7, demoHttp "c" 7] = some e ∧
      e.requests.isSome = true ∧
      ((ClusteredOn (fun t => t.RequestsDNS) demoProtocols.dns.CanCluster (InDNS demoProtocols)
            [demoHttp "a" 7, demoHttp "c" 7] ∧
          e.templateType = .DNSProtocol ∧
          (∃ a, [demoHttp "a" 7, demoHttp "c" 7].head?.map (fun t => t.RequestsDNS) = some [a] ∧
            e.requests = some (Request.dns a)) ∧
          (∀ t ∈ [demoHttp "a" 7, demoHttp "c" 7], (t.RequestsDNS[0]?).isSome = true) ∧
          e.operators = taggedOperators
              (fun t => t.RequestsDNS.head?.bind demoExternal.dnsOperators)
              [demoHttp "a" 7, demoHttp "c" 7]) ∨
        (ClusteredOn (fun t => t.RequestsHTTP) demoProtocols.http.CanCluster (InHTTP demoProtocols)
            [demoHttp "a" 7, demoHttp "c" 7] ∧
          e.templateType = .HTTPProtocol ∧
          (∃ a, [demoHttp "a" 7, demoHttp "c" 7].head?.map (fun t => t.RequestsHTTP) = some [a] ∧
            e.requests = some (Request.http a)) ∧
          (∀ t ∈ [demoHttp "a" 7, demoHttp "c" 7], (t.RequestsHTTP[0]?).isSome = true) ∧
          e.operators = taggedOperators
              (fun t => t.RequestsHTTP.head?.bind demoExternal.httpOperators)
              [demoHttp "a" 7, demoHttp "c" 7]) ∨
        (ClusteredOn (fun t => t.RequestsSSL) demoProtocols.ssl.CanCluster (InSSL demoProtocols)
            [demoHttp "a" 7, demoHttp "c" 7] ∧
          e.templateType = .SSLProtocol ∧
          (∃ a, [demoHttp "a" 7, demoHttp "c" 7].head?.map (fun t => t.RequestsSSL) = some [a] ∧
            e.requests = some (Request.ssl a)) ∧
          (∀ t ∈ [demoHttp "a" 7, demoHttp "c" 7], (t.RequestsSSL[0]?).isSome = true) ∧
          e.operators = taggedOperators
              (fun t => t.RequestsSSL.head?.bind demoExternal.sslOperators)
              [demoHttp "a" 7, demoHttp "c" 7]))) :=
  ⟨by decide, by decide, NewClusterExecuter_on_Cluster demoProtocols demoExternal demoChoice
    [demoHttp "a" 7, demoHttp "b" 8, demoHttp "c" 7]
    [[demoHttp "a" 7, demoHttp "c" 7], [demoHttp "b" 8]] (by decide)
    [demoHttp "a" 7, demoHttp "c" 7] (List.mem_cons_self _ _) (by decide)⟩

end Templates

namespace Errkit

/-! ## `SetClass` and `Class` -/

/-- C22 is violated by the code: on an `ErrorX` created by `New`, after `SetClass("c1")`
and then `SetClass("c2")` the stored class is `c2,c1`, `Class()` returns `c2` and
`Error()` starts with `class=c2 `; after a third `SetClass("c3")`, `Class()` returns
`c3,c2`. Only with a single `SetClass` is the class set first returned. -/
theorem Class_after_SetClass_not_first :
    (((New (.plain "x")).SetClass "c1").SetClass "c2").cls = "c2,c1" ∧
    (((New (.plain "x")).SetClass "c1").SetClass "c2").Class = "c2" ∧
    (((New (.plain "x")).SetClass "c1").SetClass "c2").Error defaultConfig = "class=c2 x" ∧
    ((((New (.plain "x")).SetClass "c1").SetClass "c2").SetClass "c3").Class = "c3,c2" ∧
    ((New (.plain "x")).SetClass "c1").Class = "c1" ∧
    ((New (.plain "x")).SetClass "c1").Error defaultConfig = "class=c1 x" := by
  decide

/-! ## `parseError` terminates -/

theorem splitGo_length_le (sep : List Char) : ∀ (s : List Char) (skip : Nat) (cur : List Char),
    ∀ p ∈ splitGo sep s skip cur, p.length ≤ cur.length + s.length := by
  intro s
  induction s with
  | nil =>
    intro skip cur p hp
    simp only [splitGo, List.mem_singleton] at hp
    simp [hp]
  | cons c cs ih =>
    intro skip cur p hp
    cases skip with
    | succ k =>
      simp only [splitGo] at hp
      have := ih k cur p hp
      simp only [List.length_cons]; omega
    | zero =>
      simp only [splitGo] at hp
      split at hp
      · rcases List.mem_cons.1 hp with h | h
        · simp [h]
        · have := ih _ [] p h
          simp only [List.length_cons, List.length_nil] at *; omega
      · have := ih 0 (c :: cur) p hp
        simp only [List.length_cons] at *; omega

theorem splitGo_length_lt (sep : List Char) (hsep : sep ≠ []) : ∀ (s cur : List Char),
    containsChars sep s = true → ∀ p ∈ splitGo sep s 0 cur, p.length < cur.length + s.length := by
  intro s
  induction s with
  | nil =>
    intro cur h
    cases sep with
    | nil => exact absurd rfl hsep
    | cons a as => simp [containsChars] at h
  | cons c cs ih =>
    intro cur h p hp
    simp only [splitGo] at hp
    split at hp
    · rcases List.mem_cons.1 hp with h1 | h1
      · simp [h1]
      · have := splitGo_length_le sep cs _ [] p h1
        simp only [List.length_cons, List.length_nil] at *; omega
    · rename_i hpre
      have hc : containsChars sep cs = true := by
        simp only [containsChars, Bool.or_eq_true] at h
        rcases h with h | h
        · exact absurd h hpre
        · exact h
      have := ih (c :: cur) hc p hp
      simp only [List.length_cons] at *; omega

theorem removeGo_length_le (old : List Char) : ∀ (s : List Char) (skip : Nat),
    (removeGo old s skip).length ≤ s.length := by
  intro s
  induction s with
  | nil => intro skip; simp [removeGo]
  | cons c cs ih =>
    intro skip
    cases skip with
    | succ k =>
      simp only [removeGo, List.length_cons]
      have := ih k; omega
    | zero =>
      simp only [removeGo]
      split
      · have := ih (old.length - 1); simp only [List.length_cons]; omega
      · have := ih 0; simp only [List.length_cons]; omega

theorem removeGo_length_lt (old : List Char) (hold : old ≠ []) : ∀ (s : List Char),
    containsChars old s = true → (removeGo old s 0).length < s.length := by
  intro s
  induction s with
  | nil =>
    intro h
    cases old with
    | nil => exact absurd rfl hold
    | cons a as => simp [containsChars] at h
  | cons c cs ih =>
    intro h
    simp only [removeGo]
    split
    · have := removeGo_length_le old cs (old.length - 1)
      simp only [List.length_cons]; omega
    · rename_i hpre
      have hc : containsChars old cs = true := by
        simp only [containsChars, Bool.or_eq_true] at h
        rcases h with h | h
        · exact absurd h hpre
        · exact h
      have := ih hc
      simp only [List.length_cons]; omega

theorem strTrimSpace_length_le (s : String) : (strTrimSpace s).length ≤ s.length := by
  have h1 := (List.dropWhile_sublist isSpace
    (l := (s.data.dropWhile isSpace).reverse)).length_le
  have h2 := (List.dropWhile_sublist isSpace (l := s.data)).length_le
  rw [List.length_reverse] at h1
  show ((s.data.dropWhile isSpace).reverse.dropWhile isSpace).reverse.length ≤ s.data.length
  rw [List.length_reverse]
  omega

theorem strSplit_length_le (s sep : String) : ∀ p ∈ strSplit s sep, p.length ≤ s.length := by
  intro p hp
  simp only [strSplit, List.mem_map] at hp
  obtain ⟨l, hl, rfl⟩ := hp
  have := splitGo_length_le sep.data s.data 0 [] l hl
  simp only [List.length_nil, Nat.zero_add] at this
  exact this

theorem strSplit_length_lt (s sep : String) (hsep : sep.data ≠ [])
    (h : strContains s sep = true) : ∀ p ∈ strSplit s sep, p.length < s.length := by
  intro p hp
  simp only [strSplit, List.mem_map] at hp
  obtain ⟨l, hl, rfl⟩ := hp
  have := splitGo_length_lt sep.data hsep s.data [] h l hl
  simp only [List.length_nil, Nat.zero_add] at this
  exact this

theorem strRemoveAll_length_le (s old : String) : (strRemoveAll s old).length ≤ s.length := by
  unfold strRemoveAll
  split
  · exact le_refl _
  · exact removeGo_length_le old.data s.data 0

theorem strRemoveAll_length_lt (s old : String) (hold : old.data ≠ [])
    (h : strContains s old = true) : (strRemoveAll s old).length < s.length := by
  unfold strRemoveAll
  have hne : old.data.isEmpty = false := by
    cases hd : old.data with
    | nil => exact absurd hd hold
    | cons a as => rfl
  simp only [hne, Bool.false_eq_true, if_false]
  exact removeGo_length_lt old.data hold s.data h

theorem parseParts_returned (step : ErrorX → String → ParseResult) (l : List String)
    (h : ∀ b, ∀ a ∈ l, ∃ r, step b a = .returned r) :
    ∀ b, ∃ r, parseParts step l b = .returned r := by
  induction l with
  | nil => intro b; exact ⟨b, rfl⟩
  | cons a as ih =>
    intro b
    obtain ⟨r, hr⟩ := h b a (List.mem_cons_self _ _)
    obtain ⟨r2, hr2⟩ := ih (fun b x hx => h b x (List.mem_cons_of_mem _ hx)) r
    exact ⟨r2, by simp [parseParts, hr, hr2]⟩

theorem parseErrorFuel_plain (cfg : Config) : ∀ (fuel : Nat) (msg : String) (target : ErrorX),
    msg.length < fuel → ∃ e, parseErrorFuel cfg fuel target (.plain msg) = .returned e := by
  intro fuel
  induction fuel with
  | zero => intro msg target h; omega
  | succ n ih =>
    intro msg target h
    have hstep : ∀ (parts : List String), (∀ p ∈ parts, p.length < msg.length) →
        ∀ b, ∃ r, parseParts
          (fun target part => parseErrorFuel cfg n target (.plain (strTrimSpace part))) parts b
            = .returned r := by
      intro parts hparts
      apply parseParts_returned
      intro b a ha
      apply ih
      have := strTrimSpace_length_le a
      have := hparts a ha
      omega
    rw [parseErrorFuel]
    split
    · exact ⟨_, rfl⟩
    · split
      · apply hstep
        intro p hp
        exact strSplit_length_lt msg DelimArrow (by decide) (by assumption) p
          (List.mem_reverse.1 hp)
      · split
        · apply hstep
          intro p hp
          exact strSplit_length_lt msg DelimSemiColon (by decide) (by assumption) p hp
        · split
          · apply hstep
            intro p hp
            have h1 := strSplit_length_le _ _ p hp
            have h2 := strRemoveAll_length_lt msg MultiLineErrPrefix (by decide) (by assumption)
            omega
          · exact ⟨_, rfl⟩

/-- An error on which `parseError` runs into the nil dereference of line 202: a
`CauseError` whose `Cause()` is nil. -/
theorem parseErrorFuel_nil_cause (cfg : Config) (fuel : Nat) (target : ErrorX) (msg : String) :
    parseErrorFuel cfg (fuel + 1) target (.cause msg none)
      = if cfg.MaxErrorDepth ≤ (target.errs.length : Int) then .returned target
        else .panicked := by
  rw [parseErrorFuel]

theorem parseErrorFuel_returns (cfg : Config) (target : ErrorX) (err : GoError)
    (hcause : ∀ msg, err ≠ .cause msg none) :
    ∃ e, parseErrorFuel cfg (err.weight + 2) target err = .returned e := by
  cases err with
  | errorX cls errs =>
    rw [parseErrorFuel]; split <;> exact ⟨_, rfl⟩
  | joined msg errs =>
    rw [parseErrorFuel]; split <;> exact ⟨_, rfl⟩
  | wrapped msg inner =>
    rw [parseErrorFuel]; split <;> exact ⟨_, rfl⟩
  | cause msg c =>
    cases c with
    | none => exact absurd rfl (hcause msg)
    | some c =>
      rw [parseErrorFuel]
      split
      · exact ⟨_, rfl⟩
      · simp only [GoError.weight]
        apply parseErrorFuel_plain
        have := strRemoveAll_length_le msg (GoError.Error cfg c)
        omega
  | plain msg =>
    apply parseErrorFuel_plain
    simp only [GoError.weight]; omega

theorem parseError_returns (cfg : Config) (target : ErrorX) (err : GoError)
    (hcause : ∀ msg, err ≠ .cause msg none) : ∃ e, parseError cfg target err = some e := by
  obtain ⟨e, he⟩ := parseErrorFuel_returns cfg target err hcause
  exact ⟨e, by simp [parseError, he, ParseResult.value]⟩

theorem parseErrorFuel_bound_not_reached (cfg : Config) (target : ErrorX) (err : GoError) :
    parseErrorFuel cfg (err.weight + 2) target err ≠ .boundReached := by
  by_cases hcause : ∀ msg, err ≠ .cause msg none
  · obtain ⟨e, he⟩ := parseErrorFuel_returns cfg target err hcause
    rw [he]; exact fun h => nomatch h
  · simp only [not_forall, not_not] at hcause
    obtain ⟨msg, rfl⟩ := hcause
    rw [parseErrorFuel_nil_cause]
    split <;> exact fun h => nomatch h

/-- C25 is violated by the code: `FromError` of a `CauseError` whose `Cause()` is nil does
not return. With the default depth of 3 the call of `parseError` panics, at the call
`v.Cause().Error()`; the bound on the depth of the recursion is not what ends it. On
every input the bound on the depth is never reached, so the recursion is well-founded,
and `parseError` returns on every error other than a `CauseError` with a nil cause. -/
theorem FromError_nil_cause_panics :
    FromError defaultConfig (.cause "x" none) = none ∧
    parseErrorFuel defaultConfig ((GoError.cause "x" none).weight + 2) { cls := "", errs := [] }
      (.cause "x" none) = .panicked ∧
    (FromError defaultConfig (.cause "x: y" (some (.plain "y")))).map (fun e => e.Unwrap.length)
      = some 2 ∧
    (∀ (cfg : Config) (target : ErrorX) (err : GoError),
      parseErrorFuel cfg (err.weight + 2) target err ≠ .boundReached) ∧
    (∀ (cfg : Config) (target : ErrorX) (err : GoError), (∀ msg, err ≠ .cause msg none) →
      ∃ e, parseError cfg target err = some e) :=
  ⟨rfl, rfl, by decide, parseErrorFuel_bound_not_reached, parseError_returns⟩

end Errkit

namespace Contextargs

/-! ## `GetScanHash`: the cached hash and the template id -/

/-- C26: once a `MetaInput` has computed its scan hash, the result no longer depends on
the template id. After `m.GetScanHash(t1)` the cached hash is not empty (an MD5 digest has
16 bytes), and the call `GetScanHash(t2)` on the receiver returns the string the first
call returned and leaves the receiver as it is, for every `t2`, also one that differs
from `t1`. -/
theorem GetScanHash_ignores_later_template {RR : Type} (md5Sum : String → Digest)
    (rrID : RR → String) (m : MetaInput RR) (t1 t2 : String) :
    (m.GetScanHash md5Sum rrID t1).2.hash ≠ "" ∧
    MetaInput.GetScanHash md5Sum rrID (m.GetScanHash md5Sum rrID t1).2 t2
      = ((m.GetScanHash md5Sum rrID t1).1, (m.GetScanHash md5Sum rrID t1).2) := by
  obtain ⟨hne, heq⟩ := GetScanHash_hash_ne_empty md5Sum rrID m t1
  have hb : ((m.GetScanHash md5Sum rrID t1).2.hash == "") = false := by simpa using hne
  refine ⟨hne, ?_⟩
  rw [MetaInput.GetScanHash]
  simp only [hb, Bool.false_eq_true, if_false, heq]

end Contextargs

namespace HTTP

/-! ## The host-errors cache in the serial and fuzzing modes: proofs -/

/-- C29 is violated by the code: with only the executor option `StopAtFirstMatch` set,
the decision of `fuzzRequestCallback` is `false`, and after a request that matched the
callback returns `true` and the fuzzing goes on, while the serial closure returns `skip`;
at every other place the decision is the disjunction of the three flags. -/
theorem fuzzing_ignores_executor_flag :
    stopDecision { global := false, executor := true, request := false } .fuzzing = false ∧
    fuzzRequestCallback demoIsStop { global := false, executor := true, request := false }
      false none true = true ∧
    (executeFunc demoIsStop { global := false, executor := true, request := false } none
      (.executed none true)).skip = true ∧
    (∀ (flags : StopFlags) (site : StopSite), site ≠ .fuzzing →
      stopDecision flags site = flags.shouldStopAtFirstMatch) ∧
    (∀ flags : StopFlags, stopDecision flags .fuzzing = (flags.global || flags.request)) := by
  refine ⟨by decide, by decide, by decide, ?_, fun _ => rfl⟩
  intro flags site hsite
  obtain ⟨g, e, r⟩ := flags
  cases site <;> first | exact absurd rfl hsite | (cases g <;> cases e <;> cases r <;> rfl)

/-! ## The end of the modes run through the stop-at-first-match handler: proofs -/

theorem multierrCombine_eq_none {Err : Type} (results : List (Option Err)) :
    multierrCombine results = none ↔ ∀ r ∈ results, r = none := by
  unfold multierrCombine
  constructor
  · intro h r hr
    split at h
    · rename_i he
      rw [List.isEmpty_iff] at he
      cases r with
      | none => rfl
      | some e =>
        have : e ∈ results.filterMap id := List.mem_filterMap.mpr ⟨some e, hr, rfl⟩
        rw [he] at this
        simp at this
    · simp at h
  · intro h
    have : results.filterMap id = [] := by
      rw [List.filterMap_eq_nil_iff]
      intro a ha
      rw [h a ha]
      rfl
    simp [this]

/-- C24: in the modes run through the stop-at-first-match handler (parallel, pipelined,
race), once all tasks have finished the mode returns nil when the handler reports that
a first match fired, whatever errors the tasks sent; otherwise it returns
`multierr.Combine` of the collected results, which is nil iff no non-nil error was
collected. -/
theorem spmReturn_spec {Err : Type} (mode : SPMMode) (results : List (Option Err)) :
    spmReturn mode true results = none ∧
    spmReturn mode false results = multierrCombine results ∧
    (spmReturn mode false results = none ↔ ∀ r ∈ results, r = none) := by
  have h1 : spmReturn mode true results = none := by cases mode <;> rfl
  have h2 : spmReturn mode false results = multierrCombine results := by cases mode <;> rfl
  exact ⟨h1, h2, by rw [h2]; exact multierrCombine_eq_none results⟩

/-! ## `createResponseHexDump`: proofs -/

theorem indexGo_ge (sub : List Char) : ∀ (s : List Char) (i : Nat), -1 ≤ indexGo sub s i := by
  intro s
  induction s with
  | nil => intro i; simp only [indexGo]; split <;> omega
  | cons c cs ih =>
    intro i
    simp only [indexGo]
    split
    · omega
    · exact ih (i + 1)

/-- C28 is violated by the code: for the two-byte response `ab`, which has no blank
line, the split index is 3, past the end of the response, and the slice expression
panics; so does the empty response. For `abcdef`, which has no blank line either, the
first three bytes are taken as headers and the rest is dumped as the body. No response
at all reaches the branch that dumps the whole response. A response with a blank line
is split after it. -/
theorem createResponseHexDump_without_blank_line :
    createResponseHexDump "ab" = none ∧
    createResponseHexDump "" = none ∧
    strIndex "ab" (CRLF ++ CRLF) + (CRLF ++ CRLF).length = 3 ∧
    createResponseHexDump "abcdef" = some (.split "abc" "def") ∧
    (∀ response r : String, createResponseHexDump response ≠ some (.whole r)) ∧
    createResponseHexDump "H: v\r\n\r\nbody" = some (.split "H: v\r\n\r\n" "body") := by
  refine ⟨by decide, by decide, by decide, by decide, ?_, by decide⟩
  intro response r
  unfold createResponseHexDump
  have h := indexGo_ge (CRLF ++ CRLF).data response.data 0
  have hl : ((CRLF ++ CRLF).length : Int) = 4 := by decide
  simp only [strIndex]
  rw [if_pos (by omega)]
  split <;> simp

end HTTP

namespace Mysql

/-! ## The memoization keys: proofs -/

theorem digitChar_spec : ∀ k, k < 10 →
    isDecimalDigit (Nat.digitChar k) = true ∧ (Nat.digitChar k).toNat - 48 = k := by
  decide

theorem toDigitsCore_spec : ∀ (fuel n : Nat) (ds : List Char), n < fuel →
    ∃ l, Nat.toDigitsCore 10 fuel n ds = l ++ ds ∧ l ≠ [] ∧
      (∀ c ∈ l, isDecimalDigit c = true) ∧ decimalValue l = n := by
  intro fuel
  induction fuel with
  | zero => intro n ds h; omega
  | succ f ih =>
    intro n ds h
    have hd := digitChar_spec (n % 10) (Nat.mod_lt _ (by decide))
    rw [Nat.toDigitsCore]
    by_cases h0 : n / 10 = 0
    · simp only [h0, if_true]
      refine ⟨[Nat.digitChar (n % 10)], rfl, by simp, by simpa using hd.1, ?_⟩
      simp only [decimalValue, List.foldl_cons, List.foldl_nil, hd.2]
      omega
    · simp only [h0, if_false]
      obtain ⟨l, hl, _, hdig, hval⟩ := ih (n / 10) (Nat.digitChar (n % 10) :: ds) (by omega)
      refine ⟨l ++ [Nat.digitChar (n % 10)], by simp [hl], by simp, ?_, ?_⟩
      · intro c hc
        rcases List.mem_append.mp hc with hc | hc
        · exact hdig c hc
        · simp only [List.mem_singleton] at hc
          rw [hc]; exact hd.1
      · unfold decimalValue at hval ⊢
        rw [List.foldl_append, hval]
        simp only [List.foldl_cons, List.foldl_nil, hd.2]
        omega

theorem repr_spec (n : Nat) :
    (Nat.repr n).data ≠ [] ∧ (∀ c ∈ (Nat.repr n).data, isDecimalDigit c = true) ∧
      decimalValue (Nat.repr n).data = n := by
  obtain ⟨l, hl, hne, hdig, hval⟩ := toDigitsCore_spec (n + 1) n [] (Nat.lt_succ_self n)
  have : (Nat.repr n).data = l := by
    simp only [Nat.repr, Nat.toDigits, hl, List.append_nil, List.asString]
  rw [this]
  exact ⟨hne, hdig, hval⟩

theorem toString_int_ofNat (n : Nat) : (toString (Int.ofNat n)).data = (Nat.repr n).data := rfl

theorem toString_int_negSucc (n : Nat) :
    (toString (Int.negSucc n)).data = '-' :: (Nat.repr (n + 1)).data := rfl

theorem toString_int_no_colon (port : Int) : ':' ∉ (toString port).data := by
  have hdig : ∀ n : Nat, ':' ∉ (Nat.repr n).data := by
    intro n hc
    have := (repr_spec n).2.1 ':' hc
    exact absurd this (by decide)
  cases port with
  | ofNat n => rw [toString_int_ofNat]; exact hdig n
  | negSucc n =>
    rw [toString_int_negSucc]
    intro hc
    rcases List.mem_cons.mp hc with h | h
    · exact absurd h (by decide)
    · exact hdig _ h

theorem repr_injective (a b : Nat) (h : (Nat.repr a).data = (Nat.repr b).data) : a = b := by
  rw [← (repr_spec a).2.2, ← (repr_spec b).2.2, h]

theorem toString_int_injective (p q : Int) (h : (toString p).data = (toString q).data) :
    p = q := by
  have hhead : ∀ n : Nat, ∀ rest, (Nat.repr n).data ≠ '-' :: rest := by
    intro n rest hc
    have := (repr_spec n).2.1 '-' (by rw [hc]; exact List.mem_cons_self _ _)
    exact absurd this (by decide)
  cases p with
  | ofNat a =>
    cases q with
    | ofNat b =>
      rw [toString_int_ofNat, toString_int_ofNat] at h
      rw [repr_injective a b h]
    | negSucc b =>
      rw [toString_int_ofNat, toString_int_negSucc] at h
      exact absurd h (hhead a _)
  | negSucc a =>
    cases q with
    | ofNat b =>
      rw [toString_int_ofNat, toString_int_negSucc] at h
      exact absurd h.symm (hhead b _)
    | negSucc b =>
      rw [toString_int_negSucc, toString_int_negSucc] at h
      have := repr_injective (a + 1) (b + 1) (List.cons.inj h).2
      have hab : a = b := by omega
      rw [hab]

theorem split_at_last_colon : ∀ (h1 h2 p1 p2 : List Char), ':' ∉ p1 → ':' ∉ p2 →
    h1 ++ ':' :: p1 = h2 ++ ':' :: p2 → h1 = h2 ∧ p1 = p2
  | [], [], p1, p2, _, _, h => ⟨rfl, (List.cons.inj h).2⟩
  | [], c :: h2, p1, p2, hp1, _, h => by
    have := (List.cons.inj h).2
    exact absurd (by rw [this]; simp) hp1
  | c :: h1, [], p1, p2, _, hp2, h => by
    have := (List.cons.inj h).2
    exact absurd (by rw [← this]; simp) hp2
  | c :: h1, d :: h2, p1, p2, hp1, hp2, h => by
    obtain ⟨hc, ht⟩ := List.cons.inj h
    obtain ⟨hh, hp⟩ := split_at_last_colon h1 h2 p1 p2 hp1 hp2 ht
    exact ⟨by rw [hc, hh], hp⟩

theorem host_port_key_injective (pre : String) (h1 h2 : String) (p1 p2 : Int)
    (h : pre ++ h1 ++ ":" ++ toString p1 = pre ++ h2 ++ ":" ++ toString p2) :
    h1 = h2 ∧ p1 = p2 := by
  have hd := congrArg String.data h
  simp only [String.data_append, List.append_assoc] at hd
  have hd2 := List.append_cancel_left hd
  simp only [List.singleton_append] at hd2
  obtain ⟨hh, hp⟩ := split_at_last_colon h1.data h2.data _ _ (toString_int_no_colon p1)
    (toString_int_no_colon p2) hd2
  exact ⟨String.ext hh, toString_int_injective p1 p2 hp⟩

theorem head_ne_of_data (a b : String) (x y : Char) (ra rb : List Char)
    (ha : a.data = x :: ra) (hb : b.data = y :: rb) (hxy : x ≠ y) : a ≠ b := by
  intro h
  rw [h, hb] at ha
  exact hxy (List.cons.inj ha).1.symm

theorem connectWithDSNKey_data (dsn : String) :
    (connectWithDSNKey dsn).data = 'c' :: ("onnectWithDSN:".data ++ dsn.data) := by
  simp only [connectWithDSNKey, String.data_append]; rfl

theorem isMySQLKey_data (host : String) (port : Int) :
    (isMySQLKey host port).data
      = 'i' :: ("sMySQL:".data ++ host.data ++ ":".data ++ (toString port).data) := by
  simp only [isMySQLKey, String.data_append]; rfl

theorem fingerprintMySQLKey_data (host : String) (port : Int) :
    (fingerprintMySQLKey host port).data
      = 'f' :: ("ingerprintMySQL:".data ++ host.data ++ ":".data ++ (toString port).data) := by
  simp only [fingerprintMySQLKey, String.data_append]; rfl

/-- C30: the memoization keys of the MySQL probes never collide. The key of
`memoizedisMySQL` and the key of `memoizedfingerprintMySQL` are injective in the pair
(host, port), for every host string and every integer port; the key of
`memoizedconnectWithDSN` is injective in the DSN; and keys of two different wrappers are
never equal. The keys are the ones the wrappers call the memoizer with. -/
theorem memo_keys_never_collide :
    (∀ (h1 h2 : String) (p1 p2 : Int),
      isMySQLKey h1 p1 = isMySQLKey h2 p2 → h1 = h2 ∧ p1 = p2) ∧
    (∀ (h1 h2 : String) (p1 p2 : Int),
      fingerprintMySQLKey h1 p1 = fingerprintMySQLKey h2 p2 → h1 = h2 ∧ p1 = p2) ∧
    (∀ d1 d2 : String, connectWithDSNKey d1 = connectWithDSNKey d2 → d1 = d2) ∧
    (∀ (d h : String) (p : Int), connectWithDSNKey d ≠ isMySQLKey h p) ∧
    (∀ (d h : String) (p : Int), connectWithDSNKey d ≠ fingerprintMySQLKey h p) ∧
    (∀ (h1 h2 : String) (p1 p2 : Int), isMySQLKey h1 p1 ≠ fingerprintMySQLKey h2 p2) ∧
    (∀ (f : String → Bool × Option Errkit.GoError) (d : String),
      (memoizedconnectWithDSN (keyProbe : MemoizerDo Unit) f d).2
        = some (.plain (connectWithDSNKey d))) ∧
    (∀ (f : String → Int → Bool × Option Errkit.GoError) (h : String) (p : Int),
      (memoizedisMySQL (keyProbe : MemoizerDo Unit) f h p).2
        = some (.plain (isMySQLKey h p))) ∧
    (∀ (f : String → Int → Unit × Option Errkit.GoError) (h : String) (p : Int),
      (memoizedfingerprintMySQL () (keyProbe : MemoizerDo Unit) f h p).2
        = some (.plain (fingerprintMySQLKey h p))) ∧
    isMySQLKey "a:1" 2 = "isMySQL:a:1:2" ∧ isMySQLKey "a" (-3306) = "isMySQL:a:-3306" := by
  refine ⟨?_, ?_, ?_, ?_, ?_, ?_, fun _ _ => rfl, fun _ _ _ => rfl, fun _ _ _ => rfl,
    by decide, by decide⟩
  · intro h1 h2 p1 p2 h
    exact host_port_key_injective "isMySQL:" h1 h2 p1 p2 h
  · intro h1 h2 p1 p2 h
    exact host_port_key_injective "fingerprintMySQL:" h1 h2 p1 p2 h
  · intro d1 d2 h
    have hd := congrArg String.data h
    simp only [connectWithDSNKey, String.data_append] at hd
    exact String.ext (List.append_cancel_left hd)
  · intro d h p
    exact head_ne_of_data _ _ _ _ _ _ (connectWithDSNKey_data d) (isMySQLKey_data h p)
      (by decide)
  · intro d h p
    exact head_ne_of_data _ _ _ _ _ _ (connectWithDSNKey_data d) (fingerprintMySQLKey_data h p)
      (by decide)
  · intro h1 h2 p1 p2
    exact head_ne_of_data _ _ _ _ _ _ (isMySQLKey_data h1 p1) (fingerprintMySQLKey_data h2 p2)
      (by decide)

end Mysql
